import Mathlib

/-!
# Event reporter: change detection and resource streaming

A shallow embedding of `event_reporter/reporter/application_event_reporter.go`
and `event_reporter/controller/controller.go`.

Conventions of the embedding:

* Go structs are Lean structures with the Go field names; `reflect.DeepEqual`
  on them is Lean equality.  A Go `map[string]string` is `Option GoMap`
  (`none` is the nil map, `some` a non-nil map, possibly empty), because
  `reflect.DeepEqual` tells a nil map from an empty one.
* A function that mutates an argument through a pointer returns the new value
  of that argument next to its result.
* Calls to collaborators that are not part of this package (the RPC client, the
  delivery sink, the lister, the settings provider, JSON coding, payload
  construction) are fields of `Env`; every call of an RPC or of the sink is
  appended to `World.calls`, the cache is `World.cache`.
-/

namespace EventReporter

/-! ## Data model -/

/-- A non-nil Go `map[string]string`.  The entries are kept in increasing key
order so that two maps with the same bindings are the same value, as
`reflect.DeepEqual` has it. -/
structure GoMap where
  entries : List (String × String)
  sorted : entries.Pairwise (fun a b => a.1.data < b.1.data)

instance : DecidableEq GoMap := fun a b =>
  decidable_of_iff (a.entries = b.entries) (by cases a; cases b; simp)

/-- The builtin `delete(m, k)` on a non-nil map. -/
def GoMap.delete (m : GoMap) (k : String) : GoMap :=
  ⟨m.entries.filter (fun e => e.1 ≠ k), m.sorted.filter _⟩

/-- A Go map value: `none` is the nil map. -/
abbrev StringMap := Option GoMap

/-- The builtin `delete(m, k)`: a no-op on the nil map. -/
def StringMap.delete (m : StringMap) (k : String) : StringMap :=
  m.map (fun g => g.delete k)

/-- The Kubernetes type `metav1.Time`, a point in time. -/
abbrev Time := Nat

/-- The Kubernetes type `metav1.TypeMeta`. -/
structure TypeMeta where
  Kind : String
  APIVersion : String
  deriving DecidableEq

/-- The Kubernetes type `metav1.ObjectMeta` (§3: identity, annotations,
labels, resourceVersion, generation; §4.4: generateName, managedFields).
`Other` stands for the remaining fields (uid, timestamps, finalizers, owners),
which the code never reads one by one. -/
structure ObjectMeta where
  Name : String
  GenerateName : String
  Namespace : String
  ResourceVersion : String
  Generation : Int
  Labels : StringMap
  Annotations : StringMap
  ManagedFields : List String
  DeletionTimestamp : Option Time
  Other : String
  deriving DecidableEq

/-- The type `health.HealthStatusCode`, a string. -/
abbrev HealthStatusCode := String

/-- The constant `health.HealthStatusHealthy`. -/
def HealthStatusHealthy : HealthStatusCode := "Healthy"

/-- Modelled from the spec: `appv1.HealthStatus`. -/
structure HealthStatus where
  Status : HealthStatusCode
  Message : String
  deriving DecidableEq

/-- Modelled from the spec: `appv1.ResourceStatus` (§3: group, version, kind,
name, namespace, health, syncStatus, hook). -/
structure ResourceStatus where
  Group : String
  Version : String
  Kind : String
  Namespace : String
  Name : String
  Status : String
  Health : Option HealthStatus
  Hook : Bool
  RequiresPruning : Bool
  SyncWave : Int
  deriving DecidableEq

/-- Modelled from the spec: `appv1.ApplicationCondition` (§3: typed, carrying a
message and a last-transition timestamp). -/
structure ApplicationCondition where
  Type_ : String
  Message : String
  LastTransitionTime : Option Time
  deriving DecidableEq

/-- Modelled from the spec: `appv1.SyncStatus` (§4.5: `sync.revision`,
`sync.revisions`). -/
structure SyncStatus where
  Status : String
  Revision : String
  Revisions : List String
  deriving DecidableEq

/-- Modelled from the spec: `appv1.ResourceResult`, one per-resource outcome of
a sync (fields as the test of `parseResourceSyncResultErrors` sets them). -/
structure ResourceResult where
  Group : String
  Version : String
  Kind : String
  Namespace : String
  Name : String
  Status : String
  Message : String
  HookType : String
  HookPhase : String
  SyncPhase : String
  deriving DecidableEq

/-- Modelled from the spec: `appv1.SyncOperationResult`. -/
structure SyncOperationResult where
  Resources : List ResourceResult
  Revision : String
  Source : String
  deriving DecidableEq

/-- Modelled from the spec: `appv1.Operation`, the requested operation. -/
structure Operation where
  Sync : Option String
  InitiatedBy : String
  deriving DecidableEq

/-- Modelled from the spec: `appv1.OperationState`. -/
structure OperationState where
  Operation : Operation
  Phase : String
  Message : String
  SyncResult : Option SyncOperationResult
  StartedAt : Time
  FinishedAt : Option Time
  deriving DecidableEq

/-- Modelled from the spec: `appv1.ApplicationSpec`.  `Project` is the one
field the code reads; `Definition` stands for the rest of the desired-spec
block (sources, destination, sync policy). -/
structure ApplicationSpec where
  Project : String
  Definition : String
  deriving DecidableEq

/-- Modelled from the spec: `appv1.ApplicationStatus` (§3). -/
structure ApplicationStatus where
  Resources : List ResourceStatus
  Sync : SyncStatus
  Health : HealthStatus
  Conditions : List ApplicationCondition
  ReconciledAt : Option Time
  OperationState : Option OperationState
  Summary : String
  deriving DecidableEq

/-- Modelled from the spec: `appv1.Application`, the ApplicationRecord. -/
structure Application where
  TypeMeta : TypeMeta
  ObjectMeta : ObjectMeta
  Spec : ApplicationSpec
  Status : ApplicationStatus
  Operation : Option Operation
  deriving DecidableEq

/-- The Kubernetes type `watch.EventType` (§3: Added, Modified, Deleted,
Bookmark, Error). -/
inductive EventType where
  | Added
  | Modified
  | Deleted
  | Bookmark
  | Error
  deriving DecidableEq

/-- Modelled from the spec: `appv1.ApplicationWatchEvent`. -/
structure ApplicationWatchEvent where
  Type_ : EventType
  Application : Application
  deriving DecidableEq

/-! ## Event cache -/

/-- Modelled from the spec: the ApplicationEventFingerprint of §3, the identity
(namespace and name) of the application. -/
structure AppKey where
  Namespace : String
  Name : String
  deriving DecidableEq

/-- Modelled from the spec: the ResourceEventFingerprint of §3: parent
application identity, resource group/version/kind, name and namespace, and the
latest revision of the application. -/
structure ResourceEventKey where
  App : AppKey
  Group : String
  Version : String
  Kind : String
  Name : String
  Namespace : String
  Revision : String
  deriving DecidableEq

/-- Modelled from the spec: the Event Cache of §4.1, two maps.  Expiry is not
modelled: an expired entry is an absent one.  `Available = false` is a backend
fault: every read and every write returns an error. -/
structure Cache where
  LastApplicationEvent : AppKey → Option Application
  LastResourceEvent : ResourceEventKey → Option ResourceStatus
  Available : Bool

/-- Cache key of an application. -/
def lastApplicationEventKey (a : Application) : AppKey :=
  ⟨a.ObjectMeta.Namespace, a.ObjectMeta.Name⟩

/-- Cache key of a resource of an application at a revision. -/
def lastResourceEventKey (a : Application) (rs : ResourceStatus) (revision : String) :
    ResourceEventKey :=
  ⟨lastApplicationEventKey a, rs.Group, rs.Version, rs.Kind, rs.Name, rs.Namespace, revision⟩

/-- Modelled from the spec: `GetLastApplicationEvent(app) → (record, miss)`.
The Go result `(*Application, error)`: `.error` is a backend fault, `.ok none`
a miss, `.ok (some a)` a hit. -/
def Cache.GetLastApplicationEvent (c : Cache) (a : Application) :
    Except String (Option Application) :=
  if c.Available then .ok (c.LastApplicationEvent (lastApplicationEventKey a))
  else .error "cache: backend unavailable"

/-- Modelled from the spec: `SetLastApplicationEvent(app, ttl)`; the error is
`some`. -/
def Cache.SetLastApplicationEvent (c : Cache) (a : Application) (_ttl : Int) :
    Option String × Cache :=
  if c.Available then
    (none, { c with LastApplicationEvent := fun k =>
      if k = lastApplicationEventKey a then some a else c.LastApplicationEvent k })
  else (some "cache: backend unavailable", c)

/-- Modelled from the spec: `GetLastResourceEvent`; the Go result is
`(ResourceStatus, error)` and a miss is an error. -/
def Cache.GetLastResourceEvent (c : Cache) (a : Application) (rs : ResourceStatus)
    (revision : String) : Except String ResourceStatus :=
  if c.Available then
    match c.LastResourceEvent (lastResourceEventKey a rs revision) with
    | some cached => .ok cached
    | none => .error "cache: key is missing"
  else .error "cache: backend unavailable"

/-- Modelled from the spec: `SetLastResourceEvent(app, rs, ttl, revision)`. -/
def Cache.SetLastResourceEvent (c : Cache) (a : Application) (rs : ResourceStatus)
    (_ttl : Int) (revision : String) : Option String × Cache :=
  if c.Available then
    (none, { c with LastResourceEvent := fun k =>
      if k = lastResourceEventKey a rs revision then some rs else c.LastResourceEvent k })
  else (some "cache: backend unavailable", c)

/-! ## Diff / decision logic -/

/-- The annotation that `applicationMetadataChanged` drops. -/
def lastAppliedConfiguration : String := "kubectl.kubernetes.io/last-applied-configuration"

/-- The loop `for i := range conds { conds[i].LastTransitionTime = nil }`. -/
def clearLastTransitionTime (conds : List ApplicationCondition) : List ApplicationCondition :=
  conds.map (fun c => { c with LastTransitionTime := none })

/-- Source: `applicationMetadataChanged`. -/
def applicationMetadataChanged (ae : ApplicationWatchEvent) (cachedApp : Application) : Bool :=
  if ae.Type_ ≠ EventType.Modified then false
  else
    let cachedAppMeta := cachedApp.ObjectMeta
    let newEventAppMeta := ae.Application.ObjectMeta
    let (newEventAppMeta, cachedAppMeta) :=
      if newEventAppMeta.Annotations ≠ none then
        ({ newEventAppMeta with
            Annotations := newEventAppMeta.Annotations.delete lastAppliedConfiguration },
         { cachedAppMeta with
            Annotations := cachedAppMeta.Annotations.delete lastAppliedConfiguration })
      else (newEventAppMeta, cachedAppMeta)
    let cachedAppMeta := { cachedAppMeta with ResourceVersion := newEventAppMeta.ResourceVersion }
    let cachedAppMeta := { cachedAppMeta with Generation := newEventAppMeta.Generation }
    let cachedAppMeta := { cachedAppMeta with GenerateName := newEventAppMeta.GenerateName }
    let newEventAppMeta := { newEventAppMeta with ManagedFields := [] }
    let cachedAppMeta := { cachedAppMeta with ManagedFields := [] }
    !decide (newEventAppMeta = cachedAppMeta)

/-- Source: `ShouldSendApplicationEvent`.  The result is the Go pair
`(shouldSend, syncStatusChanged)` and the event as the call leaves it (the
function clears `LastTransitionTime` in the conditions of `ae` in place). -/
def ShouldSendApplicationEvent (cache : Cache) (ae : ApplicationWatchEvent) :
    (Bool × Bool) × ApplicationWatchEvent :=
  if ae.Type_ = EventType.Deleted then ((true, false), ae)
  else
    match cache.GetLastApplicationEvent ae.Application with
    | .error _ => ((true, false), ae)
    | .ok none => ((true, false), ae)
    | .ok (some cachedApp) =>
      let cachedApp := { cachedApp with
        Status := { cachedApp.Status with ReconciledAt := ae.Application.Status.ReconciledAt } }
      let cachedApp := { cachedApp with
        Spec := { cachedApp.Spec with Project := ae.Application.Spec.Project } }
      let cachedApp := { cachedApp with
        Status := { cachedApp.Status with
          Conditions := clearLastTransitionTime cachedApp.Status.Conditions } }
      let ae := { ae with
        Application := { ae.Application with
          Status := { ae.Application.Status with
            Conditions := clearLastTransitionTime ae.Application.Status.Conditions } } }
      if ae.Application.Status.Health.Status = HealthStatusHealthy
          ∧ cachedApp.Status.Health.Status ≠ HealthStatusHealthy then
        ((true, true), ae)
      else if ae.Application.Spec ≠ cachedApp.Spec then ((true, false), ae)
      else if ae.Application.Status ≠ cachedApp.Status then ((true, false), ae)
      else if ae.Application.Operation ≠ cachedApp.Operation then ((true, false), ae)
      else if applicationMetadataChanged ae cachedApp then ((true, false), ae)
      else ((false, false), ae)

/-! ## Desired state of a resource -/

/-- The Kubernetes type `schema.GroupVersionKind`. -/
structure GroupVersionKind where
  Group : String
  Version : String
  Kind : String
  deriving DecidableEq

/-- The method `GroupVersionKind.String()`: `Group + "/" + Version + ", Kind=" + Kind`. -/
def GroupVersionKind.String_ (gvk : GroupVersionKind) : String :=
  gvk.Group ++ "/" ++ gvk.Version ++ ", Kind=" ++ gvk.Kind

/-- The method `ResourceStatus.GroupVersionKind()`. -/
def ResourceStatus.GroupVersionKind (rs : ResourceStatus) : GroupVersionKind :=
  ⟨rs.Group, rs.Version, rs.Kind⟩

/-- The parsed manifest, the Kubernetes type `unstructured.Unstructured`, as its
accessors `GroupVersionKind()`, `GetName()`, `GetNamespace()` show it. -/
structure Unstructured where
  GroupVersionKind : GroupVersionKind
  Name : String
  Namespace : String
  deriving DecidableEq

/-- Modelled from the spec: `apiclient.Manifest`; `{}` is the empty manifest. -/
structure Manifest where
  CompiledManifest : String := ""
  RawManifest : String := ""
  Path : String := ""
  Line : Int := 0
  deriving DecidableEq

/-- Modelled from the spec: `apiclient.ApplicationVersions`, a versions block. -/
structure ApplicationVersions where
  AppVersion : String
  deriving DecidableEq

/-- Modelled from the spec: `apiclient.ManifestResponse` (§6:
`ManifestResponse{manifests[], applicationVersions?}`). -/
structure ManifestResponse where
  Manifests : List Manifest
  ApplicationVersions : Option ApplicationVersions
  deriving DecidableEq

/-- The function `text.FirstNonEmpty`: the first non-empty argument, or `""`. -/
def FirstNonEmpty (args : List String) : String :=
  (args.find? (fun s => s ≠ "")).getD ""

/-- The constant `kube.SecretKind`. -/
def SecretKind : String := "Secret"

/-- The body of the `for _, m := range ds.Manifests` loop of
`getResourceDesiredState`, from the manifest at the head of the list on.  The
result is the manifest returned and the list as the loop leaves it (the matched
element is a pointer, so the Secret overwrite is done in place). -/
def getResourceDesiredState.search
    (UnmarshalToUnstructured : String → Except String (Option Unstructured))
    (rs : ResourceStatus) : List Manifest → Manifest × List Manifest
  | [] => ({}, [])
  | m :: rest =>
    match UnmarshalToUnstructured m.CompiledManifest with
    | .error _ =>
      let r := getResourceDesiredState.search UnmarshalToUnstructured rs rest
      (r.1, m :: r.2)
    | .ok none =>
      let r := getResourceDesiredState.search UnmarshalToUnstructured rs rest
      (r.1, m :: r.2)
    | .ok (some u) =>
      let ns := FirstNonEmpty [u.Namespace, rs.Namespace]
      if u.GroupVersionKind.String_ = rs.GroupVersionKind.String_
          ∧ u.Name = rs.Name ∧ ns = rs.Namespace then
        let m :=
          if rs.Kind = SecretKind ∧ rs.Version = "v1" then
            { m with RawManifest := m.CompiledManifest }
          else m
        (m, m :: rest)
      else
        let r := getResourceDesiredState.search UnmarshalToUnstructured rs rest
        (r.1, m :: r.2)

/-- Source: `getResourceDesiredState`.  `ds = none` is the nil response.  The
result is the manifest returned and `ds` as the call leaves it.
`UnmarshalToUnstructured` is `appv1.UnmarshalToUnstructured`: an error, a nil
object (`.ok none`) or the parsed object. -/
def getResourceDesiredState
    (UnmarshalToUnstructured : String → Except String (Option Unstructured))
    (rs : ResourceStatus) (ds : Option ManifestResponse) : Manifest × Option ManifestResponse :=
  match ds with
  | none => ({}, none)
  | some resp =>
    let r := getResourceDesiredState.search UnmarshalToUnstructured rs resp.Manifests
    (r.1, some { resp with Manifests := r.2 })

/-! ## Collaborators -/

/-- Modelled from the spec: the ApplicationTree of §3, used only as an input of
payload construction. -/
structure ApplicationTree where
  Nodes : List String
  deriving DecidableEq

/-- Modelled from the spec: `utils.AppSyncRevisionsMetadata`, used only as an
input of payload construction. -/
structure AppSyncRevisionsMetadata where
  SyncRevisions : List String
  deriving DecidableEq

/-- Modelled from the spec: the OutboundEvent of §3, an envelope whose content
this package does not inspect. -/
structure EventPayload where
  Body : String
  deriving DecidableEq

/-- Modelled from the spec: the ParentAppIdentity of §3. -/
structure ParentAppIdentity where
  Name : String
  Namespace : String
  deriving DecidableEq

/-- Modelled from the spec: `ArgoTrackingMetadata`, the tracking settings. -/
structure ArgoTrackingMetadata where
  AppInstanceLabelKey : String
  TrackingMethod : String
  deriving DecidableEq

/-- Modelled from the spec: `application.ApplicationResourceRequest` (§6). -/
structure ApplicationResourceRequest where
  Name : String
  AppNamespace : String
  Namespace : String
  ResourceName : String
  Version : String
  Group : String
  Kind : String
  Project : String
  deriving DecidableEq

/-- Modelled from the spec: `application.ApplicationResourceResponse` (§6:
`{ manifest: string }`); the Go field is a `*string`. -/
structure ApplicationResourceResponse where
  Manifest : Option String
  deriving DecidableEq

/-- Modelled from the spec: the struct `ReportedResourceAsApp`, declared in
another file of the package; the fields are those `processResource` fills. -/
structure ReportedResourceAsApp where
  app : Option Application
  revisionsMetadata : Option AppSyncRevisionsMetadata
  applicationVersions : Option ApplicationVersions
  deriving DecidableEq

/-- Modelled from the spec: the struct `ReportedResource`, declared in another
file of the package; the fields are those `processResource` fills. -/
structure ReportedResource where
  rs : ResourceStatus
  actualState : ApplicationResourceResponse
  desiredState : Manifest
  manifestGenErr : Bool
  rsAsAppInfo : ReportedResourceAsApp
  deriving DecidableEq

/-- Modelled from the spec: the struct `ReportedEntityParentApp`, declared in
another file of the package; the fields are those its callers fill. -/
structure ReportedEntityParentApp where
  app : Application
  appTree : Option ApplicationTree
  revisionsMetadata : Option AppSyncRevisionsMetadata
  deriving DecidableEq

/-- A call of the RPC client or of the delivery sink, with its arguments. -/
inductive Call where
  | ResourceTree (applicationName project appNamespace : String)
  | GetManifests (name appNamespace : String) (revision : Option String) (project : String)
  | Get (name appNamespace : String)
  | GetResource (req : ApplicationResourceRequest)
  | SendEvent (appName : String) (ev : EventPayload)
  deriving DecidableEq

/-- Everything the two source files call and do not define: the external
collaborators of §6 and the functions of this repository that are not part of
the two files.  An `Except String` result is the Go pair `(value, error)`, an
`Option String` result is a Go `error`. -/
structure Env where
  /-- The settings provider `settingsMgr.GetAppInstanceLabelKey()`. -/
  GetAppInstanceLabelKey : Except String String
  /-- The function `argoutil.GetTrackingMethod(settingsMgr)`. -/
  GetTrackingMethod : String
  /-- The RPC `applicationServiceClient.ResourceTree`. -/
  ResourceTree : (applicationName project appNamespace : String) → Except String ApplicationTree
  /-- The RPC `applicationServiceClient.GetManifests`. -/
  GetManifests : (name appNamespace : String) → (revision : Option String) →
    (project : String) → Except String ManifestResponse
  /-- The RPC `applicationServiceClient.Get`. -/
  Get : (name appNamespace : String) → Except String Application
  /-- The RPC `applicationServiceClient.GetResource`. -/
  GetResource : ApplicationResourceRequest → Except String ApplicationResourceResponse
  /-- The delivery sink `khulnasoftClient.SendEvent`. -/
  SendEvent : (appName : String) → EventPayload → Option String
  /-- The lister `appLister.Applications(namespace).Get(name)`. -/
  ListerGet : (appNamespace name : String) → Except String Application
  /-- The method `getApplicationRevisionsMetadata` of the reporter. -/
  getApplicationRevisionsMetadata : Application →
    Except String (Option AppSyncRevisionsMetadata)
  /-- The method `getApplicationEventPayload` of the reporter; `.ok none` is the
  nil payload of a record without operation state. -/
  getApplicationEventPayload : Application → Option ApplicationTree → String →
    Option ApplicationVersions → ArgoTrackingMetadata → Except String (Option EventPayload)
  /-- The function `getResourceEventPayload`. -/
  getResourceEventPayload : String → ReportedResource → ReportedEntityParentApp →
    ArgoTrackingMetadata → Except String EventPayload
  /-- The function `utils.IsApp`. -/
  IsApp : ResourceStatus → Bool
  /-- The function `utils.SetHealthStatusIfMissing`, as the new value of its argument. -/
  SetHealthStatusIfMissing : ResourceStatus → ResourceStatus
  /-- The function `utils.GetApplicationLatestRevision`. -/
  GetApplicationLatestRevision : Application → String
  /-- The function `utils.GetOperationStateRevision`; `none` is nil. -/
  GetOperationStateRevision : Application → Option String
  /-- The function `utils.GetParentAppIdentity`. -/
  GetParentAppIdentity : Application → String → String → ParentAppIdentity
  /-- The function `utils.IsChildApp`. -/
  IsChildApp : ParentAppIdentity → Bool
  /-- The function `utils.GetAppAsResource`. -/
  GetAppAsResource : Application → ResourceStatus
  /-- The method `Application.IsEmptyTypeMeta`. -/
  IsEmptyTypeMeta : Application → Bool
  /-- The type meta that the method `Application.SetDefaultTypeMeta` sets. -/
  DefaultTypeMeta : TypeMeta
  /-- The call `json.Marshal(childApplication)`. -/
  jsonMarshal : Application → Except String String
  /-- The call `json.Unmarshal(manifest, &appRes)`. -/
  jsonUnmarshal : String → Except String Application
  /-- The function `appv1.UnmarshalToUnstructured`. -/
  UnmarshalToUnstructured : String → Except String (Option Unstructured)
  /-- The function `env.ParseNumFromEnv(env, defaultValue, min, max)`, which
  reads the process environment. -/
  ParseNumFromEnv : (env : String) → (defaultValue min max : Int) → Int

/-- The state the reporter and the controller act on: the event cache and the
calls made so far, oldest first. -/
structure World where
  cache : Cache
  calls : List Call

/-- Record a call. -/
def World.call (w : World) (c : Call) : World :=
  { w with calls := w.calls ++ [c] }

/-! ## Configuration -/

/-- The constant `argocommon.EnvApplicationEventCacheDuration` (§6). -/
def EnvApplicationEventCacheDuration : String := "APPLICATION_EVENT_CACHE_DURATION"

/-- The constant `argocommon.EnvResourceEventCacheDuration` (§6). -/
def EnvResourceEventCacheDuration : String := "RESOURCE_EVENT_CACHE_DURATION"

/-- The constant `math.MaxInt32`. -/
def MaxInt32 : Int := 2147483647

/-- The constant `time.Minute`, in nanoseconds (the unit of `time.Duration`). -/
def timeMinute : Int := 60 * 1000000000

/-- Multiplication of two `time.Duration` values, an `int64`. -/
def durationMul (x y : Int) : Int :=
  (x * y + 2 ^ 63) % 2 ^ 64 - 2 ^ 63

/-- Source: `resourceEventCacheExpiration` (reporter), in nanoseconds. -/
def resourceEventCacheExpiration (env : Env) : Int :=
  durationMul timeMinute (env.ParseNumFromEnv EnvResourceEventCacheDuration 20 0 MaxInt32)

/-- Source: `applicationEventCacheExpiration` (controller), in nanoseconds. -/
def applicationEventCacheExpiration (env : Env) : Int :=
  durationMul timeMinute (env.ParseNumFromEnv EnvApplicationEventCacheDuration 20 0 MaxInt32)

/-- The constant `watchAPIBufferSize`. -/
def watchAPIBufferSize : Nat := 1000

/-! ## Application event reporter -/

/-- Search of a list of characters for a contiguous sub-list. -/
def containsChars : List Char → List Char → Bool
  | [], substr => substr.isEmpty
  | c :: cs, substr => substr.isPrefixOf (c :: cs) || containsChars cs substr

/-- The function `strings.Contains`. -/
def stringsContains (s substr : String) : Bool :=
  containsChars s.data substr.data

/-- Modelled from the spec: the getter `ApplicationSpec.GetProject`, which
substitutes the default project name for an empty `Project` (§4.4). -/
def ApplicationSpec.GetProject (spec : ApplicationSpec) : String :=
  if spec.Project = "" then "default" else spec.Project

/-- Modelled from the spec: the method `Application.SetDefaultTypeMeta`, as the
new value of its receiver.  The spec does not describe it; by its name and the
comment at its call (`make sure there is type meta on object`) it sets the type
meta of the record and nothing else. -/
def SetDefaultTypeMeta (env : Env) (a : Application) : Application :=
  { a with TypeMeta := env.DefaultTypeMeta }

/-- The value a Go call leaves next to an error. -/
def valueOrNil {α : Type} (r : Except String (Option α)) : Option α :=
  match r with
  | .ok v => v
  | .error _ => none

/-- Source: `shouldSendResourceEvent`. -/
def shouldSendResourceEvent (env : Env) (cache : Cache) (a : Application)
    (rs : ResourceStatus) : Bool :=
  match cache.GetLastResourceEvent a rs (env.GetApplicationLatestRevision a) with
  | .error _ => true
  | .ok cachedRes => if cachedRes = rs then false else true

/-- Source: `getDesiredManifests`. -/
def getDesiredManifests (env : Env) (w : World) (a : Application) (revision : Option String) :
    (ManifestResponse × Bool) × World :=
  let project := a.Spec.GetProject
  let w := w.call (.GetManifests a.ObjectMeta.Name a.ObjectMeta.Namespace revision project)
  match env.GetManifests a.ObjectMeta.Name a.ObjectMeta.Namespace revision project with
  | .error _ => (({ Manifests := [], ApplicationVersions := none }, true), w)
  | .ok desiredManifests => ((desiredManifests, false), w)

/-- Source: `resolveApplicationVersions`. -/
def resolveApplicationVersions (env : Env) (w : World) (a : Application) :
    Option ApplicationVersions × World :=
  match env.GetOperationStateRevision a with
  | none => (none, w)
  | some syncRevision =>
    let r := getDesiredManifests env w a (some syncRevision)
    (r.1.1.ApplicationVersions, r.2)

/-- Source: `getAppForResourceReporting`. -/
def getAppForResourceReporting (env : Env) (rs : ResourceStatus) (a : Application)
    (syncRevisionsMetadata : Option AppSyncRevisionsMetadata) :
    Application × Option AppSyncRevisionsMetadata :=
  if rs.Kind ≠ "Rollout" then (a, syncRevisionsMetadata)
  else
    match env.ListerGet a.ObjectMeta.Namespace a.ObjectMeta.Name with
    | .error _ => (a, syncRevisionsMetadata)
    | .ok latestAppStatus =>
      match env.getApplicationRevisionsMetadata latestAppStatus with
      | .error _ => (a, syncRevisionsMetadata)
      | .ok revisionMetadataToReport => (latestAppStatus, revisionMetadataToReport)

/-- The `ApplicationResourceRequest` that `getResourceActualState` builds. -/
def getResourceActualState.request (rs : ResourceStatus) (parentApplication : Application) :
    ApplicationResourceRequest :=
  { Name := parentApplication.ObjectMeta.Name
    AppNamespace := parentApplication.ObjectMeta.Namespace
    Namespace := rs.Namespace
    ResourceName := rs.Name
    Version := rs.Version
    Group := rs.Group
    Kind := rs.Kind
    Project := parentApplication.Spec.GetProject }

/-- The second half of `getResourceActualState`: the `GetResource` call and the
handling of its error. -/
def getResourceActualState.viaGetResource (env : Env) (w : World) (rs : ResourceStatus)
    (parentApplication : Application) :
    Except String (Option ApplicationResourceResponse) × World :=
  let req := getResourceActualState.request rs parentApplication
  let w := w.call (.GetResource req)
  match env.GetResource req with
  | .error err =>
    if !stringsContains err "not found" then
      if stringsContains err "context deadline exceeded" then
        (.error ("failed to get actual state: " ++ err), w)
      else (.ok none, w)
    else (.ok (some { Manifest := some "" }), w)
  | .ok actualState => (.ok (some actualState), w)

/-- Source: `getResourceActualState`.  The result is the Go pair, the world and
`childApplication` as the call leaves it (its type meta may be set).  With
`IsApp(rs)` and a nil `childApplication` the Go code dereferences nil; that
panic is the error `"panic: nil pointer dereference"` here. -/
def getResourceActualState (env : Env) (w : World) (rs : ResourceStatus)
    (parentApplication : Application) (childApplication : Option Application) :
    Except String (Option ApplicationResourceResponse) × World × Option Application :=
  if env.IsApp rs then
    match childApplication with
    | none => (.error "panic: nil pointer dereference", w, none)
    | some child =>
      let child := if env.IsEmptyTypeMeta child then SetDefaultTypeMeta env child else child
      match env.jsonMarshal child with
      | .ok manifestBytes =>
        if manifestBytes.length > 0 then
          (.ok (some { Manifest := some manifestBytes }), w, some child)
        else
          let r := getResourceActualState.viaGetResource env w rs parentApplication
          (r.1, r.2, some child)
      | .error _ =>
        let r := getResourceActualState.viaGetResource env w rs parentApplication
        (r.1, r.2, some child)
  else
    let r := getResourceActualState.viaGetResource env w rs parentApplication
    (r.1, r.2, childApplication)

/-- What a call of `processResource` leaves: the error it returns, the world,
and its two pointer arguments that it may update. -/
structure ProcessResourceResult where
  err : Option String
  world : World
  desiredManifests : Option ManifestResponse
  originalApplication : Option Application

/-- The `appName` that `processResource` computes before `SendEvent`: the name
of the application parsed from the manifest when the resource is an application
and its manifest is there and parses, the name of the parent application
otherwise. -/
def processResource.appName (env : Env) (rs : ResourceStatus)
    (actualState : ApplicationResourceResponse)
    (reportedEntityParentApp : ReportedEntityParentApp) : String :=
  if env.IsApp rs then
    match actualState.Manifest with
    | none => reportedEntityParentApp.app.ObjectMeta.Name
    | some manifest =>
      match env.jsonUnmarshal manifest with
      | .ok appRes => appRes.ObjectMeta.Name
      | .error _ => reportedEntityParentApp.app.ObjectMeta.Name
  else reportedEntityParentApp.app.ObjectMeta.Name

/-- The call of `getResourceEventPayload` that `processResource` makes, with the
`ReportedResource` and `ReportedEntityParentApp` it builds for it. -/
def processResource.payload (env : Env) (appEventProcessingStartedAt : String)
    (rs : ResourceStatus) (actualState : ApplicationResourceResponse) (desiredState : Manifest)
    (manifestGenErr : Bool) (originalApplication : Option Application)
    (applicationVersions : Option ApplicationVersions)
    (reportedEntityParentApp : ReportedEntityParentApp)
    (argoTrackingMetadata : ArgoTrackingMetadata) : Except String EventPayload :=
  let toReport := getAppForResourceReporting env rs reportedEntityParentApp.app
    reportedEntityParentApp.revisionsMetadata
  let parentApplicationToReport := toReport.1
  let revisionMetadataToReport := toReport.2
  let originalAppRevisionMetadata : Option AppSyncRevisionsMetadata :=
    match originalApplication with
    | none => none
    | some oa => valueOrNil (env.getApplicationRevisionsMetadata oa)
  env.getResourceEventPayload appEventProcessingStartedAt
    { rs := rs
      actualState := actualState
      desiredState := desiredState
      manifestGenErr := manifestGenErr
      rsAsAppInfo :=
        { app := originalApplication
          revisionsMetadata := originalAppRevisionMetadata
          applicationVersions := applicationVersions } }
    { app := parentApplicationToReport
      appTree := reportedEntityParentApp.appTree
      revisionsMetadata := revisionMetadataToReport }
    argoTrackingMetadata

/-- Source: `processResource`.  Metrics and logging are left out; payload
construction is taken to leave its arguments unchanged. -/
def processResource (env : Env) (w : World) (rs : ResourceStatus)
    (appEventProcessingStartedAt : String) (desiredManifests : Option ManifestResponse)
    (manifestGenErr : Bool) (originalApplication : Option Application)
    (applicationVersions : Option ApplicationVersions)
    (reportedEntityParentApp : ReportedEntityParentApp)
    (argoTrackingMetadata : ArgoTrackingMetadata) : ProcessResourceResult :=
  let d := getResourceDesiredState env.UnmarshalToUnstructured rs desiredManifests
  let desiredState := d.1
  let desiredManifests := d.2
  match getResourceActualState env w rs reportedEntityParentApp.app originalApplication with
  | (.error err, w, originalApplication) => ⟨some err, w, desiredManifests, originalApplication⟩
  | (.ok none, w, originalApplication) => ⟨none, w, desiredManifests, originalApplication⟩
  | (.ok (some actualState), w, originalApplication) =>
    let parentApplicationToReport := (getAppForResourceReporting env rs
      reportedEntityParentApp.app reportedEntityParentApp.revisionsMetadata).1
    match processResource.payload env appEventProcessingStartedAt rs actualState desiredState
        manifestGenErr originalApplication applicationVersions reportedEntityParentApp
        argoTrackingMetadata with
    | .error _ => ⟨none, w, desiredManifests, originalApplication⟩
    | .ok ev =>
      let appName := processResource.appName env rs actualState reportedEntityParentApp
      let w := w.call (.SendEvent appName ev)
      match env.SendEvent appName ev with
      | some err =>
        if stringsContains err "context deadline exceeded" then
          ⟨some ("failed to send resource event: " ++ err), w, desiredManifests,
            originalApplication⟩
        else ⟨none, w, desiredManifests, originalApplication⟩
      | none =>
        let written := w.cache.SetLastResourceEvent parentApplicationToReport rs
          (resourceEventCacheExpiration env)
          (env.GetApplicationLatestRevision parentApplicationToReport)
        ⟨none, { w with cache := written.2 }, desiredManifests, originalApplication⟩

/-- The loop `for _, rs := range a.Status.Resources` of `StreamApplicationEvents`,
from the resource at the head of the list on. -/
def StreamApplicationEvents.resources (env : Env) (a : Application)
    (eventProcessingStartedAt : String) (ignoreResourceCache : Bool)
    (argoTrackingMetadata : ArgoTrackingMetadata) (appTree : Option ApplicationTree)
    (revisionsMetadata : Option AppSyncRevisionsMetadata) (manifestGenErr : Bool) :
    List ResourceStatus → World → Option ManifestResponse → Option String × World
  | [], w, _ => (none, w)
  | rs :: rest, w, desiredManifests =>
    if env.IsApp rs then
      StreamApplicationEvents.resources env a eventProcessingStartedAt ignoreResourceCache
        argoTrackingMetadata appTree revisionsMetadata manifestGenErr rest w desiredManifests
    else
      let rs := env.SetHealthStatusIfMissing rs
      if !ignoreResourceCache && !shouldSendResourceEvent env w.cache a rs then
        StreamApplicationEvents.resources env a eventProcessingStartedAt ignoreResourceCache
          argoTrackingMetadata appTree revisionsMetadata manifestGenErr rest w desiredManifests
      else
        let r := processResource env w rs eventProcessingStartedAt desiredManifests manifestGenErr
          none none { app := a, appTree := appTree, revisionsMetadata := revisionsMetadata }
          argoTrackingMetadata
        match r.err with
        | some err => (some err, r.world)
        | none =>
          StreamApplicationEvents.resources env a eventProcessingStartedAt ignoreResourceCache
            argoTrackingMetadata appTree revisionsMetadata manifestGenErr rest r.world
            r.desiredManifests

/-- The tail of `StreamApplicationEvents`: the revisions metadata of `a` and the
walk over its resources. -/
def StreamApplicationEvents.walk (env : Env) (w : World) (a : Application)
    (eventProcessingStartedAt : String) (ignoreResourceCache : Bool)
    (argoTrackingMetadata : ArgoTrackingMetadata) (appTree : Option ApplicationTree)
    (desiredManifests : ManifestResponse) (manifestGenErr : Bool) :
    Option String × World × Application :=
  let revisionsMetadata := valueOrNil (env.getApplicationRevisionsMetadata a)
  let r := StreamApplicationEvents.resources env a eventProcessingStartedAt ignoreResourceCache
    argoTrackingMetadata appTree revisionsMetadata manifestGenErr a.Status.Resources w
    (some desiredManifests)
  (r.1, r.2, a)

/-- The part of `StreamApplicationEvents` that follows the `ResourceTree` call;
`appTree = none` is the nil tree of a failed call. -/
def StreamApplicationEvents.afterTree (env : Env) (w : World) (a : Application)
    (eventProcessingStartedAt : String) (ignoreResourceCache : Bool)
    (argoTrackingMetadata : ArgoTrackingMetadata) (appTree : Option ApplicationTree) :
    Option String × World × Application :=
  let dm := getDesiredManifests env w a none
  let desiredManifests := dm.1.1
  let manifestGenErr := dm.1.2
  let w := dm.2
  let av := resolveApplicationVersions env w a
  let applicationVersions := av.1
  let w := av.2
  let parentAppIdentity := env.GetParentAppIdentity a argoTrackingMetadata.AppInstanceLabelKey
    argoTrackingMetadata.TrackingMethod
  if env.IsChildApp parentAppIdentity then
    let w := w.call (.Get parentAppIdentity.Name parentAppIdentity.Namespace)
    match env.Get parentAppIdentity.Name parentAppIdentity.Namespace with
    | .error err => (some ("failed to get parent application entity: " ++ err), w, a)
    | .ok parentApplicationEntity =>
      let rs := env.GetAppAsResource a
      let rs := env.SetHealthStatusIfMissing rs
      let pdm := getDesiredManifests env w parentApplicationEntity none
      let parentDesiredManifests := pdm.1.1
      let parentManifestGenErr := pdm.1.2
      let w := pdm.2
      let parentAppSyncRevisionsMetadata :=
        valueOrNil (env.getApplicationRevisionsMetadata parentApplicationEntity)
      let r := processResource env w rs eventProcessingStartedAt (some parentDesiredManifests)
        parentManifestGenErr (some a) applicationVersions
        { app := parentApplicationEntity
          appTree := appTree
          revisionsMetadata := parentAppSyncRevisionsMetadata }
        argoTrackingMetadata
      let a := r.originalApplication.getD a
      match r.err with
      | some err => (some err, r.world, a)
      | none =>
        StreamApplicationEvents.walk env r.world a eventProcessingStartedAt ignoreResourceCache
          argoTrackingMetadata appTree desiredManifests manifestGenErr
  else
    match env.getApplicationEventPayload a appTree eventProcessingStartedAt applicationVersions
        argoTrackingMetadata with
    | .error err => (some ("failed to get application event: " ++ err), w, a)
    | .ok none => (none, w, a)
    | .ok (some appEvent) =>
      let w := w.call (.SendEvent a.ObjectMeta.Name appEvent)
      match env.SendEvent a.ObjectMeta.Name appEvent with
      | some err =>
        (some ("failed to send event for root application " ++ a.ObjectMeta.Namespace ++ "/"
          ++ a.ObjectMeta.Name ++ ": " ++ err), w, a)
      | none =>
        StreamApplicationEvents.walk env w a eventProcessingStartedAt ignoreResourceCache
          argoTrackingMetadata appTree desiredManifests manifestGenErr

/-- Source: `StreamApplicationEvents`.  The result is the error returned, the
world and `a` as the call leaves it.  Metrics and logging are left out. -/
def StreamApplicationEvents (env : Env) (w : World) (a : Application)
    (eventProcessingStartedAt : String) (ignoreResourceCache : Bool)
    (argoTrackingMetadata : ArgoTrackingMetadata) : Option String × World × Application :=
  let project := a.Spec.GetProject
  let w := w.call (.ResourceTree a.ObjectMeta.Name project a.ObjectMeta.Namespace)
  let tree := env.ResourceTree a.ObjectMeta.Name project a.ObjectMeta.Namespace
  match tree with
  | .error err =>
    if stringsContains err "context deadline exceeded" then
      (some ("failed to get application tree: " ++ err), w, a)
    else StreamApplicationEvents.afterTree env w a eventProcessingStartedAt ignoreResourceCache
      argoTrackingMetadata none
  | .ok appTree => StreamApplicationEvents.afterTree env w a eventProcessingStartedAt
      ignoreResourceCache argoTrackingMetadata (some appTree)

/-! ## Controller loop -/

/-- Source: the closure `sendIfPermitted` of `Run`. -/
def sendIfPermitted (env : Env) (w : World) (a : Application) (eventType : EventType)
    (eventProcessingStartedAt : String) (ignoreResourceCache : Bool) : Option String × World :=
  if eventType = EventType.Bookmark then (none, w)
  else
    match env.GetAppInstanceLabelKey with
    | .error err => (some err, w)
    | .ok appInstanceLabelKey =>
      let trackingMethod := env.GetTrackingMethod
      let r := StreamApplicationEvents env w a eventProcessingStartedAt ignoreResourceCache
        { AppInstanceLabelKey := appInstanceLabelKey, TrackingMethod := trackingMethod }
      match r.1 with
      | some err => (some err, r.2.1)
      | none =>
        let written := r.2.1.cache.SetLastApplicationEvent r.2.2
          (applicationEventCacheExpiration env)
        match written.1 with
        | some err => (some err, { r.2.1 with cache := written.2 })
        | none => (none, { r.2.1 with cache := written.2 })

/-- Source: the body of the `case event := <-eventsChannel` branch of `Run`:
the handling of one event.  `eventProcessingStartedAt` is the formatted
`time.Now()`.  The result is the error that the branch logs, if any, and the
world. -/
def Run.handleEvent (env : Env) (w : World) (event : ApplicationWatchEvent)
    (eventProcessingStartedAt : String) : Option String × World :=
  let decision := ShouldSendApplicationEvent w.cache event
  let shouldProcess := decision.1.1
  let ignoreResourceCache := decision.1.2
  let event := decision.2
  if !shouldProcess then (none, w)
  else
    sendIfPermitted env w event.Application event.Type_ eventProcessingStartedAt
      ignoreResourceCache

/-! ## Sync result errors -/

/-- The constant `common.SyncPhaseSync`. -/
def SyncPhaseSync : String := "Sync"

/-- The constant `common.OperationFailed`. -/
def OperationFailed : String := "Failed"

/-- The constant `common.OperationSucceeded`. -/
def OperationSucceeded : String := "Succeeded"

/-- Modelled from the spec: `events.ObjectError`, with the fields that the test
of `parseResourceSyncResultErrors` reads. -/
structure ObjectError where
  Type_ : String
  Level : String
  Message : String
  deriving DecidableEq

/-- Modelled from the spec: the test that tells whether a sync-result entry is
the entry of a resource: same group, kind, namespace and name, in the given
sync phase. -/
def ResourceResult.isEntryOf (r : ResourceResult) (group kind ns name phase : String) : Bool :=
  decide (r.Group = group) && decide (r.Kind = kind) && decide (r.Namespace = ns)
    && decide (r.Name = name) && decide (r.SyncPhase = phase)

/-- Modelled from the spec: `parseResourceSyncResultErrors`, which is not among
the source files.  The spec does not describe it; the definition follows its
test `TestParseResourceSyncResultErrors`: the entry of the resource in the sync
phase is looked up in the sync result, and a failed entry gives one error of
type `sync` and level `error` that carries the message of the entry as it is. -/
def parseResourceSyncResultErrors (rs : ResourceStatus) (os : OperationState) :
    List ObjectError :=
  match os.SyncResult with
  | none => []
  | some syncResult =>
    match syncResult.Resources.find?
        (fun r => r.isEntryOf rs.Group rs.Kind rs.Namespace rs.Name SyncPhaseSync) with
    | none => []
    | some sr =>
      if sr.HookPhase = OperationFailed then
        [{ Type_ := "sync", Level := "error", Message := sr.Message }]
      else []

/-! ## Reference definitions -/

/-- Rule 3 of §4.4 on one record: clear `status.reconciledAt`, take the
incoming `spec.project`, clear `lastTransitionTime` on every condition. -/
def normalise (incomingProject : String) (a : Application) : Application :=
  { a with
    Spec := { a.Spec with Project := incomingProject }
    Status := { a.Status with
      ReconciledAt := none
      Conditions := a.Status.Conditions.map (fun c =>
        ({ Type_ := c.Type_, Message := c.Message, LastTransitionTime := none } :
          ApplicationCondition)) } }

/-- The annotations of a metadata block as a map of bindings: a record without
an annotations map has the map without bindings. -/
def annotationsOf (m : ObjectMeta) : GoMap :=
  match m.Annotations with
  | some g => g
  | none => ⟨[], List.Pairwise.nil⟩

/-- Rule 8 of §4.4 on one metadata block: drop the last-applied-configuration
annotation, take the incoming `resourceVersion`, `generation` and
`generateName`, clear `managedFields`.  The annotations are compared as
bindings, so a map left without bindings by the drop is the same as no map
(the case that the metadata noise immunity of §8 names). -/
def normaliseMetadata (incoming m : ObjectMeta) : ObjectMeta :=
  { m with
    Annotations := some ((annotationsOf m).delete lastAppliedConfiguration)
    ResourceVersion := incoming.ResourceVersion
    Generation := incoming.Generation
    GenerateName := incoming.GenerateName
    ManagedFields := [] }

/-- Rules 5 to 9 of §4.4 as the spec words them: after normalisation the spec
differs, or the status differs, or the operation block differs, or the event is
Modified and the normalised metadata differs. -/
def specChangeDetected (kind : EventType) (incoming cached : Application) : Bool :=
  let i := normalise incoming.Spec.Project incoming
  let c := normalise incoming.Spec.Project cached
  decide (i.Spec ≠ c.Spec) || decide (i.Status ≠ c.Status)
    || decide (i.Operation ≠ c.Operation)
    || (decide (kind = EventType.Modified)
        && decide (normaliseMetadata incoming.ObjectMeta incoming.ObjectMeta
            ≠ normaliseMetadata incoming.ObjectMeta cached.ObjectMeta))

/-- One of the two records has an annotations map and the other has none (in Go:
one map is nil and the other is not). -/
def oneAnnotationsMapIsNil (incoming cached : Application) : Bool :=
  incoming.ObjectMeta.Annotations.isSome != cached.ObjectMeta.Annotations.isSome

/-- Source: the metadata block that `applicationMetadataChanged` hands to
`reflect.DeepEqual`, in closed form: the annotation is deleted from the map, the
three fields are those of the incoming block, `managedFields` is nil.  A nil
annotations map stays nil and is not an empty map. -/
def deepEqualMetadata (incoming m : ObjectMeta) : ObjectMeta :=
  { m with
    Annotations := m.Annotations.delete lastAppliedConfiguration
    ResourceVersion := incoming.ResourceVersion
    Generation := incoming.Generation
    GenerateName := incoming.GenerateName
    ManagedFields := [] }

/-- Source: the four `reflect.DeepEqual` tests that `ShouldSendApplicationEvent`
makes after the health test, in closed form (lemma
`ShouldSendApplicationEvent_hit`). -/
def deepEqualChangeDetected (kind : EventType) (incoming cached : Application) : Bool :=
  let i := normalise incoming.Spec.Project incoming
  let c := normalise incoming.Spec.Project cached
  decide (i.Spec ≠ c.Spec) || decide (i.Status ≠ c.Status)
    || decide (i.Operation ≠ c.Operation)
    || (decide (kind = EventType.Modified)
        && decide (deepEqualMetadata incoming.ObjectMeta incoming.ObjectMeta
            ≠ deepEqualMetadata incoming.ObjectMeta cached.ObjectMeta))

/-- A metadata block without the fields that the metadata noise immunity of §8
names: `resourceVersion`, `generation`, `generateName`, `managedFields` and the
last-applied-configuration annotation (a nil annotations map stays nil). -/
def withoutMetadataNoise (m : ObjectMeta) : ObjectMeta :=
  { m with
    ResourceVersion := ""
    Generation := 0
    GenerateName := ""
    ManagedFields := []
    Annotations := m.Annotations.delete lastAppliedConfiguration }

/-- The Secret rule of `getResourceDesiredState` (§4.5, processResource step 1):
for a resource of kind Secret and version v1 the raw manifest is overwritten
with the compiled manifest. -/
def secretPolicy (rs : ResourceStatus) (m : Manifest) : Manifest :=
  if rs.Kind = "Secret" ∧ rs.Version = "v1" then { m with RawManifest := m.CompiledManifest }
  else m

/-- The match of §4.5 (processResource step 1) as the spec words it: the
compiled manifest parses, its group/version/kind and name are the resource's,
and its namespace is the resource's or is omitted.  Group, version and kind are
compared the way the code compares them, through the rendering
`group/version, Kind=kind`. -/
def isDesiredStateOf (parse : String → Except String (Option Unstructured))
    (rs : ResourceStatus) (m : Manifest) : Bool :=
  match parse m.CompiledManifest with
  | .ok (some u) =>
    decide (u.GroupVersionKind.String_ = rs.GroupVersionKind.String_)
      && decide (u.Name = rs.Name)
      && (decide (u.Namespace = "") || decide (u.Namespace = rs.Namespace))
  | _ => false

/-- The match of §4.5 with group, version and kind compared one by one. -/
def isDesiredStateOfByParts (parse : String → Except String (Option Unstructured))
    (rs : ResourceStatus) (m : Manifest) : Bool :=
  match parse m.CompiledManifest with
  | .ok (some u) =>
    decide (u.GroupVersionKind = rs.GroupVersionKind)
      && decide (u.Name = rs.Name)
      && (decide (u.Namespace = "") || decide (u.Namespace = rs.Namespace))
  | _ => false

/-- Group and version as Kubernetes writes them: no `/` in the group and no `,`
in the version. -/
def GroupVersionKind.WellFormed (gvk : GroupVersionKind) : Prop :=
  '/' ∉ gvk.Group.data ∧ ',' ∉ gvk.Version.data

instance (gvk : GroupVersionKind) : Decidable gvk.WellFormed :=
  inferInstanceAs (Decidable ('/' ∉ gvk.Group.data ∧ ',' ∉ gvk.Version.data))

/-- Two caches with the same application entries and the same backend state. -/
def Cache.sameApplications (c c' : Cache) : Prop :=
  c'.LastApplicationEvent = c.LastApplicationEvent ∧ c'.Available = c.Available

/-- The reading of "carries no condition transition times": every condition of
the record has a nil last-transition time. -/
def Application.noTransitionTimes (a : Application) : Prop :=
  ∀ c ∈ a.Status.Conditions, c.LastTransitionTime = none

/-- The reading of "every condition has lastTransitionTime cleared and no other
field of the incoming record is changed": `after` carries no transition time,
its conditions are those of `before` in number, order, type and message, and
every other field of the event, of the record and of its status is the one of
`before`. -/
def onlyTransitionTimesCleared (before after : ApplicationWatchEvent) : Prop :=
  after.Application.noTransitionTimes
  ∧ after.Application.Status.Conditions.map (fun c => (c.Type_, c.Message))
      = before.Application.Status.Conditions.map (fun c => (c.Type_, c.Message))
  ∧ after.Type_ = before.Type_
  ∧ after.Application.TypeMeta = before.Application.TypeMeta
  ∧ after.Application.ObjectMeta = before.Application.ObjectMeta
  ∧ after.Application.Spec = before.Application.Spec
  ∧ after.Application.Operation = before.Application.Operation
  ∧ after.Application.Status.Resources = before.Application.Status.Resources
  ∧ after.Application.Status.Sync = before.Application.Status.Sync
  ∧ after.Application.Status.Health = before.Application.Status.Health
  ∧ after.Application.Status.ReconciledAt = before.Application.Status.ReconciledAt
  ∧ after.Application.Status.OperationState = before.Application.Status.OperationState
  ∧ after.Application.Status.Summary = before.Application.Status.Summary

/-! ## Example inputs -/

/-- A healthy, synced root application with one condition and no annotations. -/
def exampleApp : Application :=
  { TypeMeta := { Kind := "", APIVersion := "" }
    ObjectMeta :=
      { Name := "guestbook", GenerateName := "", Namespace := "argocd", ResourceVersion := "100"
        Generation := 1, Labels := none, Annotations := none, ManagedFields := []
        DeletionTimestamp := none, Other := "" }
    Spec := { Project := "default", Definition := "repo=guestbook" }
    Status :=
      { Resources := []
        Sync := { Status := "Synced", Revision := "abc", Revisions := [] }
        Health := { Status := "Healthy", Message := "" }
        Conditions := [{ Type_ := "SyncError", Message := "m", LastTransitionTime := some 5 }]
        ReconciledAt := some 10
        OperationState := none
        Summary := "" }
    Operation := none }

/-- The example application while it was degraded. -/
def degradedApp : Application :=
  { exampleApp with
    Status := { exampleApp.Status with Health := { Status := "Degraded", Message := "" } } }

/-- The example application after a reconciliation: a later `reconciledAt`, an
empty project name and a later condition transition time. -/
def reconciledApp : Application :=
  { exampleApp with
    Spec := { exampleApp.Spec with Project := "" }
    Status := { exampleApp.Status with
      ReconciledAt := some 99
      Conditions := [{ Type_ := "SyncError", Message := "m", LastTransitionTime := some 77 }] } }

/-- The example application with a label added. -/
def labelledApp : Application :=
  { exampleApp with
    ObjectMeta := { exampleApp.ObjectMeta with
      Labels := some ⟨[("team", "a")], by decide⟩ } }

/-- The example application after `kubectl apply`: the last-applied-configuration
annotation is its only annotation. -/
def appliedApp : Application :=
  { exampleApp with
    ObjectMeta := { exampleApp.ObjectMeta with
      Annotations := some ⟨[("kubectl.kubernetes.io/last-applied-configuration", "x")],
        by decide⟩ } }

/-- A cache without entries. -/
def emptyCache : Cache :=
  { LastApplicationEvent := fun _ => none, LastResourceEvent := fun _ => none, Available := true }

/-- A cache whose backend is down. -/
def faultyCache : Cache :=
  { LastApplicationEvent := fun _ => none, LastResourceEvent := fun _ => none
    Available := false }

/-- A cache that holds one application record. -/
def cacheHolding (a : Application) : Cache :=
  { LastApplicationEvent := fun k => if k = lastApplicationEventKey a then some a else none
    LastResourceEvent := fun _ => none
    Available := true }

/-- A parser for the example manifests: the empty text is the nil object, two
known texts parse, anything else is a syntax error. -/
def exampleUnmarshal : String → Except String (Option Unstructured) := fun s =>
  if s = "" then .ok none
  else if s = "secret-db" then
    .ok (some { GroupVersionKind := ⟨"", "v1", "Secret"⟩, Name := "db", Namespace := "" })
  else if s = "deploy-web" then
    .ok (some { GroupVersionKind := ⟨"apps", "v1", "Deployment"⟩, Name := "web"
                Namespace := "prod" })
  else .error "invalid character"

/-- A manifest response: a manifest that does not parse, a Deployment and a
Secret without namespace. -/
def exampleManifests : ManifestResponse :=
  { Manifests :=
      [ { CompiledManifest := "garbage", RawManifest := "raw-garbage" },
        { CompiledManifest := "deploy-web", RawManifest := "raw-web" },
        { CompiledManifest := "secret-db", RawManifest := "raw-db" } ]
    ApplicationVersions := none }

/-- The status of the Secret `prod/db`. -/
def secretResource : ResourceStatus :=
  { Group := "", Version := "v1", Kind := "Secret", Namespace := "prod", Name := "db"
    Status := "Synced", Health := none, Hook := false, RequiresPruning := false, SyncWave := 0 }

/-- The status of the Deployment `prod/web`. -/
def deploymentResource : ResourceStatus :=
  { Group := "apps", Version := "v1", Kind := "Deployment", Namespace := "prod", Name := "web"
    Status := "Synced", Health := none, Hook := false, RequiresPruning := false, SyncWave := 0 }

/-- An environment in which every collaborator answers: the manifests are
`exampleManifests`, `GetResource` knows the Secret `db`, the sink accepts every
event, no application has a parent, and the utilities are as §4.5 describes
them. -/
def exampleEnv : Env :=
  { GetAppInstanceLabelKey := .ok "app.kubernetes.io/instance"
    GetTrackingMethod := "annotation"
    ResourceTree := fun _ _ _ => .ok { Nodes := [] }
    GetManifests := fun _ _ _ _ => .ok exampleManifests
    Get := fun _ _ => .error "not found"
    GetResource := fun req =>
      if req.ResourceName = "db" then .ok { Manifest := some "live-db" }
      else .error "rpc error: resource not found"
    SendEvent := fun _ _ => none
    ListerGet := fun _ _ => .error "not found"
    getApplicationRevisionsMetadata := fun _ => .ok none
    getApplicationEventPayload := fun a _ _ _ _ =>
      match a.Status.OperationState with
      | none => .ok none
      | some _ => .ok (some { Body := a.ObjectMeta.Name })
    getResourceEventPayload := fun _ rr _ _ => .ok { Body := rr.rs.Name }
    IsApp := fun rs => rs.Kind = "Application" && rs.Group = "argoproj.io"
    SetHealthStatusIfMissing := fun rs =>
      match rs.Health with
      | none => { rs with Health := some { Status := "Healthy", Message := "" } }
      | some _ => rs
    GetApplicationLatestRevision := fun a =>
      match a.Status.Sync.Revisions with
      | r :: _ => r
      | [] => a.Status.Sync.Revision
    GetOperationStateRevision := fun _ => none
    GetParentAppIdentity := fun _ _ _ => { Name := "", Namespace := "" }
    IsChildApp := fun p => p.Name ≠ ""
    GetAppAsResource := fun a =>
      { Group := "argoproj.io", Version := "v1alpha1", Kind := "Application"
        Namespace := a.ObjectMeta.Namespace, Name := a.ObjectMeta.Name
        Status := a.Status.Sync.Status, Health := some a.Status.Health, Hook := false
        RequiresPruning := false, SyncWave := 0 }
    IsEmptyTypeMeta := fun a => a.TypeMeta.Kind = "" || a.TypeMeta.APIVersion = ""
    DefaultTypeMeta := { Kind := "Application", APIVersion := "argoproj.io/v1alpha1" }
    jsonMarshal := fun a => .ok a.ObjectMeta.Name
    jsonUnmarshal := fun _ => .error "unexpected end of JSON input"
    UnmarshalToUnstructured := exampleUnmarshal
    ParseNumFromEnv := fun _ defaultValue _ _ => defaultValue }

/-- The example application after a sync at revision `abc`, managing the Secret
`prod/db`. -/
def syncedApp : Application :=
  { exampleApp with
    Status := { exampleApp.Status with
      Resources := [secretResource]
      OperationState := some
        { Operation := { Sync := some "abc", InitiatedBy := "admin" }
          Phase := "Succeeded", Message := "", SyncResult := none
          StartedAt := 1, FinishedAt := some 2 } } }

/-- The synced application at the next revision `def`. -/
def resyncedApp : Application :=
  { syncedApp with
    Status := { syncedApp.Status with
      Sync := { Status := "Synced", Revision := "def", Revisions := [] } } }

/-- The world before anything happened: an empty cache and no calls. -/
def initialWorld : World :=
  { cache := emptyCache, calls := [] }

/-- The constant `time.Second`, in nanoseconds. -/
def timeSecond : Int := 1000000000

/-- The largest number of minutes that fits a `time.Duration`:
`(2^63 - 1) / time.Minute`. -/
def maxMinutes : Int := 153722867

/-- The example environment with the two cache-duration variables set to `n`:
`ParseNumFromEnv` returns `n` when it lies within the bounds it is given. -/
def configuredEnv (n : Int) : Env :=
  { exampleEnv with
    ParseNumFromEnv := fun _ defaultValue min max =>
      if n < min ∨ max < n then defaultValue else n }

/-- The example environment with a sink that refuses every event. -/
def refusingSinkEnv : Env :=
  { exampleEnv with SendEvent := fun _ _ => some "connection refused" }

/-- The example environment with a settings provider that fails. -/
def noSettingsEnv : Env :=
  { exampleEnv with GetAppInstanceLabelKey := .error "configmap argocd-cm not found" }

/-- The tracking settings of the example environment. -/
def exampleTracking : ArgoTrackingMetadata :=
  { AppInstanceLabelKey := "app.kubernetes.io/instance", TrackingMethod := "annotation" }

/-- The resource status of the test of `parseResourceSyncResultErrors`. -/
def testResource : ResourceStatus :=
  { Group := "group", Version := "", Kind := "kind", Namespace := "namespace", Name := "name"
    Status := "", Health := none, Hook := false, RequiresPruning := false, SyncWave := 0 }

/-- The operation state of the test of `parseResourceSyncResultErrors`: an entry
for the resource with the given message and hook phase, and an entry for the
resource `name-2`. -/
def testOperationState (message hookPhase : String) : OperationState :=
  { Operation := { Sync := none, InitiatedBy := "" }
    Phase := ""
    Message := ""
    SyncResult := some
      { Resources :=
          [ { Group := "group", Version := "", Kind := "kind", Namespace := "namespace"
              Name := "name", Status := "", Message := message, HookType := ""
              HookPhase := hookPhase, SyncPhase := "Sync" },
            { Group := "group", Version := "", Kind := "kind", Namespace := "namespace"
              Name := "name-2", Status := "", Message := "", HookType := ""
              HookPhase := "", SyncPhase := "Sync" } ]
        Revision := "123"
        Source := "" }
    StartedAt := 0
    FinishedAt := none }

/-- The example environment with a `GetResource` that fails with the given
message for the resource of the given name. -/
def failingGetResourceEnv (name message : String) : Env :=
  { exampleEnv with
    GetResource := fun req =>
      if req.ResourceName = name then .error message
      else .ok { Manifest := some "live" } }

/-- The tree that `StreamApplicationEvents` works with: the answer of the
`ResourceTree` call, nil when the call failed. -/
def fetchedTree (env : Env) (a : Application) : Option ApplicationTree :=
  match env.ResourceTree a.ObjectMeta.Name a.Spec.GetProject a.ObjectMeta.Namespace with
  | .ok appTree => some appTree
  | .error _ => none

/-- The world when `StreamApplicationEvents` has fetched the tree, the desired
manifests and the application versions, before it looks for a parent. -/
def worldAfterFetch (env : Env) (w : World) (a : Application) : World :=
  (resolveApplicationVersions env
    (getDesiredManifests env
      (w.call (.ResourceTree a.ObjectMeta.Name a.Spec.GetProject a.ObjectMeta.Namespace))
      a none).2 a).2

/-- The example application managing the Secret `prod/db`, before any sync: it
has no operation state. -/
def pendingApp : Application :=
  { exampleApp with Status := { exampleApp.Status with Resources := [secretResource] } }

/-- The status of the ConfigMap `prod/cfg`. -/
def configMapResource : ResourceStatus :=
  { Group := "", Version := "v1", Kind := "ConfigMap", Namespace := "prod", Name := "cfg"
    Status := "Synced", Health := none, Hook := false, RequiresPruning := false, SyncWave := 0 }

/-- The synced example application with three resources: the Secret `db`, the
Deployment `web` and the ConfigMap `cfg`. -/
def threeResourceApp : Application :=
  { syncedApp with
    Status := { syncedApp.Status with
      Resources := [secretResource, deploymentResource, configMapResource] } }

/-- The status of the Secret `prod/db` as the resource walk sees it, with its
health filled in. -/
def healthySecretResource : ResourceStatus :=
  { secretResource with Health := some { Status := "Healthy", Message := "" } }

/-- A world whose cache holds the status of the Secret `prod/db` for the synced
example application at revision `abc`, and nothing else. -/
def warmWorld : World :=
  { cache :=
      { LastApplicationEvent := fun _ => none
        LastResourceEvent := fun k =>
          if k = lastResourceEventKey syncedApp healthySecretResource "abc" then
            some healthySecretResource
          else none
        Available := true }
    calls := [] }

/-- The synced example application while it was degraded. -/
def degradedSyncedApp : Application :=
  { syncedApp with
    Status := { syncedApp.Status with Health := { Status := "Degraded", Message := "" } } }

/-- The child record as `getResourceActualState` marshals it: with the default
type meta when its own is empty. -/
def withTypeMeta (env : Env) (a : Application) : Application :=
  if env.IsEmptyTypeMeta a then SetDefaultTypeMeta env a else a

/-- The synthetic resource that `StreamApplicationEvents` builds for a child
application. -/
def appAsResource (env : Env) (a : Application) : ResourceStatus :=
  env.SetHealthStatusIfMissing (env.GetAppAsResource a)

/-- The parent application of the child-application example. -/
def umbrellaApp : Application :=
  { exampleApp with
    ObjectMeta := { exampleApp.ObjectMeta with Name := "umbrella" }
    Spec := { Project := "default", Definition := "repo=umbrella" } }

/-- The example environment for a child application: the tracking metadata of
`guestbook` names the parent `argocd/umbrella`, which the application service
knows; the JSON text of a record is its name, and parsing gives a record of that
name. -/
def childEnv : Env :=
  { exampleEnv with
    GetParentAppIdentity := fun a _ _ =>
      if a.ObjectMeta.Name = "guestbook" then { Name := "umbrella", Namespace := "argocd" }
      else { Name := "", Namespace := "" }
    Get := fun name _ => if name = "umbrella" then .ok umbrellaApp else .error "not found"
    jsonUnmarshal := fun s =>
      .ok { exampleApp with ObjectMeta := { exampleApp.ObjectMeta with Name := s } } }

/-- A world whose cache holds the synced example application, with no call made
yet. -/
def cachedWorld : World :=
  { cache := cacheHolding syncedApp, calls := [] }

/-- The resynced example application with the transition time of its condition
cleared. -/
def resyncedAppCleared : Application :=
  { resyncedApp with
    Status := { resyncedApp.Status with
      Conditions := [{ Type_ := "SyncError", Message := "m", LastTransitionTime := none }] } }

/-- The labelled example application after `kubectl apply`: the
last-applied-configuration annotation is its only annotation and its
`resourceVersion` is a later one. -/
def labelledAppliedApp : Application :=
  { labelledApp with
    ObjectMeta := { labelledApp.ObjectMeta with
      ResourceVersion := "101"
      Annotations := some ⟨[(lastAppliedConfiguration, "applied")], by decide⟩ } }

/-- On the child-application path of `StreamApplicationEvents`: what the
`processResource` call for the application itself leaves, the parent having been
fetched as `parent`. -/
def childEventResult (env : Env) (w : World) (a parent : Application) (startedAt : String)
    (atm : ArgoTrackingMetadata) : ProcessResourceResult :=
  processResource env
    (getDesiredManifests env
      ((worldAfterFetch env w a).call
        (.Get (env.GetParentAppIdentity a atm.AppInstanceLabelKey atm.TrackingMethod).Name
          (env.GetParentAppIdentity a atm.AppInstanceLabelKey atm.TrackingMethod).Namespace))
      parent none).2
    (appAsResource env a) startedAt (some (getDesiredManifests env w parent none).1.1)
    (getDesiredManifests env w parent none).1.2 (some a) (resolveApplicationVersions env w a).1
    { app := parent, appTree := fetchedTree env a
      revisionsMetadata := valueOrNil (env.getApplicationRevisionsMetadata parent) }
    atm

/-- A world whose cache holds the degraded synced application and the status of
the Secret `prod/db` at revision `abc`. -/
def degradedWarmWorld : World :=
  { cache := { warmWorld.cache with
      LastApplicationEvent := (cacheHolding degradedSyncedApp).LastApplicationEvent }
    calls := [] }

/-- The status of a child application `argocd/child` among the resources of its
parent. -/
def childAppResource : ResourceStatus :=
  { Group := "argoproj.io", Version := "v1alpha1", Kind := "Application", Namespace := "argocd"
    Name := "child", Status := "Synced", Health := none, Hook := false
    RequiresPruning := false, SyncWave := 0 }

/-- The synced example application managing a child application and the Secret
`prod/db`. -/
def appOfAppsApp : Application :=
  { syncedApp with
    Status := { syncedApp.Status with Resources := [childAppResource, secretResource] } }

/-- The synced example application with the transition time of its condition
cleared. -/
def syncedAppCleared : Application :=
  { syncedApp with
    Status := { syncedApp.Status with
      Conditions := [{ Type_ := "SyncError", Message := "m", LastTransitionTime := none }] } }

/-- The degraded synced application with another source definition. -/
def redefinedDegradedApp : Application :=
  { degradedSyncedApp with Spec := { Project := "default", Definition := "repo=guestbook-v2" } }

/-! ## Theorems -/

theorem applicationMetadataChanged_eq (kind : EventType) (incoming cachedApp : Application) :
    applicationMetadataChanged ⟨kind, incoming⟩ cachedApp =
      (decide (kind = EventType.Modified)
        && decide (deepEqualMetadata incoming.ObjectMeta incoming.ObjectMeta
            ≠ deepEqualMetadata incoming.ObjectMeta cachedApp.ObjectMeta)) := by
  unfold applicationMetadataChanged deepEqualMetadata
  by_cases hk : kind = EventType.Modified
  · simp only [hk, ne_eq, not_true_eq_false, if_false, decide_True, Bool.true_and]
    cases hn : incoming.ObjectMeta.Annotations with
    | none =>
      cases hc : cachedApp.ObjectMeta.Annotations with
      | none => simp [StringMap.delete, hn, hc]
      | some g => simp [StringMap.delete, hn, hc]
    | some g => simp [StringMap.delete, hn]
  · simp [hk]

theorem status_cmp (a c : ApplicationStatus) :
    (({ a with Conditions := clearLastTransitionTime a.Conditions } : ApplicationStatus)
      = { c with
          ReconciledAt := a.ReconciledAt
          Conditions := clearLastTransitionTime c.Conditions })
    ↔ (({ a with
          ReconciledAt := none
          Conditions := clearLastTransitionTime a.Conditions } : ApplicationStatus)
      = { c with
          ReconciledAt := none
          Conditions := clearLastTransitionTime c.Conditions }) := by
  cases a; cases c; simp

theorem decision_chain {β : Type} (P1 P2 P3 Q1 Q2 : Prop) [Decidable P1] [Decidable P2]
    [Decidable P3] [Decidable Q1] [Decidable Q2] (b : Bool) (y : β)
    (h1 : P1 ↔ Q1) (h2 : P2 ↔ Q2) :
    (if P1 then ((true, false), y)
      else if P2 then ((true, false), y)
      else if P3 then ((true, false), y)
      else if b = true then ((true, false), y) else ((false, false), y)).1
      = (decide Q1 || decide Q2 || decide P3 || b, false) := by
  by_cases p1 : P1 <;> by_cases p2 : P2 <;> by_cases p3 : P3 <;> cases b <;>
    simp [p1, p2, p3, ← h1, ← h2]

theorem ShouldSendApplicationEvent_hit (cache : Cache) (ae : ApplicationWatchEvent)
    (cached : Application) (hd : ae.Type_ ≠ EventType.Deleted)
    (hhit : cache.GetLastApplicationEvent ae.Application = .ok (some cached)) :
    (ShouldSendApplicationEvent cache ae).1 =
      if ae.Application.Status.Health.Status = HealthStatusHealthy
          ∧ cached.Status.Health.Status ≠ HealthStatusHealthy then (true, true)
      else (deepEqualChangeDetected ae.Type_ ae.Application cached, false) := by
  unfold ShouldSendApplicationEvent
  simp only [hd, hhit, if_false]
  split
  · rfl
  · simp only [applicationMetadataChanged_eq, deepEqualChangeDetected, normalise]
    exact decision_chain _ _ _ _ _ _ _ Iff.rfl
      (not_congr (status_cmp ae.Application.Status cached.Status))


theorem deepEqualChangeDetected_congr (kind : EventType) (a a' c c' : Application)
    (ha : normalise "" a = normalise "" a') (hc : normalise "" c = normalise "" c') :
    deepEqualChangeDetected kind a c = deepEqualChangeDetected kind a' c' := by
  obtain ⟨tm, om, ⟨p, d⟩, ⟨r, sy, h, cs, ra, os, su⟩, op⟩ := a
  obtain ⟨tm', om', ⟨p', d'⟩, ⟨r', sy', h', cs', ra', os', su'⟩, op'⟩ := a'
  obtain ⟨ctm, com, ⟨cp, cd⟩, ⟨cr, csy, ch, ccs, cra, cos, csu⟩, cop⟩ := c
  obtain ⟨ctm', com', ⟨cp', cd'⟩, ⟨cr', csy', ch', ccs', cra', cos', csu'⟩, cop'⟩ := c'
  simp only [normalise, Application.mk.injEq, ApplicationSpec.mk.injEq,
    ApplicationStatus.mk.injEq, true_and, and_true] at ha hc
  obtain ⟨rfl, rfl, rfl, ⟨rfl, rfl, rfl, hcs, rfl, rfl⟩, rfl⟩ := ha
  obtain ⟨rfl, rfl, rfl, ⟨rfl, rfl, rfl, hccs, rfl, rfl⟩, rfl⟩ := hc
  simp [deepEqualChangeDetected, normalise, hcs, hccs]


theorem deepEqualChangeDetected_self (kind : EventType) (a c : Application)
    (h : normalise "" a = normalise "" c) : deepEqualChangeDetected kind a c = false := by
  rw [deepEqualChangeDetected_congr kind a a c a rfl h.symm]
  simp [deepEqualChangeDetected]

/-- C1: for every event of kind Deleted, whatever the cache holds and whatever
the record contains, `ShouldSendApplicationEvent` returns `(true, false)`. -/
theorem deleted_always_fires (cache : Cache) (a : Application) :
    (ShouldSendApplicationEvent cache ⟨EventType.Deleted, a⟩).1 = (true, false) := by
  simp [ShouldSendApplicationEvent]

/-- C2: for an event that is not Deleted, with a cached record whose health is
not Healthy and an incoming health of Healthy, the result is `(true, true)`,
whatever the other fields hold; and the second result is `true` only then. -/
theorem health_transition_signal :
    (∀ (cache : Cache) (ae : ApplicationWatchEvent) (cached : Application),
      ae.Type_ ≠ EventType.Deleted →
      cache.GetLastApplicationEvent ae.Application = .ok (some cached) →
      cached.Status.Health.Status ≠ HealthStatusHealthy →
      ae.Application.Status.Health.Status = HealthStatusHealthy →
      (ShouldSendApplicationEvent cache ae).1 = (true, true))
    ∧ (∀ (cache : Cache) (ae : ApplicationWatchEvent),
      (ShouldSendApplicationEvent cache ae).1.2 = true →
      ae.Type_ ≠ EventType.Deleted
      ∧ ∃ cached, cache.GetLastApplicationEvent ae.Application = .ok (some cached)
        ∧ cached.Status.Health.Status ≠ HealthStatusHealthy
        ∧ ae.Application.Status.Health.Status = HealthStatusHealthy) := by
  constructor
  · intro cache ae cached hd hhit hc ha
    rw [ShouldSendApplicationEvent_hit cache ae cached hd hhit, if_pos ⟨ha, hc⟩]
  · intro cache ae h
    by_cases hd : ae.Type_ = EventType.Deleted
    · simp [ShouldSendApplicationEvent, hd] at h
    · refine ⟨hd, ?_⟩
      cases hl : cache.GetLastApplicationEvent ae.Application with
      | error e => simp [ShouldSendApplicationEvent, hd, hl] at h
      | ok r =>
        cases r with
        | none => simp [ShouldSendApplicationEvent, hd, hl] at h
        | some cached =>
          refine ⟨cached, rfl, ?_⟩
          rw [ShouldSendApplicationEvent_hit cache ae cached hd hl] at h
          by_cases ht : ae.Application.Status.Health.Status = HealthStatusHealthy
              ∧ cached.Status.Health.Status ≠ HealthStatusHealthy
          · exact ⟨ht.2, ht.1⟩
          · rw [if_neg ht] at h
            exact absurd h (by simp)

/-- C7: for an event that is not Deleted, a cache lookup that fails with an
error or yields no record makes `ShouldSendApplicationEvent` return
`(true, false)`; the result carries no error and the event is left as it was. -/
theorem cache_miss_or_fault_sends (cache : Cache) (ae : ApplicationWatchEvent)
    (hd : ae.Type_ ≠ EventType.Deleted)
    (hmiss : (∃ e, cache.GetLastApplicationEvent ae.Application = .error e)
      ∨ cache.GetLastApplicationEvent ae.Application = .ok none) :
    ShouldSendApplicationEvent cache ae = ((true, false), ae) := by
  rcases hmiss with ⟨e, he⟩ | hn
  · simp [ShouldSendApplicationEvent, hd, he]
  · simp [ShouldSendApplicationEvent, hd, hn]

/-- Witness of C2: a Healthy record arriving over a cached Degraded one. -/
theorem health_transition_signal_witness :
    (ShouldSendApplicationEvent (cacheHolding degradedApp)
      ⟨EventType.Modified, exampleApp⟩).1 = (true, true)
    ∧ EventType.Modified ≠ EventType.Deleted :=
  ⟨health_transition_signal.1 (cacheHolding degradedApp) ⟨EventType.Modified, exampleApp⟩
    degradedApp (by decide) rfl (by decide) (by decide),
   (health_transition_signal.2 (cacheHolding degradedApp) ⟨EventType.Modified, exampleApp⟩
    (by decide)).1⟩

/-- Witness of C7: a first-sight Added event on a cache whose backend is down. -/
theorem cache_miss_or_fault_sends_witness :
    ShouldSendApplicationEvent faultyCache ⟨EventType.Added, exampleApp⟩
      = ((true, false), ⟨EventType.Added, exampleApp⟩) :=
  cache_miss_or_fault_sends faultyCache ⟨EventType.Added, exampleApp⟩ (by decide)
    (Or.inl ⟨_, rfl⟩)

/-- C5: for an event that is not Deleted with a cached record, if the incoming
record differs from the cached one only in `status.reconciledAt`, `spec.project`
or the `lastTransitionTime` of conditions, the result is `(false, false)`; and
the result is the same for any two inputs that agree up to these three fields,
on the incoming and on the cached side. -/
theorem normalised_fields_do_not_influence :
    (∀ (cache : Cache) (ae : ApplicationWatchEvent) (cached : Application),
      ae.Type_ ≠ EventType.Deleted →
      cache.GetLastApplicationEvent ae.Application = .ok (some cached) →
      normalise "" ae.Application = normalise "" cached →
      (ShouldSendApplicationEvent cache ae).1 = (false, false))
    ∧ (∀ (cache cache' : Cache) (ae ae' : ApplicationWatchEvent) (cached cached' : Application),
      ae.Type_ ≠ EventType.Deleted → ae'.Type_ = ae.Type_ →
      cache.GetLastApplicationEvent ae.Application = .ok (some cached) →
      cache'.GetLastApplicationEvent ae'.Application = .ok (some cached') →
      normalise "" ae.Application = normalise "" ae'.Application →
      normalise "" cached = normalise "" cached' →
      (ShouldSendApplicationEvent cache ae).1 = (ShouldSendApplicationEvent cache' ae').1) := by
  constructor
  · intro cache ae cached hd hhit h
    have hh : ae.Application.Status.Health = cached.Status.Health :=
      congrArg (fun x => x.Status.Health) h
    rw [ShouldSendApplicationEvent_hit cache ae cached hd hhit,
      deepEqualChangeDetected_self _ _ _ h, hh]
    simp
  · intro cache cache' ae ae' cached cached' hd ht hhit hhit' ha hc
    have hha : ae.Application.Status.Health = ae'.Application.Status.Health :=
      congrArg (fun x => x.Status.Health) ha
    have hhc : cached.Status.Health = cached'.Status.Health :=
      congrArg (fun x => x.Status.Health) hc
    rw [ShouldSendApplicationEvent_hit cache ae cached hd hhit,
      ShouldSendApplicationEvent_hit cache' ae' cached' (ht ▸ hd) hhit',
      deepEqualChangeDetected_congr ae.Type_ _ _ _ _ ha hc, hha, hhc, ht]

/-- Witness of C5: the record comes back with a later `reconciledAt`, another
project name and a later condition transition time, and nothing is sent; the
decision is the same with the two records exchanged. -/
theorem normalised_fields_do_not_influence_witness :
    (ShouldSendApplicationEvent (cacheHolding exampleApp)
      ⟨EventType.Modified, reconciledApp⟩).1 = (false, false)
    ∧ (ShouldSendApplicationEvent (cacheHolding exampleApp)
      ⟨EventType.Modified, reconciledApp⟩).1
      = (ShouldSendApplicationEvent (cacheHolding reconciledApp)
          ⟨EventType.Modified, exampleApp⟩).1 :=
  ⟨normalised_fields_do_not_influence.1 (cacheHolding exampleApp)
    ⟨EventType.Modified, reconciledApp⟩ exampleApp (by decide) rfl (by decide),
   normalised_fields_do_not_influence.2 (cacheHolding exampleApp) (cacheHolding reconciledApp)
    ⟨EventType.Modified, reconciledApp⟩ ⟨EventType.Modified, exampleApp⟩ exampleApp
    reconciledApp (by decide) rfl rfl rfl (by decide) (by decide)⟩

theorem deepEqualMetadata_differs (incoming cached : ObjectMeta) :
    decide (deepEqualMetadata incoming incoming ≠ deepEqualMetadata incoming cached)
      = (decide (normaliseMetadata incoming incoming ≠ normaliseMetadata incoming cached)
          || (incoming.Annotations.isSome != cached.Annotations.isSome)) := by
  obtain ⟨n, gn, ns, rv, g, l, an, mf, dt, o⟩ := incoming
  obtain ⟨cn, cgn, cns, crv, cg, cl, can, cmf, cdt, co⟩ := cached
  cases an <;> cases can <;>
    simp [deepEqualMetadata, normaliseMetadata, annotationsOf, StringMap.delete]

theorem deepEqualChangeDetected_eq (kind : EventType) (incoming cached : Application) :
    deepEqualChangeDetected kind incoming cached
      = (specChangeDetected kind incoming cached
          || (decide (kind = EventType.Modified) && oneAnnotationsMapIsNil incoming cached)) := by
  unfold deepEqualChangeDetected specChangeDetected oneAnnotationsMapIsNil
  simp only [deepEqualMetadata_differs]
  by_cases hk : kind = EventType.Modified
  · simp only [hk, decide_True, Bool.true_and, Bool.or_assoc]
  · simp [hk]

/-- C6: for an event that is not Deleted, with a cached record and no transition
to Healthy, the second result is false and the first is `d` or `m`, where `d` is
the reference definition of rules 5 to 9 (the normalised spec, status or
operation differs, or the event is Modified and the normalised metadata differs)
and `m` says that the event is Modified and one of the two annotations maps is
nil while the other is not.  So the result is `(d, false)` for every event that
is not Modified and for every pair of records whose annotations maps are both nil
or both non-nil; in particular an event that is not Modified whose normalised
spec, status and operation equal the cached ones gets `(false, false)`, whatever
its labels and annotations are.  A Modified event with an annotations map on one
side only gets `(true, false)`, whatever `d` is. -/
theorem change_detection_reference :
    (∀ (cache : Cache) (ae : ApplicationWatchEvent) (cached : Application),
      ae.Type_ ≠ EventType.Deleted →
      cache.GetLastApplicationEvent ae.Application = .ok (some cached) →
      ¬ (ae.Application.Status.Health.Status = HealthStatusHealthy
          ∧ cached.Status.Health.Status ≠ HealthStatusHealthy) →
      (ShouldSendApplicationEvent cache ae).1
          = (specChangeDetected ae.Type_ ae.Application cached
              || (decide (ae.Type_ = EventType.Modified)
                  && oneAnnotationsMapIsNil ae.Application cached), false)
        ∧ ((ae.Type_ ≠ EventType.Modified
              ∨ oneAnnotationsMapIsNil ae.Application cached = false) →
            (ShouldSendApplicationEvent cache ae).1
              = (specChangeDetected ae.Type_ ae.Application cached, false))
        ∧ (ae.Type_ = EventType.Modified →
            oneAnnotationsMapIsNil ae.Application cached = true →
            (ShouldSendApplicationEvent cache ae).1 = (true, false)))
    ∧ (∀ (cache : Cache) (ae : ApplicationWatchEvent) (cached : Application),
      ae.Type_ ≠ EventType.Deleted →
      cache.GetLastApplicationEvent ae.Application = .ok (some cached) →
      ¬ (ae.Application.Status.Health.Status = HealthStatusHealthy
          ∧ cached.Status.Health.Status ≠ HealthStatusHealthy) →
      ae.Type_ ≠ EventType.Modified →
      (normalise ae.Application.Spec.Project ae.Application).Spec
        = (normalise ae.Application.Spec.Project cached).Spec →
      (normalise ae.Application.Spec.Project ae.Application).Status
        = (normalise ae.Application.Spec.Project cached).Status →
      ae.Application.Operation = cached.Operation →
      (ShouldSendApplicationEvent cache ae).1 = (false, false)) := by
  have hmain : ∀ (cache : Cache) (ae : ApplicationWatchEvent) (cached : Application),
      ae.Type_ ≠ EventType.Deleted →
      cache.GetLastApplicationEvent ae.Application = .ok (some cached) →
      ¬ (ae.Application.Status.Health.Status = HealthStatusHealthy
          ∧ cached.Status.Health.Status ≠ HealthStatusHealthy) →
      (ShouldSendApplicationEvent cache ae).1
          = (specChangeDetected ae.Type_ ae.Application cached
              || (decide (ae.Type_ = EventType.Modified)
                  && oneAnnotationsMapIsNil ae.Application cached), false) := by
    intro cache ae cached hd hhit hno
    rw [ShouldSendApplicationEvent_hit cache ae cached hd hhit, if_neg hno,
      deepEqualChangeDetected_eq]
  constructor
  · intro cache ae cached hd hhit hno
    refine ⟨hmain cache ae cached hd hhit hno, ?_, ?_⟩
    · intro h
      rw [hmain cache ae cached hd hhit hno]
      rcases h with h | h
      · simp [h]
      · simp [h]
    · intro hm hone
      rw [hmain cache ae cached hd hhit hno]
      simp [hm, hone]
  · intro cache ae cached hd hhit hno hm hspec hstatus hop
    rw [hmain cache ae cached hd hhit hno]
    have hop' : (normalise ae.Application.Spec.Project ae.Application).Operation
        = (normalise ae.Application.Spec.Project cached).Operation := hop
    simp [specChangeDetected, hm, hspec, hstatus, hop']

/-- C6 (the code at a failing input): the cached record has a label and no
annotations map; the Modified event carries the same record after
`kubectl apply`, with a later `resourceVersion` and the
last-applied-configuration annotation as its only annotation.  The reference
definition of rules 5 to 9 says that nothing changed, and the decision is to
send. -/
theorem change_detection_differs_on_nil_annotations_map :
    specChangeDetected EventType.Modified labelledAppliedApp labelledApp = false
    ∧ (ShouldSendApplicationEvent (cacheHolding labelledApp)
        ⟨EventType.Modified, labelledAppliedApp⟩).1 = (true, false) := by
  constructor <;> decide

/-- Witness of C6: an Added event that differs from the cached record in its
labels only is not sent; the same record in a Modified event is sent, as the
reference definition says; a Modified event that differs in `reconciledAt`,
project and condition times only is not sent, as the reference definition says;
and a Modified event whose record has an annotations map while the cached one
has none is sent. -/
theorem change_detection_reference_witness :
    (ShouldSendApplicationEvent (cacheHolding exampleApp)
      ⟨EventType.Added, labelledApp⟩).1 = (false, false)
    ∧ (ShouldSendApplicationEvent (cacheHolding exampleApp)
      ⟨EventType.Modified, labelledApp⟩).1
      = (specChangeDetected EventType.Modified labelledApp exampleApp, false)
    ∧ specChangeDetected EventType.Modified labelledApp exampleApp = true
    ∧ (ShouldSendApplicationEvent (cacheHolding exampleApp)
      ⟨EventType.Modified, reconciledApp⟩).1
      = (specChangeDetected EventType.Modified reconciledApp exampleApp, false)
    ∧ specChangeDetected EventType.Modified reconciledApp exampleApp = false
    ∧ (ShouldSendApplicationEvent (cacheHolding exampleApp)
      ⟨EventType.Modified, reconciledApp⟩).1 = (false, false)
    ∧ (ShouldSendApplicationEvent (cacheHolding labelledApp)
      ⟨EventType.Modified, labelledAppliedApp⟩).1 = (true, false) :=
  ⟨change_detection_reference.2 (cacheHolding exampleApp) ⟨EventType.Added, labelledApp⟩
    exampleApp (by decide) rfl (by decide) (by decide) (by decide) (by decide) (by decide),
   (change_detection_reference.1 (cacheHolding exampleApp) ⟨EventType.Modified, labelledApp⟩
    exampleApp (by decide) rfl (by decide)).2.1 (Or.inr (by decide)),
   by decide,
   (change_detection_reference.1 (cacheHolding exampleApp) ⟨EventType.Modified, reconciledApp⟩
    exampleApp (by decide) rfl (by decide)).2.1 (Or.inr (by decide)),
   by decide,
   by decide,
   (change_detection_reference.1 (cacheHolding labelledApp)
    ⟨EventType.Modified, labelledAppliedApp⟩ labelledApp (by decide) rfl (by decide)).2.2
    rfl (by decide)⟩

/-- Metadata noise immunity where the two annotations maps are both nil or both
non-nil: an event whose record differs from the cached one only in
`resourceVersion`, `generation`, `generateName`, `managedFields` or the
last-applied-configuration annotation is not sent. -/
theorem metadata_noise_immunity (cache : Cache) (ae : ApplicationWatchEvent)
    (cached : Application) (hd : ae.Type_ ≠ EventType.Deleted)
    (hhit : cache.GetLastApplicationEvent ae.Application = .ok (some cached))
    (h : { ae.Application with ObjectMeta := withoutMetadataNoise ae.Application.ObjectMeta }
        = { cached with ObjectMeta := withoutMetadataNoise cached.ObjectMeta }) :
    (ShouldSendApplicationEvent cache ae).1 = (false, false) := by
  rw [ShouldSendApplicationEvent_hit cache ae cached hd hhit]
  obtain ⟨kind, ⟨tm, om, sp, st, op⟩⟩ := ae
  obtain ⟨ctm, com, csp, cst, cop⟩ := cached
  simp only [Application.mk.injEq] at h
  obtain ⟨rfl, hm, rfl, rfl, rfl⟩ := h
  obtain ⟨n, gn, ns, rv, g, l, an, mf, dt, o⟩ := om
  obtain ⟨cn, cgn, cns, crv, cg, cl, can, cmf, cdt, co⟩ := com
  simp only [withoutMetadataNoise, ObjectMeta.mk.injEq, true_and] at hm
  obtain ⟨rfl, rfl, rfl, han, rfl, rfl⟩ := hm
  simp [deepEqualChangeDetected, normalise, deepEqualMetadata, han]

/-- C4 (the code at the failing input): the cached record has no annotations
map, the Modified event carries the same record with the
last-applied-configuration annotation as its only annotation, and the decision
is to send; likewise with the two records exchanged. -/
theorem metadata_noise_nil_annotations_map :
    (ShouldSendApplicationEvent (cacheHolding exampleApp)
      ⟨EventType.Modified, appliedApp⟩).1 = (true, false)
    ∧ (ShouldSendApplicationEvent (cacheHolding appliedApp)
      ⟨EventType.Modified, exampleApp⟩).1 = (true, false) := by
  constructor <;> decide

theorem firstNonEmpty_eq_iff (ns rsns : String) :
    FirstNonEmpty [ns, rsns] = rsns ↔ (ns = "" ∨ ns = rsns) := by
  unfold FirstNonEmpty
  by_cases h1 : ns = ""
  · by_cases h2 : rsns = ""
    · simp [List.find?, h1, h2]
    · simp [List.find?, h1, h2]
  · simp [List.find?, h1]

theorem search_fst (parse : String → Except String (Option Unstructured)) (rs : ResourceStatus)
    (ms : List Manifest) :
    (getResourceDesiredState.search parse rs ms).1
      = ((ms.find? (isDesiredStateOf parse rs)).map (secretPolicy rs)).getD {} := by
  induction ms with
  | nil => simp [getResourceDesiredState.search]
  | cons m rest ih =>
    unfold getResourceDesiredState.search
    cases hp : parse m.CompiledManifest with
    | error e => simp [List.find?, isDesiredStateOf, hp, ih]
    | ok r =>
      cases r with
      | none => simp [List.find?, isDesiredStateOf, hp, ih]
      | some u =>
        by_cases hm : u.GroupVersionKind.String_ = rs.GroupVersionKind.String_
            ∧ u.Name = rs.Name ∧ FirstNonEmpty [u.Namespace, rs.Namespace] = rs.Namespace
        · have hm' := hm
          rw [firstNonEmpty_eq_iff] at hm'
          have : isDesiredStateOf parse rs m = true := by
            simp [isDesiredStateOf, hp, hm'.1, hm'.2.1, hm'.2.2]
          simp [List.find?, this, hm, secretPolicy, SecretKind]
        · have hm' := hm
          rw [firstNonEmpty_eq_iff] at hm'
          have : isDesiredStateOf parse rs m = false := by
            have hdec : isDesiredStateOf parse rs m
                = decide (u.GroupVersionKind.String_ = rs.GroupVersionKind.String_
                    ∧ u.Name = rs.Name ∧ (u.Namespace = "" ∨ u.Namespace = rs.Namespace)) := by
              simp [isDesiredStateOf, hp, Bool.decide_and, Bool.decide_or, Bool.and_assoc]
            rw [hdec]
            exact decide_eq_false hm'
          simp [List.find?, this, hm, ih]

theorem search_snd (parse : String → Except String (Option Unstructured)) (rs : ResourceStatus)
    (ms : List Manifest) (h : ¬ (rs.Kind = SecretKind ∧ rs.Version = "v1")) :
    (getResourceDesiredState.search parse rs ms).2 = ms := by
  induction ms with
  | nil => simp [getResourceDesiredState.search]
  | cons m rest ih =>
    unfold getResourceDesiredState.search
    cases hp : parse m.CompiledManifest with
    | error e => simp [ih]
    | ok r =>
      cases r with
      | none => simp [ih]
      | some u =>
        simp only []
        split
        · simp [h]
        · simp [ih]

theorem append_cons_inj {α : Type} (c : α) :
    ∀ (a a' b b' : List α), c ∉ a → c ∉ a' → a ++ c :: b = a' ++ c :: b' →
      a = a' ∧ b = b' := by
  intro a
  induction a with
  | nil =>
    intro a' b b' _ ha' h
    cases a' with
    | nil => simpa using h
    | cons x xs =>
      simp only [List.nil_append, List.cons_append, List.cons.injEq] at h
      exact absurd (h.1 ▸ List.mem_cons_self _ _) ha'
  | cons y ys ih =>
    intro a' b b' ha ha' h
    cases a' with
    | nil =>
      simp only [List.nil_append, List.cons_append, List.cons.injEq] at h
      exact absurd (h.1 ▸ List.mem_cons_self _ _) ha
    | cons x xs =>
      simp only [List.cons_append, List.cons.injEq] at h
      have hys : c ∉ ys := fun hc => ha (List.mem_cons_of_mem _ hc)
      have hxs : c ∉ xs := fun hc => ha' (List.mem_cons_of_mem _ hc)
      obtain ⟨h1, h2⟩ := ih xs b b' hys hxs h.2
      exact ⟨by rw [h.1, h1], h2⟩

theorem GroupVersionKind.String_inj (g g' : GroupVersionKind) (hg : g.WellFormed)
    (hg' : g'.WellFormed) : g.String_ = g'.String_ ↔ g = g' := by
  constructor
  · intro h
    have hd := congrArg String.data h
    simp only [GroupVersionKind.String_, String.data_append] at hd
    simp only [List.append_assoc, List.singleton_append, List.cons_append] at hd
    obtain ⟨h1, h2⟩ := append_cons_inj '/' _ _ _ _ hg.1 hg'.1 hd
    obtain ⟨h3, h4⟩ := append_cons_inj ',' _ _ _ _ hg.2 hg'.2 h2
    have h5 : g.Kind.data = g'.Kind.data := by simpa using h4
    cases g; cases g'
    simp only [GroupVersionKind.mk.injEq]
    exact ⟨String.ext h1, String.ext h3, String.ext h5⟩
  · rintro rfl
    rfl

theorem find?_congr_mem {α : Type} (p q : α → Bool) :
    ∀ (l : List α), (∀ x ∈ l, p x = q x) → l.find? p = l.find? q := by
  intro l
  induction l with
  | nil => intro _; rfl
  | cons x xs ih =>
    intro h
    have hx : p x = q x := h x (List.mem_cons_self _ _)
    have hxs : ∀ y ∈ xs, p y = q y := fun y hy => h y (List.mem_cons_of_mem _ hy)
    simp only [List.find?, hx, ih hxs]

theorem isDesiredStateOf_eq_byParts (parse : String → Except String (Option Unstructured))
    (rs : ResourceStatus) (m : Manifest) (hrs : rs.GroupVersionKind.WellFormed)
    (hm : ∀ u, parse m.CompiledManifest = .ok (some u) → u.GroupVersionKind.WellFormed) :
    isDesiredStateOf parse rs m = isDesiredStateOfByParts parse rs m := by
  unfold isDesiredStateOf isDesiredStateOfByParts
  cases hp : parse m.CompiledManifest with
  | error e => rfl
  | ok r =>
    cases r with
    | none => rfl
    | some u =>
      simp only []
      have := GroupVersionKind.String_inj u.GroupVersionKind rs.GroupVersionKind (hm u hp) hrs
      rw [decide_eq_decide.mpr this]

/-- C9: for a resource of kind Secret and version v1 and every manifest
response, the manifest that `getResourceDesiredState` returns has its raw
manifest equal to its compiled manifest, both empty when the response is nil or
no manifest matches; for a resource of another kind the manifest returned on a
match is the first matching element of the list, unchanged, and the list is left
as it was. -/
theorem secret_policy :
    (∀ (parse : String → Except String (Option Unstructured)) (rs : ResourceStatus)
        (ds : Option ManifestResponse),
      rs.Kind = "Secret" → rs.Version = "v1" →
      (getResourceDesiredState parse rs ds).1.RawManifest
        = (getResourceDesiredState parse rs ds).1.CompiledManifest)
    ∧ (∀ (parse : String → Except String (Option Unstructured)) (rs : ResourceStatus)
        (ds : Option ManifestResponse),
      rs.Kind = "Secret" → rs.Version = "v1" →
      (∀ resp, ds = some resp → ∀ m ∈ resp.Manifests, isDesiredStateOf parse rs m = false) →
      (getResourceDesiredState parse rs ds).1.RawManifest = ""
        ∧ (getResourceDesiredState parse rs ds).1.CompiledManifest = "")
    ∧ (∀ (parse : String → Except String (Option Unstructured)) (rs : ResourceStatus)
        (resp : ManifestResponse) (m : Manifest),
      rs.Kind ≠ "Secret" →
      resp.Manifests.find? (isDesiredStateOf parse rs) = some m →
      getResourceDesiredState parse rs (some resp) = (m, some resp)) := by
  refine ⟨?_, ?_, ?_⟩
  · intro parse rs ds hk hv
    cases ds with
    | none => rfl
    | some resp =>
      simp only [getResourceDesiredState, search_fst]
      cases resp.Manifests.find? (isDesiredStateOf parse rs) with
      | none => rfl
      | some m => simp [secretPolicy, hk, hv]
  · intro parse rs ds _ _ hno
    cases ds with
    | none => exact ⟨rfl, rfl⟩
    | some resp =>
      have hnone : resp.Manifests.find? (isDesiredStateOf parse rs) = none := by
        rw [List.find?_eq_none]
        intro m hm
        simp [hno resp rfl m hm]
      simp only [getResourceDesiredState, search_fst, hnone]
      exact ⟨rfl, rfl⟩
  · intro parse rs resp m hk hfind
    have hns : ¬ (rs.Kind = SecretKind ∧ rs.Version = "v1") := fun h => hk h.1
    simp only [getResourceDesiredState, search_fst, search_snd parse rs _ hns, hfind]
    simp [secretPolicy, hk]

/-- Witness of C9: the Secret `prod/db` gets its compiled manifest as raw
manifest; the Deployment `prod/web` gets its list element as it is. -/
theorem secret_policy_witness :
    (getResourceDesiredState exampleUnmarshal secretResource (some exampleManifests)).1.RawManifest
        = (getResourceDesiredState exampleUnmarshal secretResource
            (some exampleManifests)).1.CompiledManifest
    ∧ ((getResourceDesiredState exampleUnmarshal secretResource
          (some ⟨[{ CompiledManifest := "garbage" }], none⟩)).1.RawManifest = ""
        ∧ (getResourceDesiredState exampleUnmarshal secretResource
          (some ⟨[{ CompiledManifest := "garbage" }], none⟩)).1.CompiledManifest = "")
    ∧ getResourceDesiredState exampleUnmarshal deploymentResource (some exampleManifests)
        = ({ CompiledManifest := "deploy-web", RawManifest := "raw-web" }, some exampleManifests) :=
  ⟨secret_policy.1 exampleUnmarshal secretResource (some exampleManifests) rfl rfl,
   secret_policy.2.1 exampleUnmarshal secretResource
     (some ⟨[{ CompiledManifest := "garbage" }], none⟩) rfl rfl
     (by
       intro resp h m hm
       cases h
       simp only [List.mem_singleton] at hm
       subst hm
       rfl),
   secret_policy.2.2 exampleUnmarshal deploymentResource exampleManifests
     { CompiledManifest := "deploy-web", RawManifest := "raw-web" } (by decide) (by decide)⟩

/-- C10: `getResourceDesiredState` returns the first manifest in list order that
parses and matches the resource in group/version/kind, name and namespace (an
omitted namespace counts as the resource's), with the Secret rule applied; a
manifest that does not parse is skipped and the search goes on; without a match,
or with a nil response, the result is the empty manifest.  Group, version and
kind are compared through their rendering, which for well-formed groups and
versions is equality of the three parts. -/
theorem desired_state_resolution :
    (∀ (parse : String → Except String (Option Unstructured)) (rs : ResourceStatus),
      (getResourceDesiredState parse rs none).1 = {})
    ∧ (∀ (parse : String → Except String (Option Unstructured)) (rs : ResourceStatus)
        (resp : ManifestResponse),
      (getResourceDesiredState parse rs (some resp)).1
        = ((resp.Manifests.find? (isDesiredStateOf parse rs)).map (secretPolicy rs)).getD {})
    ∧ (∀ (parse : String → Except String (Option Unstructured)) (rs : ResourceStatus)
        (bad : Manifest) (ms : List Manifest) (av : Option ApplicationVersions),
      ((∃ e, parse bad.CompiledManifest = .error e) ∨ parse bad.CompiledManifest = .ok none) →
      (getResourceDesiredState parse rs (some ⟨bad :: ms, av⟩)).1
        = (getResourceDesiredState parse rs (some ⟨ms, av⟩)).1)
    ∧ (∀ (parse : String → Except String (Option Unstructured)) (rs : ResourceStatus)
        (resp : ManifestResponse),
      rs.GroupVersionKind.WellFormed →
      (∀ m ∈ resp.Manifests, ∀ u, parse m.CompiledManifest = .ok (some u) →
        u.GroupVersionKind.WellFormed) →
      (getResourceDesiredState parse rs (some resp)).1
        = ((resp.Manifests.find? (isDesiredStateOfByParts parse rs)).map
            (secretPolicy rs)).getD {}) := by
  refine ⟨?_, ?_, ?_, ?_⟩
  · intro parse rs
    rfl
  · intro parse rs resp
    simp only [getResourceDesiredState, search_fst]
  · intro parse rs bad ms av hbad
    have hb : isDesiredStateOf parse rs bad = false := by
      rcases hbad with ⟨e, he⟩ | hn
      · simp [isDesiredStateOf, he]
      · simp [isDesiredStateOf, hn]
    simp only [getResourceDesiredState, search_fst, List.find?, hb]
  · intro parse rs resp hrs hms
    simp only [getResourceDesiredState, search_fst]
    rw [find?_congr_mem (isDesiredStateOf parse rs) (isDesiredStateOfByParts parse rs)
      resp.Manifests
      (fun m hm => isDesiredStateOf_eq_byParts parse rs m hrs (hms m hm))]

/-- Witness of C10: the first manifest does not parse and is skipped, the second
is another resource, the third matches the Secret `prod/db` through its omitted
namespace. -/
theorem desired_state_resolution_witness :
    (getResourceDesiredState exampleUnmarshal secretResource (some exampleManifests)).1
        = { CompiledManifest := "secret-db", RawManifest := "secret-db" }
    ∧ (getResourceDesiredState exampleUnmarshal deploymentResource
        (some ⟨{ CompiledManifest := "garbage" } :: exampleManifests.Manifests, none⟩)).1
        = { CompiledManifest := "deploy-web", RawManifest := "raw-web" } := by
  constructor
  · rw [desired_state_resolution.2.2.2 exampleUnmarshal secretResource exampleManifests
      (by decide)
      (by
        intro m hm u hu
        simp only [exampleManifests, List.mem_cons, List.mem_singleton,
          List.not_mem_nil, or_false] at hm
        rcases hm with rfl | rfl | rfl
        · simp [exampleUnmarshal] at hu
        · simp only [exampleUnmarshal] at hu
          simp only [String.reduceEq, if_false, if_true, Except.ok.injEq, Option.some.injEq] at hu
          subst hu
          decide
        · simp only [exampleUnmarshal] at hu
          simp only [String.reduceEq, if_false, if_true, Except.ok.injEq, Option.some.injEq] at hu
          subst hu
          decide)]
    decide
  · rw [desired_state_resolution.2.2.1 exampleUnmarshal deploymentResource
      { CompiledManifest := "garbage" } exampleManifests.Manifests none (Or.inl ⟨_, rfl⟩)]
    decide

theorem viaGetResource_world (env : Env) (w : World) (rs : ResourceStatus)
    (parentApplication : Application) :
    (getResourceActualState.viaGetResource env w rs parentApplication).2
      = w.call (.GetResource (getResourceActualState.request rs parentApplication)) := by
  unfold getResourceActualState.viaGetResource
  simp only []
  split
  · split
    · split <;> rfl
    · rfl
  · rfl

theorem getResourceActualState_world (env : Env) (w : World) (rs : ResourceStatus)
    (parentApplication : Application) (childApplication : Option Application) :
    (getResourceActualState env w rs parentApplication childApplication).2.1 = w
      ∨ (getResourceActualState env w rs parentApplication childApplication).2.1
          = w.call (.GetResource (getResourceActualState.request rs parentApplication)) := by
  unfold getResourceActualState
  split
  · cases childApplication with
    | none => exact Or.inl rfl
    | some child =>
      simp only []
      split
      · split
        · exact Or.inl rfl
        · exact Or.inr (viaGetResource_world env w rs parentApplication)
      · exact Or.inr (viaGetResource_world env w rs parentApplication)
  · exact Or.inr (viaGetResource_world env w rs parentApplication)

theorem getResourceActualState_child (env : Env) (w : World) (rs : ResourceStatus)
    (parentApplication : Application) (childApplication : Option Application) :
    (getResourceActualState env w rs parentApplication childApplication).2.2 = childApplication
      ∨ ∃ c, childApplication = some c
          ∧ (getResourceActualState env w rs parentApplication childApplication).2.2
            = some (SetDefaultTypeMeta env c) := by
  unfold getResourceActualState
  split
  · cases childApplication with
    | none => exact Or.inl rfl
    | some child =>
      by_cases he : env.IsEmptyTypeMeta child = true
      · refine Or.inr ⟨child, rfl, ?_⟩
        simp only [he, if_true]
        split
        · split <;> rfl
        · rfl
      · refine Or.inl ?_
        simp only [he, if_false]
        split
        · split <;> rfl
        · rfl
  · exact Or.inl rfl

theorem processResource_effect (env : Env) (w : World) (rs : ResourceStatus)
    (startedAt : String) (ds : Option ManifestResponse) (manifestGenErr : Bool)
    (originalApplication : Option Application) (av : Option ApplicationVersions)
    (parent : ReportedEntityParentApp) (atm : ArgoTrackingMetadata) :
    ∃ new : List Call,
      (processResource env w rs startedAt ds manifestGenErr originalApplication av parent
          atm).world.calls = w.calls ++ new
      ∧ (((∀ name ev, Call.SendEvent name ev ∈ new → env.SendEvent name ev ≠ none)
          ∧ (processResource env w rs startedAt ds manifestGenErr originalApplication av parent
              atm).world.cache = w.cache)
        ∨ ((∃ name ev, Call.SendEvent name ev ∈ new ∧ env.SendEvent name ev = none)
          ∧ (processResource env w rs startedAt ds manifestGenErr originalApplication av parent
              atm).err = none
          ∧ (processResource env w rs startedAt ds manifestGenErr originalApplication av parent
              atm).world.cache
            = (w.cache.SetLastResourceEvent
                (getAppForResourceReporting env rs parent.app parent.revisionsMetadata).1 rs
                (resourceEventCacheExpiration env)
                (env.GetApplicationLatestRevision
                  (getAppForResourceReporting env rs parent.app parent.revisionsMetadata).1)).2)) := by
  have hw := getResourceActualState_world env w rs parent.app originalApplication
  unfold processResource
  generalize getResourceActualState env w rs parent.app originalApplication = g at hw
  obtain ⟨res, w1, o1⟩ := g
  simp only [] at hw
  have hpre : ∃ pre : List Call, w1.calls = w.calls ++ pre ∧ w1.cache = w.cache
      ∧ ∀ name ev, Call.SendEvent name ev ∉ pre := by
    rcases hw with rfl | rfl
    · exact ⟨[], by simp, rfl, by simp⟩
    · exact ⟨[_], rfl, rfl, by simp⟩
  obtain ⟨pre, hcalls, hcache, hnosend⟩ := hpre
  cases res with
  | error e =>
    exact ⟨pre, hcalls, Or.inl ⟨fun n ev h => absurd h (hnosend n ev), hcache⟩⟩
  | ok r =>
    cases r with
    | none =>
      exact ⟨pre, hcalls, Or.inl ⟨fun n ev h => absurd h (hnosend n ev), hcache⟩⟩
    | some actualState =>
      simp only []
      split
      · exact ⟨pre, hcalls, Or.inl ⟨fun n ev h => absurd h (hnosend n ev), hcache⟩⟩
      · rename_i ev hev
        split
        · rename_i err herr
          have hfail : ∀ name ev', Call.SendEvent name ev' ∈ pre ++ [Call.SendEvent
              (processResource.appName env rs actualState parent) ev] →
              env.SendEvent name ev' ≠ none := by
            intro name ev' hmem
            rw [List.mem_append] at hmem
            rcases hmem with h | h
            · exact absurd h (hnosend name ev')
            · simp only [List.mem_singleton, Call.SendEvent.injEq] at h
              rw [h.1, h.2, herr]
              simp
          split
          · exact ⟨pre ++ [Call.SendEvent (processResource.appName env rs actualState parent) ev],
              by simp [World.call, hcalls], Or.inl ⟨hfail, hcache⟩⟩
          · exact ⟨pre ++ [Call.SendEvent (processResource.appName env rs actualState parent) ev],
              by simp [World.call, hcalls], Or.inl ⟨hfail, hcache⟩⟩
        · rename_i hok
          refine ⟨pre ++ [Call.SendEvent (processResource.appName env rs actualState parent) ev],
            by simp [World.call, hcalls],
            Or.inr ⟨⟨processResource.appName env rs actualState parent, ev, ?_, hok⟩, rfl, ?_⟩⟩
          · simp
          · simp [World.call, hcache]

theorem Cache.sameApplications_refl (c : Cache) : c.sameApplications c := ⟨rfl, rfl⟩

theorem Cache.sameApplications_trans {c c' c'' : Cache} (h : c.sameApplications c')
    (h' : c'.sameApplications c'') : c.sameApplications c'' :=
  ⟨h'.1.trans h.1, h'.2.trans h.2⟩

theorem SetLastResourceEvent_sameApplications (c : Cache) (a : Application)
    (rs : ResourceStatus) (ttl : Int) (revision : String) :
    c.sameApplications (c.SetLastResourceEvent a rs ttl revision).2 := by
  unfold Cache.SetLastResourceEvent
  split
  · exact ⟨rfl, rfl⟩
  · exact ⟨rfl, rfl⟩

theorem processResource_sameApplications (env : Env) (w : World) (rs : ResourceStatus)
    (startedAt : String) (ds : Option ManifestResponse) (manifestGenErr : Bool)
    (originalApplication : Option Application) (av : Option ApplicationVersions)
    (parent : ReportedEntityParentApp) (atm : ArgoTrackingMetadata) :
    w.cache.sameApplications
      (processResource env w rs startedAt ds manifestGenErr originalApplication av parent
        atm).world.cache := by
  obtain ⟨new, _, h | h⟩ := processResource_effect env w rs startedAt ds manifestGenErr
    originalApplication av parent atm
  · rw [h.2]
    exact Cache.sameApplications_refl _
  · rw [h.2.2]
    exact SetLastResourceEvent_sameApplications _ _ _ _ _

theorem resources_sameApplications (env : Env) (a : Application) (startedAt : String)
    (ignoreResourceCache : Bool) (atm : ArgoTrackingMetadata) (appTree : Option ApplicationTree)
    (revisionsMetadata : Option AppSyncRevisionsMetadata) (manifestGenErr : Bool) :
    ∀ (rss : List ResourceStatus) (w : World) (ds : Option ManifestResponse),
      w.cache.sameApplications
        (StreamApplicationEvents.resources env a startedAt ignoreResourceCache atm appTree
          revisionsMetadata manifestGenErr rss w ds).2.cache := by
  intro rss
  induction rss with
  | nil =>
    intro w ds
    exact Cache.sameApplications_refl _
  | cons rs rest ih =>
    intro w ds
    unfold StreamApplicationEvents.resources
    split
    · exact ih w ds
    · simp only []
      split
      · exact ih w ds
      · have hp := processResource_sameApplications env w (env.SetHealthStatusIfMissing rs)
          startedAt ds manifestGenErr none none
          { app := a, appTree := appTree, revisionsMetadata := revisionsMetadata } atm
        split
        · exact hp
        · exact Cache.sameApplications_trans hp (ih _ _)

theorem getDesiredManifests_cache (env : Env) (w : World) (a : Application)
    (revision : Option String) : (getDesiredManifests env w a revision).2.cache = w.cache := by
  unfold getDesiredManifests
  simp only []
  split <;> rfl

theorem resolveApplicationVersions_cache (env : Env) (w : World) (a : Application) :
    (resolveApplicationVersions env w a).2.cache = w.cache := by
  unfold resolveApplicationVersions
  split
  · rfl
  · exact getDesiredManifests_cache env w a _

theorem walk_sameApplications (env : Env) (w : World) (a : Application) (startedAt : String)
    (ignoreResourceCache : Bool) (atm : ArgoTrackingMetadata) (appTree : Option ApplicationTree)
    (desiredManifests : ManifestResponse) (manifestGenErr : Bool) :
    w.cache.sameApplications
        (StreamApplicationEvents.walk env w a startedAt ignoreResourceCache atm appTree
          desiredManifests manifestGenErr).2.1.cache
      ∧ (StreamApplicationEvents.walk env w a startedAt ignoreResourceCache atm appTree
          desiredManifests manifestGenErr).2.2 = a := by
  unfold StreamApplicationEvents.walk
  exact ⟨resources_sameApplications _ _ _ _ _ _ _ _ _ _ _, rfl⟩

theorem processResource_originalApplication (env : Env) (w : World) (rs : ResourceStatus)
    (startedAt : String) (ds : Option ManifestResponse) (manifestGenErr : Bool)
    (originalApplication : Option Application) (av : Option ApplicationVersions)
    (parent : ReportedEntityParentApp) (atm : ArgoTrackingMetadata) :
    (processResource env w rs startedAt ds manifestGenErr originalApplication av parent
        atm).originalApplication
      = (getResourceActualState env w rs parent.app originalApplication).2.2 := by
  unfold processResource
  generalize getResourceActualState env w rs parent.app originalApplication = g
  obtain ⟨res, w1, o1⟩ := g
  cases res with
  | error e => rfl
  | ok r =>
    cases r with
    | none => rfl
    | some actualState =>
      simp only []
      split
      · rfl
      · split
        · split <;> rfl
        · rfl

theorem afterTree_frame (env : Env) (w : World) (a : Application) (startedAt : String)
    (ignoreResourceCache : Bool) (atm : ArgoTrackingMetadata)
    (appTree : Option ApplicationTree) :
    w.cache.sameApplications
        (StreamApplicationEvents.afterTree env w a startedAt ignoreResourceCache atm
          appTree).2.1.cache
      ∧ ((StreamApplicationEvents.afterTree env w a startedAt ignoreResourceCache atm
          appTree).2.2 = a
        ∨ (StreamApplicationEvents.afterTree env w a startedAt ignoreResourceCache atm
          appTree).2.2 = SetDefaultTypeMeta env a) := by
  have h1 := getDesiredManifests_cache env w a none
  have h2 := resolveApplicationVersions_cache env (getDesiredManifests env w a none).2 a
  have h0 : w.cache.sameApplications
      (resolveApplicationVersions env (getDesiredManifests env w a none).2 a).2.cache := by
    rw [h2, h1]
    exact Cache.sameApplications_refl _
  unfold StreamApplicationEvents.afterTree
  simp only []
  split
  · split
    · exact ⟨h0, Or.inl rfl⟩
    · rename_i parentApplicationEntity _
      generalize hw3 : (getDesiredManifests env
        ((resolveApplicationVersions env (getDesiredManifests env w a none).2 a).2.call
          (Call.Get
            (env.GetParentAppIdentity a atm.AppInstanceLabelKey atm.TrackingMethod).Name
            (env.GetParentAppIdentity a atm.AppInstanceLabelKey atm.TrackingMethod).Namespace))
        parentApplicationEntity none) = pdm
      have h3 : w.cache.sameApplications pdm.2.cache := by
        rw [← hw3, getDesiredManifests_cache]
        exact h0
      generalize hr : processResource env pdm.2
        (env.SetHealthStatusIfMissing (env.GetAppAsResource a)) startedAt (some pdm.1.1) pdm.1.2
        (some a) (resolveApplicationVersions env (getDesiredManifests env w a none).2 a).1
        { app := parentApplicationEntity, appTree := appTree
          revisionsMetadata :=
            valueOrNil (env.getApplicationRevisionsMetadata parentApplicationEntity) } atm = r
      have h4 : pdm.2.cache.sameApplications r.world.cache := by
        rw [← hr]
        exact processResource_sameApplications _ _ _ _ _ _ _ _ _ _
      have h5 : r.originalApplication.getD a = a
          ∨ r.originalApplication.getD a = SetDefaultTypeMeta env a := by
        rw [← hr, processResource_originalApplication]
        rcases getResourceActualState_child env pdm.2
          (env.SetHealthStatusIfMissing (env.GetAppAsResource a)) parentApplicationEntity
          (some a) with h | ⟨c, hc, h⟩
        · rw [h]
          exact Or.inl rfl
        · rw [h]
          simp only [Option.some.injEq] at hc
          subst hc
          exact Or.inr rfl
      split
      · exact ⟨Cache.sameApplications_trans h3 h4, h5⟩
      · have hwalk := walk_sameApplications env r.world (r.originalApplication.getD a) startedAt
          ignoreResourceCache atm appTree (getDesiredManifests env w a none).1.1
          (getDesiredManifests env w a none).1.2
        refine ⟨Cache.sameApplications_trans (Cache.sameApplications_trans h3 h4) hwalk.1, ?_⟩
        rw [hwalk.2]
        exact h5
  · split
    · exact ⟨h0, Or.inl rfl⟩
    · exact ⟨h0, Or.inl rfl⟩
    · split
      · exact ⟨h0, Or.inl rfl⟩
      · have hwalk := walk_sameApplications env
          ((resolveApplicationVersions env (getDesiredManifests env w a none).2 a).2.call
            (Call.SendEvent a.ObjectMeta.Name ‹EventPayload›))
          a startedAt ignoreResourceCache atm appTree (getDesiredManifests env w a none).1.1
          (getDesiredManifests env w a none).1.2
        exact ⟨Cache.sameApplications_trans h0 hwalk.1, Or.inl hwalk.2⟩

theorem StreamApplicationEvents_frame (env : Env) (w : World) (a : Application)
    (startedAt : String) (ignoreResourceCache : Bool) (atm : ArgoTrackingMetadata) :
    w.cache.sameApplications
        (StreamApplicationEvents env w a startedAt ignoreResourceCache atm).2.1.cache
      ∧ ((StreamApplicationEvents env w a startedAt ignoreResourceCache atm).2.2 = a
        ∨ (StreamApplicationEvents env w a startedAt ignoreResourceCache atm).2.2
            = SetDefaultTypeMeta env a) := by
  unfold StreamApplicationEvents
  simp only []
  split
  · split
    · exact ⟨Cache.sameApplications_refl _, Or.inl rfl⟩
    · exact afterTree_frame env _ a startedAt ignoreResourceCache atm none
  · exact afterTree_frame env _ a startedAt ignoreResourceCache atm _

theorem deepEqualChangeDetected_typeMeta (kind : EventType) (a : Application) (t : TypeMeta) :
    deepEqualChangeDetected kind a { a with TypeMeta := t } = false := by
  simp [deepEqualChangeDetected, normalise]

theorem ShouldSendApplicationEvent_not_hit (cache : Cache) (ae : ApplicationWatchEvent)
    (hmiss : ∀ cached, cache.GetLastApplicationEvent ae.Application ≠ .ok (some cached)) :
    ShouldSendApplicationEvent cache ae = ((true, false), ae) := by
  unfold ShouldSendApplicationEvent
  split
  · rfl
  · cases h : cache.GetLastApplicationEvent ae.Application with
    | error e => rfl
    | ok r =>
      cases r with
      | none => rfl
      | some c => exact absurd h (hmiss c)

theorem shouldSend_after_store (c : Cache) (a a' : Application)
    (hhit : c.GetLastApplicationEvent a = .ok (some a'))
    (h : a' = a ∨ ∃ t, a' = { a with TypeMeta := t }) :
    (ShouldSendApplicationEvent c ⟨EventType.Modified, a⟩).1 = (false, false) := by
  rw [ShouldSendApplicationEvent_hit c ⟨EventType.Modified, a⟩ a' (by simp) hhit]
  rcases h with h | ⟨t, h⟩
  · subst h
    simp [deepEqualChangeDetected_self EventType.Modified a' a' rfl]
  · subst h
    simp [deepEqualChangeDetected_typeMeta]

/-- C3: starting from a cache without an entry for the application, a first
Modified event carrying record `a` gets `shouldSend = true`; and once the
controller has handled that event without error (`StreamApplicationEvents`
returned nil and `SetLastApplicationEvent` stored the record), a second Modified
event carrying the same record gets `(false, false)`. -/
theorem idempotence (env : Env) (w : World) (a : Application) (startedAt : String)
    (hmiss : ∀ cached, w.cache.GetLastApplicationEvent a ≠ .ok (some cached)) :
    (ShouldSendApplicationEvent w.cache ⟨EventType.Modified, a⟩).1.1 = true
    ∧ ((Run.handleEvent env w ⟨EventType.Modified, a⟩ startedAt).1 = none →
      (ShouldSendApplicationEvent
        (Run.handleEvent env w ⟨EventType.Modified, a⟩ startedAt).2.cache
        ⟨EventType.Modified, a⟩).1 = (false, false)) := by
  have hfirst := ShouldSendApplicationEvent_not_hit w.cache ⟨EventType.Modified, a⟩ hmiss
  refine ⟨by rw [hfirst], ?_⟩
  unfold Run.handleEvent
  simp only [hfirst, Bool.not_true, Bool.false_eq_true, if_false]
  unfold sendIfPermitted
  simp only [reduceCtorEq, if_false]
  cases env.GetAppInstanceLabelKey with
  | error e => simp
  | ok key =>
    simp only []
    have hframe := StreamApplicationEvents_frame env w a startedAt false
      { AppInstanceLabelKey := key, TrackingMethod := env.GetTrackingMethod }
    generalize StreamApplicationEvents env w a startedAt false
      { AppInstanceLabelKey := key, TrackingMethod := env.GetTrackingMethod } = r at hframe
    obtain ⟨err, w', a'⟩ := r
    simp only [] at hframe
    cases err with
    | some e => simp
    | none =>
      simp only []
      unfold Cache.SetLastApplicationEvent
      by_cases hav : w'.cache.Available = true
      · simp only [hav, if_true]
        intro _
        have hkey : lastApplicationEventKey a = lastApplicationEventKey a' := by
          rcases hframe.2 with h | h <;> subst h <;> rfl
        refine shouldSend_after_store _ a a' ?_ ?_
        · simp [Cache.GetLastApplicationEvent, hkey]
        · rcases hframe.2 with h | h
          · exact Or.inl h
          · exact Or.inr ⟨env.DefaultTypeMeta, h⟩
      · simp [hav]

/-- Witness of C3: the synced example application on an empty cache, with an
environment in which every call succeeds. -/
theorem idempotence_witness :
    (ShouldSendApplicationEvent initialWorld.cache ⟨EventType.Modified, syncedApp⟩).1.1 = true
    ∧ (ShouldSendApplicationEvent
        (Run.handleEvent exampleEnv initialWorld ⟨EventType.Modified, syncedApp⟩ "t0").2.cache
        ⟨EventType.Modified, syncedApp⟩).1 = (false, false) :=
  have h := idempotence exampleEnv initialWorld syncedApp "t0"
    (by intro c; simp [initialWorld, emptyCache, Cache.GetLastApplicationEvent])
  ⟨h.1, h.2 (by decide)⟩

theorem shouldSendResourceEvent_false_iff (env : Env) (cache : Cache) (a : Application)
    (rs : ResourceStatus) :
    shouldSendResourceEvent env cache a rs = false
      ↔ cache.GetLastResourceEvent a rs (env.GetApplicationLatestRevision a) = .ok rs := by
  unfold shouldSendResourceEvent
  cases h : cache.GetLastResourceEvent a rs (env.GetApplicationLatestRevision a) with
  | error e => simp
  | ok c =>
    by_cases hc : c = rs
    · simp [hc]
    · simp [hc]

theorem GetLastResourceEvent_after_set (c : Cache) (p a : Application) (rs : ResourceStatus)
    (ttl : Int) (rev rev' : String) (hav : c.Available = true) :
    (c.SetLastResourceEvent p rs ttl rev).2.GetLastResourceEvent a rs rev'
      = if lastResourceEventKey a rs rev' = lastResourceEventKey p rs rev then .ok rs
        else c.GetLastResourceEvent a rs rev' := by
  unfold Cache.SetLastResourceEvent Cache.GetLastResourceEvent
  simp only [hav, if_true]
  by_cases hk : lastResourceEventKey a rs rev' = lastResourceEventKey p rs rev
  · simp [hk]
  · simp [hk]

/-- C8: `shouldSendResourceEvent` returns false exactly when the cache holds,
under the key (application, resource, latest revision of the application), a
status equal to the incoming one, and true when the lookup fails or the cached
status differs.  Hence, once `processResource` has delivered the resource (its
`SendEvent` returned no error) on an available cache, the call with the same
status is false for the reported application at the same revision; an entry
written for one revision is not consulted for an application at another
revision, for which the result is what it was before the delivery, and is true
when nothing is cached under the new revision. -/
theorem resource_dedup :
    (∀ (env : Env) (cache : Cache) (a : Application) (rs : ResourceStatus),
      shouldSendResourceEvent env cache a rs = false
        ↔ cache.GetLastResourceEvent a rs (env.GetApplicationLatestRevision a) = .ok rs)
    ∧ (∀ (env : Env) (cache : Cache) (a : Application) (rs : ResourceStatus),
      ((∃ e, cache.GetLastResourceEvent a rs (env.GetApplicationLatestRevision a) = .error e)
        ∨ ∃ c, cache.GetLastResourceEvent a rs (env.GetApplicationLatestRevision a) = .ok c
            ∧ c ≠ rs) →
      shouldSendResourceEvent env cache a rs = true)
    ∧ (∀ (env : Env) (w : World) (rs : ResourceStatus) (startedAt : String)
        (ds : Option ManifestResponse) (manifestGenErr : Bool)
        (originalApplication : Option Application) (av : Option ApplicationVersions)
        (parent : ReportedEntityParentApp) (atm : ArgoTrackingMetadata)
        (new : List Call) (name : String) (ev : EventPayload),
      w.cache.Available = true →
      (processResource env w rs startedAt ds manifestGenErr originalApplication av parent
        atm).world.calls = w.calls ++ new →
      Call.SendEvent name ev ∈ new → env.SendEvent name ev = none →
      (∀ a2 : Application,
        lastApplicationEventKey a2 = lastApplicationEventKey
          (getAppForResourceReporting env rs parent.app parent.revisionsMetadata).1 →
        env.GetApplicationLatestRevision a2 = env.GetApplicationLatestRevision
          (getAppForResourceReporting env rs parent.app parent.revisionsMetadata).1 →
        shouldSendResourceEvent env
          (processResource env w rs startedAt ds manifestGenErr originalApplication av parent
            atm).world.cache a2 rs = false)
      ∧ (∀ a3 : Application,
        env.GetApplicationLatestRevision a3 ≠ env.GetApplicationLatestRevision
          (getAppForResourceReporting env rs parent.app parent.revisionsMetadata).1 →
        shouldSendResourceEvent env
          (processResource env w rs startedAt ds manifestGenErr originalApplication av parent
            atm).world.cache a3 rs = shouldSendResourceEvent env w.cache a3 rs
        ∧ (w.cache.LastResourceEvent
            (lastResourceEventKey a3 rs (env.GetApplicationLatestRevision a3)) = none →
          shouldSendResourceEvent env
            (processResource env w rs startedAt ds manifestGenErr originalApplication av parent
              atm).world.cache a3 rs = true))) := by
  refine ⟨shouldSendResourceEvent_false_iff, ?_, ?_⟩
  · intro env cache a rs h
    unfold shouldSendResourceEvent
    rcases h with ⟨e, he⟩ | ⟨c, hc, hne⟩
    · simp [he]
    · simp [hc, hne]
  · intro env w rs startedAt ds manifestGenErr originalApplication av parent atm new name ev
      hav hcalls hmem hsent
    obtain ⟨new', hcalls', h | h⟩ := processResource_effect env w rs startedAt ds manifestGenErr
      originalApplication av parent atm
    · have hnew : new = new' := List.append_cancel_left (hcalls.symm.trans hcalls')
      subst hnew
      exact absurd hsent (h.1 name ev hmem)
    · rw [h.2.2]
      constructor
      · intro a2 hkey hrev
        rw [shouldSendResourceEvent_false_iff, GetLastResourceEvent_after_set _ _ _ _ _ _ _ hav,
          if_pos]
        simp [lastResourceEventKey, hkey, hrev]
      · intro a3 hrev
        have hsame : shouldSendResourceEvent env
            (w.cache.SetLastResourceEvent
              (getAppForResourceReporting env rs parent.app parent.revisionsMetadata).1 rs
              (resourceEventCacheExpiration env)
              (env.GetApplicationLatestRevision
                (getAppForResourceReporting env rs parent.app parent.revisionsMetadata).1)).2
            a3 rs = shouldSendResourceEvent env w.cache a3 rs := by
          unfold shouldSendResourceEvent
          rw [GetLastResourceEvent_after_set _ _ _ _ _ _ _ hav, if_neg]
          simp [lastResourceEventKey, hrev]
        refine ⟨hsame, ?_⟩
        intro hnone
        rw [hsame]
        simp [shouldSendResourceEvent, Cache.GetLastResourceEvent, hav, hnone]

/-- Witness of C8: the Secret `prod/db` of the synced example application is
delivered on an empty cache; the same status is then not sent again at revision
`abc` and is sent at revision `def`; on a cache whose backend is down it is
sent. -/
theorem resource_dedup_witness :
    shouldSendResourceEvent exampleEnv
        (processResource exampleEnv initialWorld secretResource "t0" (some exampleManifests)
          false none none { app := syncedApp, appTree := none, revisionsMetadata := none }
          { AppInstanceLabelKey := "app.kubernetes.io/instance"
            TrackingMethod := "annotation" }).world.cache
        syncedApp secretResource = false
    ∧ shouldSendResourceEvent exampleEnv
        (processResource exampleEnv initialWorld secretResource "t0" (some exampleManifests)
          false none none { app := syncedApp, appTree := none, revisionsMetadata := none }
          { AppInstanceLabelKey := "app.kubernetes.io/instance"
            TrackingMethod := "annotation" }).world.cache
        resyncedApp secretResource = true
    ∧ shouldSendResourceEvent exampleEnv faultyCache syncedApp secretResource = true :=
  have h := resource_dedup.2.2 exampleEnv initialWorld secretResource "t0"
    (some exampleManifests) false none none
    { app := syncedApp, appTree := none, revisionsMetadata := none }
    { AppInstanceLabelKey := "app.kubernetes.io/instance", TrackingMethod := "annotation" }
    [Call.GetResource (getResourceActualState.request secretResource syncedApp),
      Call.SendEvent "guestbook" { Body := "db" }]
    "guestbook" { Body := "db" } rfl (by decide) (by decide) rfl
  ⟨h.1 syncedApp rfl rfl, (h.2 resyncedApp (by decide)).2 rfl,
   resource_dedup.2.1 exampleEnv faultyCache syncedApp secretResource (Or.inl ⟨_, rfl⟩)⟩

theorem ShouldSendApplicationEvent_type (cache : Cache) (ae : ApplicationWatchEvent) :
    (ShouldSendApplicationEvent cache ae).2.Type_ = ae.Type_ := by
  unfold ShouldSendApplicationEvent
  split
  · rfl
  · split
    · rfl
    · rfl
    · simp only []
      split
      · rfl
      · split
        · rfl
        · split
          · rfl
          · split
            · rfl
            · split <;> rfl

/-- C11: for every event of kind Bookmark the handling of the event by the
controller loop leaves the world as it was (no call of the RPC client or of the
sink, no cache write) and reports no error, whatever
`ShouldSendApplicationEvent` returned; `sendIfPermitted` itself returns nil
before any other statement, whatever record and flag it is given. -/
theorem bookmark_suppression (env : Env) (w : World) (a : Application)
    (eventProcessingStartedAt : String) :
    Run.handleEvent env w ⟨EventType.Bookmark, a⟩ eventProcessingStartedAt = (none, w)
    ∧ ∀ (a' : Application) (ignoreResourceCache : Bool),
        sendIfPermitted env w a' EventType.Bookmark eventProcessingStartedAt ignoreResourceCache
          = (none, w) := by
  have hsend : ∀ (a' : Application) (ignoreResourceCache : Bool),
      sendIfPermitted env w a' EventType.Bookmark eventProcessingStartedAt ignoreResourceCache
        = (none, w) := by
    intro a' i
    simp [sendIfPermitted]
  refine ⟨?_, hsend⟩
  unfold Run.handleEvent
  simp only []
  split
  · rfl
  · rw [ShouldSendApplicationEvent_type]
    exact hsend _ _

/-- C17: `processResource` leaves the cache as it was unless one of the
`SendEvent` calls it made returned no error (so a `GetResource` failure, a
payload-construction failure and a `SendEvent` failure all leave it unchanged);
`sendIfPermitted` leaves the application entries of the cache as they were
unless `StreamApplicationEvents` returned nil: a settings error returns before
any effect, and a reporter error is returned with the application entries
untouched. -/
theorem cache_changes_only_on_success :
    (∀ (env : Env) (w : World) (rs : ResourceStatus) (startedAt : String)
        (ds : Option ManifestResponse) (manifestGenErr : Bool)
        (originalApplication : Option Application) (av : Option ApplicationVersions)
        (parent : ReportedEntityParentApp) (atm : ArgoTrackingMetadata) (new : List Call),
      (processResource env w rs startedAt ds manifestGenErr originalApplication av parent
        atm).world.calls = w.calls ++ new →
      (∀ name ev, Call.SendEvent name ev ∈ new → env.SendEvent name ev ≠ none) →
      (processResource env w rs startedAt ds manifestGenErr originalApplication av parent
        atm).world.cache = w.cache)
    ∧ (∀ (env : Env) (w : World) (a : Application) (eventType : EventType)
        (startedAt : String) (ignoreResourceCache : Bool),
      (sendIfPermitted env w a eventType startedAt ignoreResourceCache).2.cache.LastApplicationEvent
          = w.cache.LastApplicationEvent
        ∨ (eventType ≠ EventType.Bookmark
          ∧ ∃ key, env.GetAppInstanceLabelKey = .ok key
            ∧ (StreamApplicationEvents env w a startedAt ignoreResourceCache
                { AppInstanceLabelKey := key, TrackingMethod := env.GetTrackingMethod }).1 = none))
    ∧ (∀ (env : Env) (w : World) (a : Application) (eventType : EventType)
        (startedAt : String) (ignoreResourceCache : Bool) (err : String),
      eventType ≠ EventType.Bookmark →
      env.GetAppInstanceLabelKey = .error err →
      sendIfPermitted env w a eventType startedAt ignoreResourceCache = (some err, w))
    ∧ (∀ (env : Env) (w : World) (a : Application) (eventType : EventType)
        (startedAt : String) (ignoreResourceCache : Bool) (key err : String),
      eventType ≠ EventType.Bookmark →
      env.GetAppInstanceLabelKey = .ok key →
      (StreamApplicationEvents env w a startedAt ignoreResourceCache
        { AppInstanceLabelKey := key, TrackingMethod := env.GetTrackingMethod }).1 = some err →
      (sendIfPermitted env w a eventType startedAt ignoreResourceCache).1 = some err
      ∧ (sendIfPermitted env w a eventType startedAt
          ignoreResourceCache).2.cache.LastApplicationEvent = w.cache.LastApplicationEvent) := by
  refine ⟨?_, ?_, ?_, ?_⟩
  · intro env w rs startedAt ds manifestGenErr originalApplication av parent atm new hcalls hfail
    obtain ⟨new', hcalls', h | h⟩ := processResource_effect env w rs startedAt ds manifestGenErr
      originalApplication av parent atm
    · exact h.2
    · have hnew : new = new' := List.append_cancel_left (hcalls.symm.trans hcalls')
      subst hnew
      obtain ⟨name, ev, hmem, hok⟩ := h.1
      exact absurd hok (hfail name ev hmem)
  · intro env w a eventType startedAt i
    unfold sendIfPermitted
    split
    · exact Or.inl rfl
    · rename_i hb
      split
      · exact Or.inl rfl
      · rename_i key hkey
        simp only []
        have hframe := StreamApplicationEvents_frame env w a startedAt i
          { AppInstanceLabelKey := key, TrackingMethod := env.GetTrackingMethod }
        split
        · exact Or.inl hframe.1.1
        · rename_i hnone
          exact Or.inr ⟨hb, key, hkey, hnone⟩
  · intro env w a eventType startedAt i err hb hkey
    simp [sendIfPermitted, hb, hkey]
  · intro env w a eventType startedAt i key err hb hkey hstream
    have hframe := StreamApplicationEvents_frame env w a startedAt i
      { AppInstanceLabelKey := key, TrackingMethod := env.GetTrackingMethod }
    simp only [sendIfPermitted, hb, if_false, hkey, hstream, true_and]
    exact hframe.1.1

/-- Witness of C17: with a sink that refuses the event the resource cache stays
as it was and the controller stores nothing; with a failing settings provider
the controller returns the error before any effect. -/
theorem cache_changes_only_on_success_witness :
    (processResource refusingSinkEnv initialWorld secretResource "t0" (some exampleManifests)
        false none none { app := syncedApp, appTree := none, revisionsMetadata := none }
        exampleTracking).world.cache = initialWorld.cache
    ∧ sendIfPermitted noSettingsEnv initialWorld syncedApp EventType.Modified "t0" false
        = (some "configmap argocd-cm not found", initialWorld)
    ∧ ((sendIfPermitted refusingSinkEnv initialWorld syncedApp EventType.Modified "t0" false).1
        = some "failed to send event for root application argocd/guestbook: connection refused"
      ∧ (sendIfPermitted refusingSinkEnv initialWorld syncedApp EventType.Modified "t0"
          false).2.cache.LastApplicationEvent = initialWorld.cache.LastApplicationEvent) :=
  ⟨cache_changes_only_on_success.1 refusingSinkEnv initialWorld secretResource "t0"
      (some exampleManifests) false none none
      { app := syncedApp, appTree := none, revisionsMetadata := none } exampleTracking
      [Call.GetResource (getResourceActualState.request secretResource syncedApp),
        Call.SendEvent "guestbook" { Body := "db" }]
      (by decide) (fun _ _ _ => by simp [refusingSinkEnv]),
   cache_changes_only_on_success.2.2.1 noSettingsEnv initialWorld syncedApp EventType.Modified
      "t0" false "configmap argocd-cm not found" (by decide) rfl,
   cache_changes_only_on_success.2.2.2 refusingSinkEnv initialWorld syncedApp
      EventType.Modified "t0" false "app.kubernetes.io/instance"
      "failed to send event for root application argocd/guestbook: connection refused"
      (by decide) rfl (by decide)⟩

theorem durationMul_minutes (n : Int) (h0 : 0 ≤ n) (h1 : n ≤ maxMinutes) :
    durationMul timeMinute n = n * timeMinute ∧ 0 ≤ durationMul timeMinute n := by
  unfold maxMinutes at h1
  have hemod : (60 * 1000000000 * n + 2 ^ 63) % 2 ^ 64 = 60 * 1000000000 * n + 2 ^ 63 :=
    Int.emod_eq_of_lt (by omega) (by omega)
  unfold durationMul timeMinute
  rw [hemod]
  constructor <;> omega

/-- C18 (counterexample): with the variables set to 1 the two TTLs are one
minute, not one second; with the variables set to `math.MaxInt32` the product
overflows `int64` and the TTL is negative. -/
theorem cache_ttl_not_seconds :
    resourceEventCacheExpiration (configuredEnv 1) = 60 * timeSecond
    ∧ applicationEventCacheExpiration (configuredEnv 1) = 60 * timeSecond
    ∧ resourceEventCacheExpiration (configuredEnv 1) ≠ 1 * timeSecond
    ∧ applicationEventCacheExpiration (configuredEnv MaxInt32) < 0 := by
  refine ⟨?_, ?_, ?_, ?_⟩ <;> decide

/-- C18 (amended): the two TTLs are the integer that `ParseNumFromEnv` returns
for `APPLICATION_EVENT_CACHE_DURATION` / `RESOURCE_EVENT_CACHE_DURATION`, with
default 20 and bounds 0 and `math.MaxInt32`, taken as minutes: 20 minutes (20×60
seconds) when the parser returns its default, and for every returned value `n`
from 0 to 153722867 a non-negative duration of `n` minutes. -/
theorem cache_ttl_minutes :
    (∀ env : Env,
      (∀ defaultValue min max,
        env.ParseNumFromEnv EnvApplicationEventCacheDuration defaultValue min max
          = defaultValue) →
      applicationEventCacheExpiration env = 20 * 60 * timeSecond)
    ∧ (∀ env : Env,
      (∀ defaultValue min max,
        env.ParseNumFromEnv EnvResourceEventCacheDuration defaultValue min max = defaultValue) →
      resourceEventCacheExpiration env = 20 * 60 * timeSecond)
    ∧ (∀ (env : Env) (n : Int), 0 ≤ n → n ≤ maxMinutes →
      env.ParseNumFromEnv EnvApplicationEventCacheDuration 20 0 MaxInt32 = n →
      applicationEventCacheExpiration env = n * timeMinute
        ∧ 0 ≤ applicationEventCacheExpiration env)
    ∧ (∀ (env : Env) (n : Int), 0 ≤ n → n ≤ maxMinutes →
      env.ParseNumFromEnv EnvResourceEventCacheDuration 20 0 MaxInt32 = n →
      resourceEventCacheExpiration env = n * timeMinute
        ∧ 0 ≤ resourceEventCacheExpiration env) := by
  refine ⟨?_, ?_, ?_, ?_⟩
  · intro env h
    unfold applicationEventCacheExpiration
    rw [h, (durationMul_minutes 20 (by decide) (by decide)).1]
    decide
  · intro env h
    unfold resourceEventCacheExpiration
    rw [h, (durationMul_minutes 20 (by decide) (by decide)).1]
    decide
  · intro env n h0 h1 h
    unfold applicationEventCacheExpiration
    rw [h]
    exact durationMul_minutes n h0 h1
  · intro env n h0 h1 h
    unfold resourceEventCacheExpiration
    rw [h]
    exact durationMul_minutes n h0 h1

/-- Witness of C18: unset variables give 20 minutes, the value 5 gives five
minutes. -/
theorem cache_ttl_minutes_witness :
    applicationEventCacheExpiration exampleEnv = 20 * 60 * timeSecond
    ∧ resourceEventCacheExpiration exampleEnv = 20 * 60 * timeSecond
    ∧ (applicationEventCacheExpiration (configuredEnv 5) = 5 * timeMinute
      ∧ 0 ≤ applicationEventCacheExpiration (configuredEnv 5))
    ∧ (resourceEventCacheExpiration (configuredEnv 5) = 5 * timeMinute
      ∧ 0 ≤ resourceEventCacheExpiration (configuredEnv 5)) :=
  ⟨cache_ttl_minutes.1 exampleEnv (fun _ _ _ => rfl),
   cache_ttl_minutes.2.1 exampleEnv (fun _ _ _ => rfl),
   cache_ttl_minutes.2.2.1 (configuredEnv 5) 5 (by decide) (by decide) (by decide),
   cache_ttl_minutes.2.2.2 (configuredEnv 5) 5 (by decide) (by decide) (by decide)⟩

theorem find?_filter_self {α : Type} (p : α → Bool) (l : List α) :
    (l.filter p).find? p = l.find? p := by
  induction l with
  | nil => rfl
  | cons x xs ih =>
    by_cases hx : p x = true
    · simp [List.filter, List.find?, hx]
    · simp only [Bool.not_eq_true] at hx
      simp [List.filter, List.find?, hx, ih]

/-- C19: when the first sync-result entry of the resource (same group, kind,
namespace and name, sync phase Sync) has hook phase Failed,
`parseResourceSyncResultErrors` returns exactly one error, of type `sync` and
level `error`, whose message is the message of the entry as it is; when its hook
phase is Succeeded the result is empty; and the result is the same when the
entries of all other resources are removed from the sync result. -/
theorem parse_resource_sync_result_errors :
    (∀ (rs : ResourceStatus) (os : OperationState) (syncResult : SyncOperationResult)
        (sr : ResourceResult),
      os.SyncResult = some syncResult →
      syncResult.Resources.find?
        (fun r => r.isEntryOf rs.Group rs.Kind rs.Namespace rs.Name SyncPhaseSync) = some sr →
      sr.HookPhase = OperationFailed →
      parseResourceSyncResultErrors rs os
        = [{ Type_ := "sync", Level := "error", Message := sr.Message }])
    ∧ (∀ (rs : ResourceStatus) (os : OperationState) (syncResult : SyncOperationResult)
        (sr : ResourceResult),
      os.SyncResult = some syncResult →
      syncResult.Resources.find?
        (fun r => r.isEntryOf rs.Group rs.Kind rs.Namespace rs.Name SyncPhaseSync) = some sr →
      sr.HookPhase = OperationSucceeded →
      parseResourceSyncResultErrors rs os = [])
    ∧ (∀ (rs : ResourceStatus) (os : OperationState) (syncResult : SyncOperationResult),
      os.SyncResult = some syncResult →
      parseResourceSyncResultErrors rs os
        = parseResourceSyncResultErrors rs
            { os with SyncResult := some ({ syncResult with
                Resources := syncResult.Resources.filter (fun r =>
                  r.isEntryOf rs.Group rs.Kind rs.Namespace rs.Name SyncPhaseSync) }) }) := by
  refine ⟨?_, ?_, ?_⟩
  · intro rs os syncResult sr hos hfind hphase
    simp [parseResourceSyncResultErrors, hos, hfind, hphase]
  · intro rs os syncResult sr hos hfind hphase
    simp [parseResourceSyncResultErrors, hos, hfind, hphase, OperationSucceeded, OperationFailed]
  · intro rs os syncResult hos
    simp only [parseResourceSyncResultErrors, hos, find?_filter_self]

/-- Witness of C19: the three cases of `TestParseResourceSyncResultErrors`. -/
theorem parse_resource_sync_result_errors_witness :
    parseResourceSyncResultErrors testResource
        (testOperationState "error message, with comma" "Failed")
      = [{ Type_ := "sync", Level := "error", Message := "error message, with comma" }]
    ∧ parseResourceSyncResultErrors testResource (testOperationState "error message" "Succeeded")
      = []
    ∧ parseResourceSyncResultErrors testResource (testOperationState "error message" "Failed")
      = parseResourceSyncResultErrors testResource
          { testOperationState "error message" "Failed" with SyncResult := some ({
              Resources := [
                { Group := "group", Version := "", Kind := "kind", Namespace := "namespace"
                  Name := "name", Status := "", Message := "error message", HookType := ""
                  HookPhase := "Failed", SyncPhase := "Sync" } ]
              Revision := "123"
              Source := "" }) } :=
  ⟨parse_resource_sync_result_errors.1 testResource
      (testOperationState "error message, with comma" "Failed") _ _ rfl rfl rfl,
   parse_resource_sync_result_errors.2.1 testResource
      (testOperationState "error message" "Succeeded") _ _ rfl rfl rfl,
   parse_resource_sync_result_errors.2.2 testResource
      (testOperationState "error message" "Failed") _ rfl⟩

theorem getResourceActualState_nonapp (env : Env) (w : World) (rs : ResourceStatus)
    (parentApplication : Application) (childApplication : Option Application)
    (h : env.IsApp rs = false) :
    getResourceActualState env w rs parentApplication childApplication
      = ((getResourceActualState.viaGetResource env w rs parentApplication).1,
         w.call (.GetResource (getResourceActualState.request rs parentApplication)),
         childApplication) := by
  rw [← viaGetResource_world env w rs parentApplication]
  simp [getResourceActualState, h]

theorem viaGetResource_notFound (env : Env) (w : World) (rs : ResourceStatus)
    (parentApplication : Application) (err : String)
    (hget : env.GetResource (getResourceActualState.request rs parentApplication) = .error err)
    (hnf : stringsContains err "not found" = true) :
    (getResourceActualState.viaGetResource env w rs parentApplication).1
      = .ok (some { Manifest := some "" }) := by
  simp [getResourceActualState.viaGetResource, hget, hnf]

theorem viaGetResource_deadline (env : Env) (w : World) (rs : ResourceStatus)
    (parentApplication : Application) (err : String)
    (hget : env.GetResource (getResourceActualState.request rs parentApplication) = .error err)
    (hnf : stringsContains err "not found" = false)
    (hdl : stringsContains err "context deadline exceeded" = true) :
    (getResourceActualState.viaGetResource env w rs parentApplication).1
      = .error ("failed to get actual state: " ++ err) := by
  simp [getResourceActualState.viaGetResource, hget, hnf, hdl]

theorem viaGetResource_other (env : Env) (w : World) (rs : ResourceStatus)
    (parentApplication : Application) (err : String)
    (hget : env.GetResource (getResourceActualState.request rs parentApplication) = .error err)
    (hnf : stringsContains err "not found" = false)
    (hdl : stringsContains err "context deadline exceeded" = false) :
    (getResourceActualState.viaGetResource env w rs parentApplication).1 = .ok none := by
  simp [getResourceActualState.viaGetResource, hget, hnf, hdl]

theorem processResource_nonapp_error (env : Env) (w : World) (rs : ResourceStatus)
    (startedAt : String) (ds : Option ManifestResponse) (manifestGenErr : Bool)
    (originalApplication : Option Application) (av : Option ApplicationVersions)
    (parent : ReportedEntityParentApp) (atm : ArgoTrackingMetadata) (e : String)
    (h : env.IsApp rs = false)
    (hact : (getResourceActualState.viaGetResource env w rs parent.app).1 = .error e) :
    (processResource env w rs startedAt ds manifestGenErr originalApplication av parent atm).err
        = some e
      ∧ (processResource env w rs startedAt ds manifestGenErr originalApplication av parent
          atm).world = w.call (.GetResource (getResourceActualState.request rs parent.app)) := by
  simp [processResource, getResourceActualState_nonapp _ _ _ _ _ h, hact]

theorem processResource_nonapp_skip (env : Env) (w : World) (rs : ResourceStatus)
    (startedAt : String) (ds : Option ManifestResponse) (manifestGenErr : Bool)
    (originalApplication : Option Application) (av : Option ApplicationVersions)
    (parent : ReportedEntityParentApp) (atm : ArgoTrackingMetadata)
    (h : env.IsApp rs = false)
    (hact : (getResourceActualState.viaGetResource env w rs parent.app).1 = .ok none) :
    (processResource env w rs startedAt ds manifestGenErr originalApplication av parent atm).err
        = none
      ∧ (processResource env w rs startedAt ds manifestGenErr originalApplication av parent
          atm).world = w.call (.GetResource (getResourceActualState.request rs parent.app)) := by
  simp [processResource, getResourceActualState_nonapp _ _ _ _ _ h, hact]

theorem processResource_nonapp_send (env : Env) (w : World) (rs : ResourceStatus)
    (startedAt : String) (ds : Option ManifestResponse) (manifestGenErr : Bool)
    (originalApplication : Option Application) (av : Option ApplicationVersions)
    (parent : ReportedEntityParentApp) (atm : ArgoTrackingMetadata)
    (actualState : ApplicationResourceResponse) (ev : EventPayload)
    (h : env.IsApp rs = false)
    (hact : (getResourceActualState.viaGetResource env w rs parent.app).1
      = .ok (some actualState))
    (hp : processResource.payload env startedAt rs actualState
      (getResourceDesiredState env.UnmarshalToUnstructured rs ds).1 manifestGenErr
      originalApplication av parent atm = .ok ev) :
    (processResource env w rs startedAt ds manifestGenErr originalApplication av parent
        atm).world.calls
      = w.calls ++ [Call.GetResource (getResourceActualState.request rs parent.app),
          Call.SendEvent parent.app.ObjectMeta.Name ev] := by
  have hname : processResource.appName env rs actualState parent = parent.app.ObjectMeta.Name := by
    simp [processResource.appName, h]
  simp only [processResource, getResourceActualState_nonapp _ _ _ _ _ h, hact, hp, hname]
  split
  · split <;> simp [World.call]
  · simp [World.call]

/-- C15: for a resource that is not an application, a `GetResource` error whose
message contains "not found" makes `getResourceActualState` return no error and
an actual state with the empty manifest, and `processResource` goes on: when the
payload is built, the event is handed to `SendEvent` under the name of the
parent application.  An error that contains neither "not found" nor "context
deadline exceeded" makes `getResourceActualState` return `(nil, nil)` and
`processResource` return nil with `GetResource` as its only call and the cache
as it was. -/
theorem silent_skip_on_not_found :
    (∀ (env : Env) (w : World) (rs : ResourceStatus) (parentApplication : Application)
        (childApplication : Option Application) (err : String),
      env.IsApp rs = false →
      env.GetResource (getResourceActualState.request rs parentApplication) = .error err →
      stringsContains err "not found" = true →
      getResourceActualState env w rs parentApplication childApplication
        = (.ok (some { Manifest := some "" }),
           w.call (.GetResource (getResourceActualState.request rs parentApplication)),
           childApplication))
    ∧ (∀ (env : Env) (w : World) (rs : ResourceStatus) (startedAt : String)
        (ds : Option ManifestResponse) (manifestGenErr : Bool)
        (originalApplication : Option Application) (av : Option ApplicationVersions)
        (parent : ReportedEntityParentApp) (atm : ArgoTrackingMetadata) (err : String)
        (ev : EventPayload),
      env.IsApp rs = false →
      env.GetResource (getResourceActualState.request rs parent.app) = .error err →
      stringsContains err "not found" = true →
      processResource.payload env startedAt rs { Manifest := some "" }
        (getResourceDesiredState env.UnmarshalToUnstructured rs ds).1 manifestGenErr
        originalApplication av parent atm = .ok ev →
      (processResource env w rs startedAt ds manifestGenErr originalApplication av parent
          atm).world.calls
        = w.calls ++ [Call.GetResource (getResourceActualState.request rs parent.app),
            Call.SendEvent parent.app.ObjectMeta.Name ev])
    ∧ (∀ (env : Env) (w : World) (rs : ResourceStatus) (startedAt : String)
        (ds : Option ManifestResponse) (manifestGenErr : Bool)
        (originalApplication : Option Application) (av : Option ApplicationVersions)
        (parent : ReportedEntityParentApp) (atm : ArgoTrackingMetadata) (err : String),
      env.IsApp rs = false →
      env.GetResource (getResourceActualState.request rs parent.app) = .error err →
      stringsContains err "not found" = false →
      stringsContains err "context deadline exceeded" = false →
      getResourceActualState env w rs parent.app originalApplication
          = (.ok none, w.call (.GetResource (getResourceActualState.request rs parent.app)),
             originalApplication)
        ∧ (processResource env w rs startedAt ds manifestGenErr originalApplication av parent
            atm).err = none
        ∧ (processResource env w rs startedAt ds manifestGenErr originalApplication av parent
            atm).world
          = w.call (.GetResource (getResourceActualState.request rs parent.app))) := by
  refine ⟨?_, ?_, ?_⟩
  · intro env w rs parentApplication childApplication err h hget hnf
    rw [getResourceActualState_nonapp _ _ _ _ _ h,
      viaGetResource_notFound env w rs parentApplication err hget hnf]
  · intro env w rs startedAt ds manifestGenErr originalApplication av parent atm err ev h hget
      hnf hp
    exact processResource_nonapp_send env w rs startedAt ds manifestGenErr originalApplication
      av parent atm _ ev h (viaGetResource_notFound env w rs parent.app err hget hnf) hp
  · intro env w rs startedAt ds manifestGenErr originalApplication av parent atm err h hget
      hnf hdl
    have hact := viaGetResource_other env w rs parent.app err hget hnf hdl
    refine ⟨?_, processResource_nonapp_skip env w rs startedAt ds manifestGenErr
      originalApplication av parent atm h hact⟩
    rw [getResourceActualState_nonapp _ _ _ _ _ h, hact]

/-- Witness of C15: the Secret `prod/db` is not found in the cluster and its
event is still sent; with a refused connection it is skipped. -/
theorem silent_skip_on_not_found_witness :
    getResourceActualState (failingGetResourceEnv "db" "secret db not found") initialWorld
        secretResource syncedApp none
      = (.ok (some { Manifest := some "" }),
         initialWorld.call
          (.GetResource (getResourceActualState.request secretResource syncedApp)), none)
    ∧ (processResource (failingGetResourceEnv "db" "secret db not found") initialWorld
        secretResource "t0" (some exampleManifests) false none none
        { app := syncedApp, appTree := none, revisionsMetadata := none }
        exampleTracking).world.calls
      = initialWorld.calls
        ++ [Call.GetResource (getResourceActualState.request secretResource syncedApp),
            Call.SendEvent "guestbook" { Body := "db" }]
    ∧ (processResource (failingGetResourceEnv "db" "connection refused") initialWorld
        secretResource "t0" (some exampleManifests) false none none
        { app := syncedApp, appTree := none, revisionsMetadata := none }
        exampleTracking).world
      = initialWorld.call
          (.GetResource (getResourceActualState.request secretResource syncedApp)) :=
  ⟨silent_skip_on_not_found.1 (failingGetResourceEnv "db" "secret db not found")
      initialWorld secretResource syncedApp none "secret db not found" rfl rfl
      (by decide),
   silent_skip_on_not_found.2.1 (failingGetResourceEnv "db" "secret db not found")
      initialWorld secretResource "t0" (some exampleManifests) false none none
      { app := syncedApp, appTree := none, revisionsMetadata := none } exampleTracking
      "secret db not found" { Body := "db" } rfl rfl (by decide) rfl,
   (silent_skip_on_not_found.2.2 (failingGetResourceEnv "db" "connection refused")
      initialWorld secretResource "t0" (some exampleManifests) false none none
      { app := syncedApp, appTree := none, revisionsMetadata := none } exampleTracking
      "connection refused" rfl rfl (by decide) (by decide)).2.2⟩

/-- C14 (counterexample): `GetResource` fails for the Secret `prod/db` with a
message that contains both "not found" and "context deadline exceeded";
`getResourceActualState` returns the empty manifest and no error, and
`processResource` returns nil after sending the event. -/
theorem deadline_with_not_found_is_not_fatal :
    (failingGetResourceEnv "db" "secret db not found: context deadline exceeded").GetResource
        (getResourceActualState.request secretResource syncedApp)
      = .error "secret db not found: context deadline exceeded"
    ∧ stringsContains "secret db not found: context deadline exceeded"
        "context deadline exceeded" = true
    ∧ (failingGetResourceEnv "db" "secret db not found: context deadline exceeded").IsApp
        secretResource = false
    ∧ (getResourceActualState
        (failingGetResourceEnv "db" "secret db not found: context deadline exceeded")
        initialWorld secretResource syncedApp none).1 = .ok (some { Manifest := some "" })
    ∧ (processResource
        (failingGetResourceEnv "db" "secret db not found: context deadline exceeded")
        initialWorld secretResource "t0" (some exampleManifests) false none none
        { app := syncedApp, appTree := none, revisionsMetadata := none } exampleTracking).err
      = none := by
  refine ⟨rfl, by decide, by decide, rfl, by decide⟩

/-- C14 (amended): for a resource that is not an application, a `GetResource`
error whose message contains "context deadline exceeded" and does not contain
"not found" makes `getResourceActualState` return an error, and `processResource`
returns that error with `GetResource` as its only call. -/
theorem deadline_exceeded_is_fatal (env : Env) (w : World) (rs : ResourceStatus)
    (parentApplication : Application) (childApplication : Option Application) (err : String)
    (hisapp : env.IsApp rs = false)
    (hget : env.GetResource (getResourceActualState.request rs parentApplication) = .error err)
    (hdl : stringsContains err "context deadline exceeded" = true)
    (hnf : stringsContains err "not found" = false) :
    (getResourceActualState env w rs parentApplication childApplication).1
        = .error ("failed to get actual state: " ++ err)
    ∧ ∀ (startedAt : String) (ds : Option ManifestResponse) (manifestGenErr : Bool)
        (av : Option ApplicationVersions) (appTree : Option ApplicationTree)
        (revisionsMetadata : Option AppSyncRevisionsMetadata) (atm : ArgoTrackingMetadata),
      (processResource env w rs startedAt ds manifestGenErr childApplication av
          { app := parentApplication, appTree := appTree
            revisionsMetadata := revisionsMetadata } atm).err
        = some ("failed to get actual state: " ++ err)
      ∧ (processResource env w rs startedAt ds manifestGenErr childApplication av
          { app := parentApplication, appTree := appTree
            revisionsMetadata := revisionsMetadata } atm).world
        = w.call (.GetResource (getResourceActualState.request rs parentApplication)) := by
  have hact := viaGetResource_deadline env w rs parentApplication err hget hnf hdl
  refine ⟨?_, ?_⟩
  · rw [getResourceActualState_nonapp _ _ _ _ _ hisapp, hact]
  · intro startedAt ds manifestGenErr av appTree revisionsMetadata atm
    exact processResource_nonapp_error env w rs startedAt ds manifestGenErr childApplication av
      { app := parentApplication, appTree := appTree, revisionsMetadata := revisionsMetadata }
      atm _ hisapp hact

/-- Witness of C14: `GetResource` runs into the deadline for the Secret
`prod/db`. -/
theorem deadline_exceeded_is_fatal_witness :
    (getResourceActualState
        (failingGetResourceEnv "db" "rpc error: context deadline exceeded")
        initialWorld secretResource syncedApp none).1
      = .error "failed to get actual state: rpc error: context deadline exceeded" :=
  (deadline_exceeded_is_fatal
    (failingGetResourceEnv "db" "rpc error: context deadline exceeded")
    initialWorld secretResource syncedApp none "rpc error: context deadline exceeded"
    rfl rfl (by decide) (by decide)).1

theorem getDesiredManifests_fst (env : Env) (w w' : World) (a : Application)
    (revision : Option String) :
    (getDesiredManifests env w a revision).1 = (getDesiredManifests env w' a revision).1 := by
  unfold getDesiredManifests
  simp only []
  split <;> rfl

theorem resolveApplicationVersions_fst (env : Env) (w w' : World) (a : Application) :
    (resolveApplicationVersions env w a).1 = (resolveApplicationVersions env w' a).1 := by
  unfold resolveApplicationVersions
  split
  · rfl
  · simp only []
    rw [getDesiredManifests_fst env w w']

theorem worldAfterFetch_cache (env : Env) (w : World) (a : Application) :
    (worldAfterFetch env w a).cache = w.cache := by
  unfold worldAfterFetch
  rw [resolveApplicationVersions_cache, getDesiredManifests_cache]
  rfl

theorem worldAfterFetch_calls (env : Env) (w : World) (a : Application) :
    (worldAfterFetch env w a).calls
      = w.calls
        ++ [Call.ResourceTree a.ObjectMeta.Name a.Spec.GetProject a.ObjectMeta.Namespace,
            Call.GetManifests a.ObjectMeta.Name a.ObjectMeta.Namespace none a.Spec.GetProject]
        ++ (match env.GetOperationStateRevision a with
            | none => []
            | some revision =>
              [Call.GetManifests a.ObjectMeta.Name a.ObjectMeta.Namespace (some revision)
                a.Spec.GetProject]) := by
  unfold worldAfterFetch resolveApplicationVersions getDesiredManifests
  cases env.GetOperationStateRevision a with
  | none =>
    simp only []
    split <;> simp [World.call]
  | some revision =>
    simp only []
    split <;> split <;> simp [World.call]

theorem StreamApplicationEvents_root (env : Env) (w : World) (a : Application)
    (startedAt : String) (ignoreResourceCache : Bool) (atm : ArgoTrackingMetadata)
    (htree : ∀ e, env.ResourceTree a.ObjectMeta.Name a.Spec.GetProject a.ObjectMeta.Namespace
        = .error e → stringsContains e "context deadline exceeded" = false)
    (hroot : env.IsChildApp
      (env.GetParentAppIdentity a atm.AppInstanceLabelKey atm.TrackingMethod) = false) :
    StreamApplicationEvents env w a startedAt ignoreResourceCache atm
      = match env.getApplicationEventPayload a (fetchedTree env a) startedAt
          (resolveApplicationVersions env w a).1 atm with
        | .error err =>
          (some ("failed to get application event: " ++ err), worldAfterFetch env w a, a)
        | .ok none => (none, worldAfterFetch env w a, a)
        | .ok (some appEvent) =>
          match env.SendEvent a.ObjectMeta.Name appEvent with
          | some err =>
            (some ("failed to send event for root application " ++ a.ObjectMeta.Namespace ++ "/"
              ++ a.ObjectMeta.Name ++ ": " ++ err),
             (worldAfterFetch env w a).call (.SendEvent a.ObjectMeta.Name appEvent), a)
          | none =>
            StreamApplicationEvents.walk env
              ((worldAfterFetch env w a).call (.SendEvent a.ObjectMeta.Name appEvent)) a
              startedAt ignoreResourceCache atm (fetchedTree env a)
              (getDesiredManifests env w a none).1.1 (getDesiredManifests env w a none).1.2 := by
  have haft : ∀ appTree : Option ApplicationTree,
      StreamApplicationEvents.afterTree env
          (w.call (.ResourceTree a.ObjectMeta.Name a.Spec.GetProject a.ObjectMeta.Namespace))
          a startedAt ignoreResourceCache atm appTree
        = match env.getApplicationEventPayload a appTree startedAt
            (resolveApplicationVersions env w a).1 atm with
          | .error err =>
            (some ("failed to get application event: " ++ err), worldAfterFetch env w a, a)
          | .ok none => (none, worldAfterFetch env w a, a)
          | .ok (some appEvent) =>
            match env.SendEvent a.ObjectMeta.Name appEvent with
            | some err =>
              (some ("failed to send event for root application " ++ a.ObjectMeta.Namespace
                ++ "/" ++ a.ObjectMeta.Name ++ ": " ++ err),
               (worldAfterFetch env w a).call (.SendEvent a.ObjectMeta.Name appEvent), a)
            | none =>
              StreamApplicationEvents.walk env
                ((worldAfterFetch env w a).call (.SendEvent a.ObjectMeta.Name appEvent)) a
                startedAt ignoreResourceCache atm appTree
                (getDesiredManifests env w a none).1.1
                (getDesiredManifests env w a none).1.2 := by
    intro appTree
    unfold StreamApplicationEvents.afterTree
    simp only [hroot, Bool.false_eq_true, if_false]
    rw [resolveApplicationVersions_fst env _ w a,
      getDesiredManifests_fst env _ w a none]
    rfl
  unfold StreamApplicationEvents
  simp only []
  cases htr : env.ResourceTree a.ObjectMeta.Name a.Spec.GetProject a.ObjectMeta.Namespace with
  | error e =>
    simp only [htree e htr, Bool.false_eq_true, if_false]
    rw [haft none]
    simp only [fetchedTree, htr]
  | ok appTree =>
    simp only []
    rw [haft (some appTree)]
    simp only [fetchedTree, htr]

theorem worldAfterFetch_no_send (env : Env) (w : World) (a : Application) (name : String)
    (ev : EventPayload) (h : Call.SendEvent name ev ∈ (worldAfterFetch env w a).calls) :
    Call.SendEvent name ev ∈ w.calls := by
  rw [worldAfterFetch_calls] at h
  cases hrev : env.GetOperationStateRevision a with
  | none => simpa [hrev] using h
  | some revision => simpa [hrev] using h

/-- C12: for an application without parent identity whose composed payload is
nil (the record has no operation state), `StreamApplicationEvents` makes no
`SendEvent` call and leaves the cache as it was; it returns nil, after the
`ResourceTree` call and the `GetManifests` calls only, whenever the payload is
composed at all, that is unless `ResourceTree` failed on the deadline. -/
theorem root_without_operation_state (env : Env) (w : World) (a : Application)
    (startedAt : String) (ignoreResourceCache : Bool) (atm : ArgoTrackingMetadata)
    (hroot : env.IsChildApp
      (env.GetParentAppIdentity a atm.AppInstanceLabelKey atm.TrackingMethod) = false)
    (hnil : env.getApplicationEventPayload a (fetchedTree env a) startedAt
      (resolveApplicationVersions env w a).1 atm = .ok none) :
    (∀ name ev,
      Call.SendEvent name ev
        ∈ (StreamApplicationEvents env w a startedAt ignoreResourceCache atm).2.1.calls →
      Call.SendEvent name ev ∈ w.calls)
    ∧ (StreamApplicationEvents env w a startedAt ignoreResourceCache atm).2.1.cache = w.cache
    ∧ ((∀ e, env.ResourceTree a.ObjectMeta.Name a.Spec.GetProject a.ObjectMeta.Namespace
          = .error e → stringsContains e "context deadline exceeded" = false) →
      StreamApplicationEvents env w a startedAt ignoreResourceCache atm
        = (none, worldAfterFetch env w a, a)) := by
  have hreach : (∀ e, env.ResourceTree a.ObjectMeta.Name a.Spec.GetProject
        a.ObjectMeta.Namespace = .error e →
        stringsContains e "context deadline exceeded" = false) →
      StreamApplicationEvents env w a startedAt ignoreResourceCache atm
        = (none, worldAfterFetch env w a, a) := by
    intro htree
    rw [StreamApplicationEvents_root env w a startedAt ignoreResourceCache atm htree hroot, hnil]
  by_cases htree : ∀ e, env.ResourceTree a.ObjectMeta.Name a.Spec.GetProject
      a.ObjectMeta.Namespace = .error e → stringsContains e "context deadline exceeded" = false
  · rw [hreach htree]
    exact ⟨fun name ev h => worldAfterFetch_no_send env w a name ev h,
      worldAfterFetch_cache env w a, fun _ => rfl⟩
  · refine ⟨?_, ?_, fun h => absurd h htree⟩
    · push_neg at htree
      obtain ⟨e, he, hdl⟩ := htree
      simp only [Bool.not_eq_false] at hdl
      intro name ev h
      simp only [StreamApplicationEvents, he, hdl, if_true, World.call] at h
      simpa using h
    · push_neg at htree
      obtain ⟨e, he, hdl⟩ := htree
      simp only [Bool.not_eq_false] at hdl
      simp only [StreamApplicationEvents, he, hdl, if_true, World.call]

/-- Witness of C12: an application that manages a Secret and has no operation
state; the reporter fetches the tree and the manifests and returns nil. -/
theorem root_without_operation_state_witness :
    (StreamApplicationEvents exampleEnv initialWorld pendingApp "t0" false
        exampleTracking).1 = none
    ∧ (StreamApplicationEvents exampleEnv initialWorld pendingApp "t0" false
        exampleTracking).2.1.calls
      = [Call.ResourceTree "guestbook" "default" "argocd",
         Call.GetManifests "guestbook" "argocd" none "default"] := by
  have h := (root_without_operation_state exampleEnv initialWorld pendingApp "t0" false
    exampleTracking rfl rfl).2.2 (fun e he => by simp [exampleEnv] at he)
  rw [h]
  exact ⟨rfl, by decide⟩

theorem resources_step_app (env : Env) (a : Application) (startedAt : String)
    (ignoreResourceCache : Bool) (atm : ArgoTrackingMetadata) (appTree : Option ApplicationTree)
    (revisionsMetadata : Option AppSyncRevisionsMetadata) (manifestGenErr : Bool)
    (rs : ResourceStatus) (rest : List ResourceStatus) (w : World)
    (ds : Option ManifestResponse) (h : env.IsApp rs = true) :
    StreamApplicationEvents.resources env a startedAt ignoreResourceCache atm appTree
        revisionsMetadata manifestGenErr (rs :: rest) w ds
      = StreamApplicationEvents.resources env a startedAt ignoreResourceCache atm appTree
          revisionsMetadata manifestGenErr rest w ds := by
  rw [StreamApplicationEvents.resources]
  simp [h]

theorem resources_step_skip (env : Env) (a : Application) (startedAt : String)
    (atm : ArgoTrackingMetadata) (appTree : Option ApplicationTree)
    (revisionsMetadata : Option AppSyncRevisionsMetadata) (manifestGenErr : Bool)
    (rs : ResourceStatus) (rest : List ResourceStatus) (w : World)
    (ds : Option ManifestResponse) (h : env.IsApp rs = false)
    (hcached : shouldSendResourceEvent env w.cache a (env.SetHealthStatusIfMissing rs) = false) :
    StreamApplicationEvents.resources env a startedAt false atm appTree
        revisionsMetadata manifestGenErr (rs :: rest) w ds
      = StreamApplicationEvents.resources env a startedAt false atm appTree
          revisionsMetadata manifestGenErr rest w ds := by
  rw [StreamApplicationEvents.resources]
  simp [h, hcached]

theorem resources_step_process (env : Env) (a : Application) (startedAt : String)
    (ignoreResourceCache : Bool) (atm : ArgoTrackingMetadata) (appTree : Option ApplicationTree)
    (revisionsMetadata : Option AppSyncRevisionsMetadata) (manifestGenErr : Bool)
    (rs : ResourceStatus) (rest : List ResourceStatus) (w : World)
    (ds : Option ManifestResponse) (h : env.IsApp rs = false)
    (hproc : ignoreResourceCache = true
      ∨ shouldSendResourceEvent env w.cache a (env.SetHealthStatusIfMissing rs) = true) :
    StreamApplicationEvents.resources env a startedAt ignoreResourceCache atm appTree
        revisionsMetadata manifestGenErr (rs :: rest) w ds
      = match (processResource env w (env.SetHealthStatusIfMissing rs) startedAt ds
            manifestGenErr none none
            { app := a, appTree := appTree, revisionsMetadata := revisionsMetadata } atm).err with
        | some err =>
          (some err, (processResource env w (env.SetHealthStatusIfMissing rs) startedAt ds
            manifestGenErr none none
            { app := a, appTree := appTree, revisionsMetadata := revisionsMetadata } atm).world)
        | none =>
          StreamApplicationEvents.resources env a startedAt ignoreResourceCache atm appTree
            revisionsMetadata manifestGenErr rest
            (processResource env w (env.SetHealthStatusIfMissing rs) startedAt ds
              manifestGenErr none none
              { app := a, appTree := appTree, revisionsMetadata := revisionsMetadata }
              atm).world
            (processResource env w (env.SetHealthStatusIfMissing rs) startedAt ds
              manifestGenErr none none
              { app := a, appTree := appTree, revisionsMetadata := revisionsMetadata }
              atm).desiredManifests := by
  rw [StreamApplicationEvents.resources]
  have hcond : (!ignoreResourceCache
      && !shouldSendResourceEvent env w.cache a (env.SetHealthStatusIfMissing rs)) = false := by
    rcases hproc with h1 | h1 <;> simp [h1]
  simp only [h, Bool.false_eq_true, if_false, hcond]

theorem resources_append (env : Env) (a : Application) (startedAt : String)
    (ignoreResourceCache : Bool) (atm : ArgoTrackingMetadata) (appTree : Option ApplicationTree)
    (revisionsMetadata : Option AppSyncRevisionsMetadata) (manifestGenErr : Bool)
    (rest : List ResourceStatus) :
    ∀ (pre : List ResourceStatus) (w : World) (ds : Option ManifestResponse) (w1 : World),
      StreamApplicationEvents.resources env a startedAt ignoreResourceCache atm appTree
        revisionsMetadata manifestGenErr pre w ds = (none, w1) →
      ∃ ds1, StreamApplicationEvents.resources env a startedAt ignoreResourceCache atm appTree
          revisionsMetadata manifestGenErr (pre ++ rest) w ds
        = StreamApplicationEvents.resources env a startedAt ignoreResourceCache atm appTree
            revisionsMetadata manifestGenErr rest w1 ds1 := by
  intro pre
  induction pre with
  | nil =>
    intro w ds w1 h
    simp only [StreamApplicationEvents.resources, Prod.mk.injEq, true_and] at h
    subst h
    exact ⟨ds, rfl⟩
  | cons rs pre ih =>
    intro w ds w1 h
    rw [List.cons_append]
    by_cases happ : env.IsApp rs = true
    · rw [resources_step_app _ _ _ _ _ _ _ _ _ _ _ _ happ] at h ⊢
      exact ih w ds w1 h
    · simp only [Bool.not_eq_true] at happ
      by_cases hproc : ignoreResourceCache = true
          ∨ shouldSendResourceEvent env w.cache a (env.SetHealthStatusIfMissing rs) = true
      · rw [resources_step_process _ _ _ _ _ _ _ _ _ _ _ _ happ hproc] at h ⊢
        cases herr : (processResource env w (env.SetHealthStatusIfMissing rs) startedAt ds
            manifestGenErr none none
            { app := a, appTree := appTree, revisionsMetadata := revisionsMetadata }
            atm).err with
        | some e => simp [herr] at h
        | none =>
          simp only [herr] at h ⊢
          exact ih _ _ w1 h
      · simp only [not_or, Bool.not_eq_true] at hproc
        obtain ⟨hi, hcached⟩ := hproc
        subst hi
        rw [resources_step_skip _ _ _ _ _ _ _ _ _ _ _ happ hcached] at h ⊢
        exact ih w ds w1 h

/-- C13 (counterexample): a root application with three resources; `GetResource`
for the second one fails with a message that contains "context deadline
exceeded" and also "not found".  `StreamApplicationEvents` returns nil, and the
third resource is fetched and sent. -/
theorem deadline_with_not_found_does_not_stop_walk :
    stringsContains "deployment web not found: context deadline exceeded"
        "context deadline exceeded" = true
    ∧ (StreamApplicationEvents
        (failingGetResourceEnv "web" "deployment web not found: context deadline exceeded")
        initialWorld threeResourceApp "t0" false exampleTracking).1 = none
    ∧ (StreamApplicationEvents
        (failingGetResourceEnv "web" "deployment web not found: context deadline exceeded")
        initialWorld threeResourceApp "t0" false exampleTracking).2.1.calls
      = [Call.ResourceTree "guestbook" "default" "argocd",
         Call.GetManifests "guestbook" "argocd" none "default",
         Call.SendEvent "guestbook" { Body := "guestbook" },
         Call.GetResource (getResourceActualState.request secretResource threeResourceApp),
         Call.SendEvent "guestbook" { Body := "db" },
         Call.GetResource (getResourceActualState.request deploymentResource threeResourceApp),
         Call.SendEvent "guestbook" { Body := "web" },
         Call.GetResource (getResourceActualState.request configMapResource threeResourceApp),
         Call.SendEvent "guestbook" { Body := "cfg" }] := by
  refine ⟨by decide, by decide, by decide⟩

/-- C13 (amended): for a root application whose event was sent and whose
resources are `pre ++ rs :: post`, if the walk over `pre` ended without error in
world `w1`, `rs` is not an application and is processed, and `GetResource` for
it fails with a message that contains "context deadline exceeded" and does not
contain "not found", then `StreamApplicationEvents` returns a non-nil error and
leaves the world `w1` with that one `GetResource` call added: what was delivered
and cached before stays, and no call is made for a resource of `post`. -/
theorem fatal_error_stops_walk (env : Env) (w w1 : World) (a : Application)
    (startedAt : String) (ignoreResourceCache : Bool) (atm : ArgoTrackingMetadata)
    (appEvent : EventPayload) (pre post : List ResourceStatus) (rs : ResourceStatus)
    (err : String)
    (htree : ∀ e, env.ResourceTree a.ObjectMeta.Name a.Spec.GetProject a.ObjectMeta.Namespace
        = .error e → stringsContains e "context deadline exceeded" = false)
    (hroot : env.IsChildApp
      (env.GetParentAppIdentity a atm.AppInstanceLabelKey atm.TrackingMethod) = false)
    (hpayload : env.getApplicationEventPayload a (fetchedTree env a) startedAt
      (resolveApplicationVersions env w a).1 atm = .ok (some appEvent))
    (hsent : env.SendEvent a.ObjectMeta.Name appEvent = none)
    (hres : a.Status.Resources = pre ++ rs :: post)
    (hpre : StreamApplicationEvents.resources env a startedAt ignoreResourceCache atm
      (fetchedTree env a) (valueOrNil (env.getApplicationRevisionsMetadata a))
      (getDesiredManifests env w a none).1.2 pre
      ((worldAfterFetch env w a).call (.SendEvent a.ObjectMeta.Name appEvent))
      (some (getDesiredManifests env w a none).1.1) = (none, w1))
    (hisapp : env.IsApp rs = false)
    (hisapp' : env.IsApp (env.SetHealthStatusIfMissing rs) = false)
    (hproc : ignoreResourceCache = true
      ∨ shouldSendResourceEvent env w1.cache a (env.SetHealthStatusIfMissing rs) = true)
    (hget : env.GetResource
      (getResourceActualState.request (env.SetHealthStatusIfMissing rs) a) = .error err)
    (hdl : stringsContains err "context deadline exceeded" = true)
    (hnf : stringsContains err "not found" = false) :
    StreamApplicationEvents env w a startedAt ignoreResourceCache atm
      = (some ("failed to get actual state: " ++ err),
         w1.call (.GetResource
          (getResourceActualState.request (env.SetHealthStatusIfMissing rs) a)),
         a) := by
  rw [StreamApplicationEvents_root env w a startedAt ignoreResourceCache atm htree hroot,
    hpayload]
  simp only [hsent]
  unfold StreamApplicationEvents.walk
  simp only [hres]
  obtain ⟨ds1, happ⟩ := resources_append env a startedAt ignoreResourceCache atm
    (fetchedTree env a) (valueOrNil (env.getApplicationRevisionsMetadata a))
    (getDesiredManifests env w a none).1.2 (rs :: post) pre _ _ w1 hpre
  rw [happ, resources_step_process _ _ _ _ _ _ _ _ _ _ _ _ hisapp hproc]
  have hp := processResource_nonapp_error env w1 (env.SetHealthStatusIfMissing rs) startedAt ds1
    (getDesiredManifests env w a none).1.2 none none
    { app := a, appTree := fetchedTree env a
      revisionsMetadata := valueOrNil (env.getApplicationRevisionsMetadata a) } atm
    ("failed to get actual state: " ++ err) hisapp'
    (viaGetResource_deadline env w1 (env.SetHealthStatusIfMissing rs) a err hget hnf hdl)
  simp only [hp.1, hp.2]

/-- Witness of C13: three resources, `GetResource` for the second one runs into
the deadline: the first resource was sent, the third one is not attempted. -/
theorem fatal_error_stops_walk_witness :
    (StreamApplicationEvents (failingGetResourceEnv "web" "context deadline exceeded")
        initialWorld threeResourceApp "t0" false exampleTracking).1
      = some "failed to get actual state: context deadline exceeded"
    ∧ (StreamApplicationEvents (failingGetResourceEnv "web" "context deadline exceeded")
        initialWorld threeResourceApp "t0" false exampleTracking).2.1.calls
      = [Call.ResourceTree "guestbook" "default" "argocd",
         Call.GetManifests "guestbook" "argocd" none "default",
         Call.SendEvent "guestbook" { Body := "guestbook" },
         Call.GetResource (getResourceActualState.request secretResource threeResourceApp),
         Call.SendEvent "guestbook" { Body := "db" },
         Call.GetResource
          (getResourceActualState.request deploymentResource threeResourceApp)] := by
  have h := fatal_error_stops_walk (failingGetResourceEnv "web" "context deadline exceeded")
    initialWorld
    (StreamApplicationEvents.resources (failingGetResourceEnv "web" "context deadline exceeded")
      threeResourceApp "t0" false exampleTracking
      (fetchedTree (failingGetResourceEnv "web" "context deadline exceeded") threeResourceApp)
      none false [secretResource]
      ((worldAfterFetch (failingGetResourceEnv "web" "context deadline exceeded") initialWorld
        threeResourceApp).call (.SendEvent "guestbook" { Body := "guestbook" }))
      (some exampleManifests)).2
    threeResourceApp "t0" false exampleTracking { Body := "guestbook" }
    [secretResource] [configMapResource] deploymentResource "context deadline exceeded"
    (fun e he => by simp [failingGetResourceEnv, exampleEnv] at he)
    rfl rfl rfl rfl (Prod.ext (by decide) rfl) rfl rfl (Or.inr (by decide)) rfl
    (by decide) (by decide)
  rw [h]
  exact ⟨rfl, by decide⟩

theorem processResource_nonapp_calls (env : Env) (w : World) (rs : ResourceStatus)
    (startedAt : String) (ds : Option ManifestResponse) (manifestGenErr : Bool)
    (originalApplication : Option Application) (av : Option ApplicationVersions)
    (parent : ReportedEntityParentApp) (atm : ArgoTrackingMetadata)
    (h : env.IsApp rs = false) :
    ∃ tail, (processResource env w rs startedAt ds manifestGenErr originalApplication av parent
        atm).world.calls
      = w.calls ++ Call.GetResource (getResourceActualState.request rs parent.app) :: tail := by
  simp only [processResource, getResourceActualState_nonapp _ _ _ _ _ h]
  cases (getResourceActualState.viaGetResource env w rs parent.app).1 with
  | error e => exact ⟨[], rfl⟩
  | ok r =>
    cases r with
    | none => exact ⟨[], rfl⟩
    | some actualState =>
      simp only []
      split
      · exact ⟨[], rfl⟩
      · rename_i ev _
        split
        · split
          · exact ⟨[Call.SendEvent (processResource.appName env rs actualState parent) ev],
              by simp [World.call]⟩
          · exact ⟨[Call.SendEvent (processResource.appName env rs actualState parent) ev],
              by simp [World.call]⟩
        · exact ⟨[Call.SendEvent (processResource.appName env rs actualState parent) ev],
            by simp [World.call]⟩

theorem resources_calls_extend (env : Env) (a : Application) (startedAt : String)
    (ignoreResourceCache : Bool) (atm : ArgoTrackingMetadata) (appTree : Option ApplicationTree)
    (revisionsMetadata : Option AppSyncRevisionsMetadata) (manifestGenErr : Bool) :
    ∀ (rss : List ResourceStatus) (w : World) (ds : Option ManifestResponse),
      ∃ more, (StreamApplicationEvents.resources env a startedAt ignoreResourceCache atm appTree
          revisionsMetadata manifestGenErr rss w ds).2.calls = w.calls ++ more := by
  intro rss
  induction rss with
  | nil =>
    intro w ds
    exact ⟨[], by simp [StreamApplicationEvents.resources]⟩
  | cons rs rest ih =>
    intro w ds
    by_cases happ : env.IsApp rs = true
    · rw [resources_step_app _ _ _ _ _ _ _ _ _ _ _ _ happ]
      exact ih w ds
    · simp only [Bool.not_eq_true] at happ
      by_cases hproc : ignoreResourceCache = true
          ∨ shouldSendResourceEvent env w.cache a (env.SetHealthStatusIfMissing rs) = true
      · rw [resources_step_process _ _ _ _ _ _ _ _ _ _ _ _ happ hproc]
        obtain ⟨new, hnew, _⟩ := processResource_effect env w (env.SetHealthStatusIfMissing rs)
          startedAt ds manifestGenErr none none
          { app := a, appTree := appTree, revisionsMetadata := revisionsMetadata } atm
        split
        · exact ⟨new, hnew⟩
        · obtain ⟨more, hmore⟩ := ih
            (processResource env w (env.SetHealthStatusIfMissing rs) startedAt ds
              manifestGenErr none none
              { app := a, appTree := appTree, revisionsMetadata := revisionsMetadata }
              atm).world
            (processResource env w (env.SetHealthStatusIfMissing rs) startedAt ds
              manifestGenErr none none
              { app := a, appTree := appTree, revisionsMetadata := revisionsMetadata }
              atm).desiredManifests
          exact ⟨new ++ more, by rw [hmore, hnew, List.append_assoc]⟩
      · simp only [not_or, Bool.not_eq_true] at hproc
        obtain ⟨hi, hcached⟩ := hproc
        subst hi
        rw [resources_step_skip _ _ _ _ _ _ _ _ _ _ _ happ hcached]
        exact ih w ds

theorem sendIfPermitted_calls (env : Env) (w : World) (a : Application)
    (eventType : EventType) (startedAt : String) (ignoreResourceCache : Bool) (key : String)
    (hb : eventType ≠ EventType.Bookmark) (hkey : env.GetAppInstanceLabelKey = .ok key) :
    (sendIfPermitted env w a eventType startedAt ignoreResourceCache).2.calls
      = (StreamApplicationEvents env w a startedAt ignoreResourceCache
          { AppInstanceLabelKey := key, TrackingMethod := env.GetTrackingMethod }).2.1.calls := by
  simp only [sendIfPermitted, hb, if_false, hkey]
  split
  · rfl
  · split <;> rfl

theorem resources_split (env : Env) (a : Application) (startedAt : String)
    (ignoreResourceCache : Bool) (atm : ArgoTrackingMetadata) (appTree : Option ApplicationTree)
    (revisionsMetadata : Option AppSyncRevisionsMetadata) (manifestGenErr : Bool) :
    ∀ (pre : List ResourceStatus) (w : World) (ds : Option ManifestResponse) (w1 : World),
      StreamApplicationEvents.resources env a startedAt ignoreResourceCache atm appTree
        revisionsMetadata manifestGenErr pre w ds = (none, w1) →
      ∃ ds1, ∀ rest, StreamApplicationEvents.resources env a startedAt ignoreResourceCache atm
          appTree revisionsMetadata manifestGenErr (pre ++ rest) w ds
        = StreamApplicationEvents.resources env a startedAt ignoreResourceCache atm appTree
            revisionsMetadata manifestGenErr rest w1 ds1 := by
  intro pre
  induction pre with
  | nil =>
    intro w ds w1 h
    simp only [StreamApplicationEvents.resources, Prod.mk.injEq, true_and] at h
    subst h
    exact ⟨ds, fun rest => rfl⟩
  | cons rs pre ih =>
    intro w ds w1 h
    by_cases happ : env.IsApp rs = true
    · rw [resources_step_app _ _ _ _ _ _ _ _ _ _ _ _ happ] at h
      obtain ⟨ds1, hds1⟩ := ih w ds w1 h
      refine ⟨ds1, fun rest => ?_⟩
      rw [List.cons_append, resources_step_app _ _ _ _ _ _ _ _ _ _ _ _ happ]
      exact hds1 rest
    · simp only [Bool.not_eq_true] at happ
      by_cases hproc : ignoreResourceCache = true
          ∨ shouldSendResourceEvent env w.cache a (env.SetHealthStatusIfMissing rs) = true
      · rw [resources_step_process _ _ _ _ _ _ _ _ _ _ _ _ happ hproc] at h
        cases herr : (processResource env w (env.SetHealthStatusIfMissing rs) startedAt ds
            manifestGenErr none none
            { app := a, appTree := appTree, revisionsMetadata := revisionsMetadata }
            atm).err with
        | some e => simp [herr] at h
        | none =>
          simp only [herr] at h
          obtain ⟨ds1, hds1⟩ := ih _ _ w1 h
          refine ⟨ds1, fun rest => ?_⟩
          rw [List.cons_append, resources_step_process _ _ _ _ _ _ _ _ _ _ _ _ happ hproc]
          simp only [herr]
          exact hds1 rest
      · simp only [not_or, Bool.not_eq_true] at hproc
        obtain ⟨hi, hcached⟩ := hproc
        subst hi
        rw [resources_step_skip _ _ _ _ _ _ _ _ _ _ _ happ hcached] at h
        obtain ⟨ds1, hds1⟩ := ih w ds w1 h
        refine ⟨ds1, fun rest => ?_⟩
        rw [List.cons_append, resources_step_skip _ _ _ _ _ _ _ _ _ _ _ happ hcached]
        exact hds1 rest

theorem resources_skip_app (env : Env) (a : Application) (startedAt : String)
    (ignoreResourceCache : Bool) (atm : ArgoTrackingMetadata) (appTree : Option ApplicationTree)
    (revisionsMetadata : Option AppSyncRevisionsMetadata) (manifestGenErr : Bool)
    (rs : ResourceStatus) (post : List ResourceStatus) (hisapp : env.IsApp rs = true) :
    ∀ (pre : List ResourceStatus) (w : World) (ds : Option ManifestResponse),
      StreamApplicationEvents.resources env a startedAt ignoreResourceCache atm appTree
          revisionsMetadata manifestGenErr (pre ++ rs :: post) w ds
        = StreamApplicationEvents.resources env a startedAt ignoreResourceCache atm appTree
            revisionsMetadata manifestGenErr (pre ++ post) w ds := by
  intro pre
  induction pre with
  | nil =>
    intro w ds
    simp only [List.nil_append]
    exact resources_step_app _ _ _ _ _ _ _ _ _ _ _ _ hisapp
  | cons x pre ih =>
    intro w ds
    simp only [List.cons_append]
    by_cases happ : env.IsApp x = true
    · rw [resources_step_app _ _ _ _ _ _ _ _ _ _ _ _ happ,
        resources_step_app _ _ _ _ _ _ _ _ _ _ _ _ happ]
      exact ih w ds
    · simp only [Bool.not_eq_true] at happ
      by_cases hproc : ignoreResourceCache = true
          ∨ shouldSendResourceEvent env w.cache a (env.SetHealthStatusIfMissing x) = true
      · rw [resources_step_process _ _ _ _ _ _ _ _ _ _ _ _ happ hproc,
          resources_step_process _ _ _ _ _ _ _ _ _ _ _ _ happ hproc]
        split
        · rfl
        · exact ih _ _
      · simp only [not_or, Bool.not_eq_true] at hproc
        obtain ⟨hi, hcached⟩ := hproc
        subst hi
        rw [resources_step_skip _ _ _ _ _ _ _ _ _ _ _ happ hcached,
          resources_step_skip _ _ _ _ _ _ _ _ _ _ _ happ hcached]
        exact ih w ds

theorem resources_all_fetched (env : Env) (a : Application) (startedAt : String)
    (atm : ArgoTrackingMetadata) (appTree : Option ApplicationTree)
    (revisionsMetadata : Option AppSyncRevisionsMetadata) (manifestGenErr : Bool) :
    ∀ (rss : List ResourceStatus) (w : World) (ds : Option ManifestResponse),
      (StreamApplicationEvents.resources env a startedAt true atm appTree revisionsMetadata
        manifestGenErr rss w ds).1 = none →
      ∀ rs ∈ rss, env.IsApp rs = false → env.IsApp (env.SetHealthStatusIfMissing rs) = false →
        Call.GetResource (getResourceActualState.request (env.SetHealthStatusIfMissing rs) a)
          ∈ (StreamApplicationEvents.resources env a startedAt true atm appTree
              revisionsMetadata manifestGenErr rss w ds).2.calls := by
  intro rss
  induction rss with
  | nil =>
    intro w ds _ rs hrs
    simp at hrs
  | cons x rest ih =>
    intro w ds hnone rs hrs hisapp hisapp'
    by_cases happ : env.IsApp x = true
    · rw [resources_step_app _ _ _ _ _ _ _ _ _ _ _ _ happ] at hnone ⊢
      rcases List.mem_cons.mp hrs with h | h
      · subst h
        rw [hisapp] at happ
        exact absurd happ (by simp)
      · exact ih w ds hnone rs h hisapp hisapp'
    · simp only [Bool.not_eq_true] at happ
      rw [resources_step_process _ _ _ _ _ _ _ _ _ _ _ _ happ (Or.inl rfl)] at hnone ⊢
      cases herr : (processResource env w (env.SetHealthStatusIfMissing x) startedAt ds
          manifestGenErr none none
          { app := a, appTree := appTree, revisionsMetadata := revisionsMetadata }
          atm).err with
      | some e => simp [herr] at hnone
      | none =>
        simp only [herr] at hnone ⊢
        rcases List.mem_cons.mp hrs with h | h
        · subst h
          obtain ⟨tail, htail⟩ := processResource_nonapp_calls env w
            (env.SetHealthStatusIfMissing rs) startedAt ds manifestGenErr none none
            { app := a, appTree := appTree, revisionsMetadata := revisionsMetadata } atm hisapp'
          obtain ⟨more, hmore⟩ := resources_calls_extend env a startedAt true atm appTree
            revisionsMetadata manifestGenErr rest
            (processResource env w (env.SetHealthStatusIfMissing rs) startedAt ds
              manifestGenErr none none
              { app := a, appTree := appTree, revisionsMetadata := revisionsMetadata }
              atm).world
            (processResource env w (env.SetHealthStatusIfMissing rs) startedAt ds
              manifestGenErr none none
              { app := a, appTree := appTree, revisionsMetadata := revisionsMetadata }
              atm).desiredManifests
          rw [hmore, htail]
          simp
        · exact ih _ _ hnone rs h hisapp hisapp'

theorem sendIfPermitted_eq (env : Env) (w : World) (a : Application)
    (eventType : EventType) (startedAt : String) (ignoreResourceCache : Bool) (key : String)
    (hb : eventType ≠ EventType.Bookmark) (hkey : env.GetAppInstanceLabelKey = .ok key) :
    sendIfPermitted env w a eventType startedAt ignoreResourceCache
      = match (StreamApplicationEvents env w a startedAt ignoreResourceCache
            { AppInstanceLabelKey := key, TrackingMethod := env.GetTrackingMethod }).1 with
        | some err =>
          (some err, (StreamApplicationEvents env w a startedAt ignoreResourceCache
            { AppInstanceLabelKey := key, TrackingMethod := env.GetTrackingMethod }).2.1)
        | none =>
          (((StreamApplicationEvents env w a startedAt ignoreResourceCache
              { AppInstanceLabelKey := key, TrackingMethod := env.GetTrackingMethod
                }).2.1.cache.SetLastApplicationEvent
              (StreamApplicationEvents env w a startedAt ignoreResourceCache
                { AppInstanceLabelKey := key, TrackingMethod := env.GetTrackingMethod }).2.2
              (applicationEventCacheExpiration env)).1,
           { (StreamApplicationEvents env w a startedAt ignoreResourceCache
              { AppInstanceLabelKey := key, TrackingMethod := env.GetTrackingMethod }).2.1 with
             cache := ((StreamApplicationEvents env w a startedAt ignoreResourceCache
              { AppInstanceLabelKey := key, TrackingMethod := env.GetTrackingMethod
                }).2.1.cache.SetLastApplicationEvent
              (StreamApplicationEvents env w a startedAt ignoreResourceCache
                { AppInstanceLabelKey := key, TrackingMethod := env.GetTrackingMethod }).2.2
              (applicationEventCacheExpiration env)).2 }) := by
  simp only [sendIfPermitted, hb, if_false, hkey]
  split
  · rfl
  · split
    · rename_i h
      rw [h]
    · rename_i h
      rw [h]

theorem StreamApplicationEvents_child (env : Env) (w : World) (a parent : Application)
    (startedAt : String) (ignoreResourceCache : Bool) (atm : ArgoTrackingMetadata)
    (htree : ∀ e, env.ResourceTree a.ObjectMeta.Name a.Spec.GetProject a.ObjectMeta.Namespace
        = .error e → stringsContains e "context deadline exceeded" = false)
    (hchild : env.IsChildApp
      (env.GetParentAppIdentity a atm.AppInstanceLabelKey atm.TrackingMethod) = true)
    (hget : env.Get
      (env.GetParentAppIdentity a atm.AppInstanceLabelKey atm.TrackingMethod).Name
      (env.GetParentAppIdentity a atm.AppInstanceLabelKey atm.TrackingMethod).Namespace
        = .ok parent)
    (herr : (childEventResult env w a parent startedAt atm).err = none) :
    StreamApplicationEvents env w a startedAt ignoreResourceCache atm
      = StreamApplicationEvents.walk env (childEventResult env w a parent startedAt atm).world
          ((childEventResult env w a parent startedAt atm).originalApplication.getD a)
          startedAt ignoreResourceCache atm (fetchedTree env a)
          (getDesiredManifests env w a none).1.1 (getDesiredManifests env w a none).1.2 := by
  have haft : ∀ appTree : Option ApplicationTree, fetchedTree env a = appTree →
      StreamApplicationEvents.afterTree env
          (w.call (.ResourceTree a.ObjectMeta.Name a.Spec.GetProject a.ObjectMeta.Namespace))
          a startedAt ignoreResourceCache atm appTree
        = StreamApplicationEvents.walk env (childEventResult env w a parent startedAt atm).world
            ((childEventResult env w a parent startedAt atm).originalApplication.getD a)
            startedAt ignoreResourceCache atm appTree
            (getDesiredManifests env w a none).1.1 (getDesiredManifests env w a none).1.2 := by
    intro appTree htr
    unfold childEventResult at herr ⊢
    rw [htr] at herr ⊢
    unfold StreamApplicationEvents.afterTree
    simp only [hchild, if_true, hget]
    rw [resolveApplicationVersions_fst env _ w a, getDesiredManifests_fst env _ w a none,
      getDesiredManifests_fst env _ w parent none]
    unfold worldAfterFetch appAsResource at herr ⊢
    simp only [herr]
  unfold StreamApplicationEvents
  simp only []
  cases htr : env.ResourceTree a.ObjectMeta.Name a.Spec.GetProject a.ObjectMeta.Namespace with
  | error e =>
    simp only [htree e htr, Bool.false_eq_true, if_false]
    rw [haft none (by simp only [fetchedTree, htr])]
    simp only [fetchedTree, htr]
  | ok appTree =>
    simp only []
    rw [haft (some appTree) (by simp only [fetchedTree, htr])]
    simp only [fetchedTree, htr]


/-- C20: the controller hands the second result of `ShouldSendApplicationEvent`
to `StreamApplicationEvents` as `ignoreResourceCache` (1).
`StreamApplicationEvents` runs the loop over `status.resources` with that flag:
on the root path once the event of the application is sent (2), on the
child-application path once the event of the child is processed (3).  In the
loop a resource that is an application is skipped, with either flag: the walk
goes as if the resource were not in the list (4).  For a resource `rs` that is
not an application, reached in world `w1` after the resources `pre` before it:
with the flag false and `shouldSendResourceEvent` false it is skipped in the same
way; with the flag true, whatever the cache holds, or with
`shouldSendResourceEvent` true, it is handed to `processResource`, whose
`GetResource` call for it follows the calls of `w1` (5).  With the flag true and
a nil return, a `GetResource` call was made for every resource of
`status.resources` that is not an application (6); so when a Healthy record
arrives over a cached one that is not Healthy and the handling of the event
returns nil, the controller has fetched every such resource of a root
application, whatever the resource cache holds (7). -/
theorem health_transition_bypasses_resource_cache :
    (∀ (env : Env) (w : World) (event : ApplicationWatchEvent) (startedAt key : String)
        (r : Option String × World × Application),
      event.Type_ ≠ EventType.Bookmark →
      (ShouldSendApplicationEvent w.cache event).1.1 = true →
      env.GetAppInstanceLabelKey = .ok key →
      StreamApplicationEvents env w (ShouldSendApplicationEvent w.cache event).2.Application
          startedAt (ShouldSendApplicationEvent w.cache event).1.2
          { AppInstanceLabelKey := key, TrackingMethod := env.GetTrackingMethod } = r →
      Run.handleEvent env w event startedAt
        = match r.1 with
          | some err => (some err, r.2.1)
          | none =>
            ((r.2.1.cache.SetLastApplicationEvent r.2.2 (applicationEventCacheExpiration env)).1,
             { r.2.1 with
               cache := (r.2.1.cache.SetLastApplicationEvent r.2.2
                 (applicationEventCacheExpiration env)).2 }))
    ∧ (∀ (env : Env) (w : World) (a : Application) (startedAt : String)
        (ignoreResourceCache : Bool) (atm : ArgoTrackingMetadata) (appEvent : EventPayload),
      (∀ e, env.ResourceTree a.ObjectMeta.Name a.Spec.GetProject a.ObjectMeta.Namespace
        = .error e → stringsContains e "context deadline exceeded" = false) →
      env.IsChildApp
        (env.GetParentAppIdentity a atm.AppInstanceLabelKey atm.TrackingMethod) = false →
      env.getApplicationEventPayload a (fetchedTree env a) startedAt
        (resolveApplicationVersions env w a).1 atm = .ok (some appEvent) →
      env.SendEvent a.ObjectMeta.Name appEvent = none →
      StreamApplicationEvents env w a startedAt ignoreResourceCache atm
        = StreamApplicationEvents.walk env
            ((worldAfterFetch env w a).call (.SendEvent a.ObjectMeta.Name appEvent)) a
            startedAt ignoreResourceCache atm (fetchedTree env a)
            (getDesiredManifests env w a none).1.1 (getDesiredManifests env w a none).1.2)
    ∧ (∀ (env : Env) (w : World) (a parent : Application) (startedAt : String)
        (ignoreResourceCache : Bool) (atm : ArgoTrackingMetadata),
      (∀ e, env.ResourceTree a.ObjectMeta.Name a.Spec.GetProject a.ObjectMeta.Namespace
        = .error e → stringsContains e "context deadline exceeded" = false) →
      env.IsChildApp
        (env.GetParentAppIdentity a atm.AppInstanceLabelKey atm.TrackingMethod) = true →
      env.Get
        (env.GetParentAppIdentity a atm.AppInstanceLabelKey atm.TrackingMethod).Name
        (env.GetParentAppIdentity a atm.AppInstanceLabelKey atm.TrackingMethod).Namespace
          = .ok parent →
      (childEventResult env w a parent startedAt atm).err = none →
      StreamApplicationEvents env w a startedAt ignoreResourceCache atm
        = StreamApplicationEvents.walk env (childEventResult env w a parent startedAt atm).world
            ((childEventResult env w a parent startedAt atm).originalApplication.getD a)
            startedAt ignoreResourceCache atm (fetchedTree env a)
            (getDesiredManifests env w a none).1.1 (getDesiredManifests env w a none).1.2)
    ∧ (∀ (env : Env) (w0 : World) (a : Application) (startedAt : String)
        (ignoreResourceCache : Bool) (atm : ArgoTrackingMetadata)
        (appTree : Option ApplicationTree) (dm : ManifestResponse) (manifestGenErr : Bool)
        (pre post : List ResourceStatus) (rs : ResourceStatus),
      a.Status.Resources = pre ++ rs :: post →
      env.IsApp rs = true →
      StreamApplicationEvents.walk env w0 a startedAt ignoreResourceCache atm appTree dm
          manifestGenErr
        = ((StreamApplicationEvents.resources env a startedAt ignoreResourceCache atm appTree
              (valueOrNil (env.getApplicationRevisionsMetadata a)) manifestGenErr (pre ++ post)
              w0 (some dm)).1,
           (StreamApplicationEvents.resources env a startedAt ignoreResourceCache atm appTree
              (valueOrNil (env.getApplicationRevisionsMetadata a)) manifestGenErr (pre ++ post)
              w0 (some dm)).2,
           a))
    ∧ (∀ (env : Env) (w0 w1 : World) (a : Application) (startedAt : String)
        (ignoreResourceCache : Bool) (atm : ArgoTrackingMetadata)
        (appTree : Option ApplicationTree) (dm : ManifestResponse) (manifestGenErr : Bool)
        (pre post : List ResourceStatus) (rs : ResourceStatus),
      a.Status.Resources = pre ++ rs :: post →
      StreamApplicationEvents.resources env a startedAt ignoreResourceCache atm appTree
        (valueOrNil (env.getApplicationRevisionsMetadata a)) manifestGenErr pre w0 (some dm)
        = (none, w1) →
      env.IsApp rs = false →
      (ignoreResourceCache = false →
        shouldSendResourceEvent env w1.cache a (env.SetHealthStatusIfMissing rs) = false →
        StreamApplicationEvents.walk env w0 a startedAt ignoreResourceCache atm appTree dm
            manifestGenErr
          = ((StreamApplicationEvents.resources env a startedAt ignoreResourceCache atm appTree
                (valueOrNil (env.getApplicationRevisionsMetadata a)) manifestGenErr
                (pre ++ post) w0 (some dm)).1,
             (StreamApplicationEvents.resources env a startedAt ignoreResourceCache atm appTree
                (valueOrNil (env.getApplicationRevisionsMetadata a)) manifestGenErr
                (pre ++ post) w0 (some dm)).2,
             a))
      ∧ ((ignoreResourceCache = true
            ∨ shouldSendResourceEvent env w1.cache a (env.SetHealthStatusIfMissing rs) = true) →
          (∃ ds1, ∀ pr, pr = processResource env w1 (env.SetHealthStatusIfMissing rs) startedAt
              ds1 manifestGenErr none none
              { app := a, appTree := appTree
                revisionsMetadata := valueOrNil (env.getApplicationRevisionsMetadata a) } atm →
            StreamApplicationEvents.walk env w0 a startedAt ignoreResourceCache atm appTree dm
                manifestGenErr
              = match pr.err with
                | some err => (some err, pr.world, a)
                | none =>
                  ((StreamApplicationEvents.resources env a startedAt ignoreResourceCache atm
                      appTree (valueOrNil (env.getApplicationRevisionsMetadata a))
                      manifestGenErr post pr.world pr.desiredManifests).1,
                   (StreamApplicationEvents.resources env a startedAt ignoreResourceCache atm
                      appTree (valueOrNil (env.getApplicationRevisionsMetadata a))
                      manifestGenErr post pr.world pr.desiredManifests).2,
                   a))
          ∧ (env.IsApp (env.SetHealthStatusIfMissing rs) = false →
              ∃ tail, (StreamApplicationEvents.walk env w0 a startedAt ignoreResourceCache atm
                  appTree dm manifestGenErr).2.1.calls
                = w1.calls ++ Call.GetResource
                    (getResourceActualState.request (env.SetHealthStatusIfMissing rs) a)
                    :: tail)))
    ∧ (∀ (env : Env) (w0 : World) (a : Application) (startedAt : String)
        (atm : ArgoTrackingMetadata) (appTree : Option ApplicationTree) (dm : ManifestResponse)
        (manifestGenErr : Bool),
      (StreamApplicationEvents.walk env w0 a startedAt true atm appTree dm manifestGenErr).1
        = none →
      ∀ rs ∈ a.Status.Resources, env.IsApp rs = false →
        env.IsApp (env.SetHealthStatusIfMissing rs) = false →
        Call.GetResource (getResourceActualState.request (env.SetHealthStatusIfMissing rs) a)
          ∈ (StreamApplicationEvents.walk env w0 a startedAt true atm appTree dm
              manifestGenErr).2.1.calls)
    ∧ (∀ (env : Env) (w : World) (event : ApplicationWatchEvent) (cached sent : Application)
        (startedAt key : String) (appEvent : EventPayload),
      event.Type_ ≠ EventType.Deleted →
      event.Type_ ≠ EventType.Bookmark →
      w.cache.GetLastApplicationEvent event.Application = .ok (some cached) →
      event.Application.Status.Health.Status = HealthStatusHealthy →
      cached.Status.Health.Status ≠ HealthStatusHealthy →
      env.GetAppInstanceLabelKey = .ok key →
      (ShouldSendApplicationEvent w.cache event).2.Application = sent →
      (∀ e, env.ResourceTree sent.ObjectMeta.Name sent.Spec.GetProject sent.ObjectMeta.Namespace
        = .error e → stringsContains e "context deadline exceeded" = false) →
      env.IsChildApp (env.GetParentAppIdentity sent key env.GetTrackingMethod) = false →
      env.getApplicationEventPayload sent (fetchedTree env sent) startedAt
        (resolveApplicationVersions env w sent).1
        { AppInstanceLabelKey := key, TrackingMethod := env.GetTrackingMethod }
          = .ok (some appEvent) →
      env.SendEvent sent.ObjectMeta.Name appEvent = none →
      (Run.handleEvent env w event startedAt).1 = none →
      ∀ rs ∈ sent.Status.Resources, env.IsApp rs = false →
        env.IsApp (env.SetHealthStatusIfMissing rs) = false →
        Call.GetResource (getResourceActualState.request (env.SetHealthStatusIfMissing rs) sent)
          ∈ (Run.handleEvent env w event startedAt).2.calls) := by
  have hctl : ∀ (env : Env) (w : World) (event : ApplicationWatchEvent) (startedAt key : String)
      (r : Option String × World × Application),
      event.Type_ ≠ EventType.Bookmark →
      (ShouldSendApplicationEvent w.cache event).1.1 = true →
      env.GetAppInstanceLabelKey = .ok key →
      StreamApplicationEvents env w (ShouldSendApplicationEvent w.cache event).2.Application
          startedAt (ShouldSendApplicationEvent w.cache event).1.2
          { AppInstanceLabelKey := key, TrackingMethod := env.GetTrackingMethod } = r →
      Run.handleEvent env w event startedAt
        = match r.1 with
          | some err => (some err, r.2.1)
          | none =>
            ((r.2.1.cache.SetLastApplicationEvent r.2.2 (applicationEventCacheExpiration env)).1,
             { r.2.1 with
               cache := (r.2.1.cache.SetLastApplicationEvent r.2.2
                 (applicationEventCacheExpiration env)).2 }) := by
    intro env w event startedAt key r hb hs hkey hr
    unfold Run.handleEvent
    simp only [hs, Bool.not_true, Bool.false_eq_true, if_false]
    rw [ShouldSendApplicationEvent_type,
      sendIfPermitted_eq env w _ event.Type_ startedAt _ key hb hkey, hr]
  have hroot : ∀ (env : Env) (w : World) (a : Application) (startedAt : String)
      (ignoreResourceCache : Bool) (atm : ArgoTrackingMetadata) (appEvent : EventPayload),
      (∀ e, env.ResourceTree a.ObjectMeta.Name a.Spec.GetProject a.ObjectMeta.Namespace
        = .error e → stringsContains e "context deadline exceeded" = false) →
      env.IsChildApp
        (env.GetParentAppIdentity a atm.AppInstanceLabelKey atm.TrackingMethod) = false →
      env.getApplicationEventPayload a (fetchedTree env a) startedAt
        (resolveApplicationVersions env w a).1 atm = .ok (some appEvent) →
      env.SendEvent a.ObjectMeta.Name appEvent = none →
      StreamApplicationEvents env w a startedAt ignoreResourceCache atm
        = StreamApplicationEvents.walk env
            ((worldAfterFetch env w a).call (.SendEvent a.ObjectMeta.Name appEvent)) a
            startedAt ignoreResourceCache atm (fetchedTree env a)
            (getDesiredManifests env w a none).1.1 (getDesiredManifests env w a none).1.2 := by
    intro env w a startedAt i atm appEvent htree hr hpayload hsent
    rw [StreamApplicationEvents_root env w a startedAt i atm htree hr, hpayload]
    simp only [hsent]
  have hall : ∀ (env : Env) (w0 : World) (a : Application) (startedAt : String)
      (atm : ArgoTrackingMetadata) (appTree : Option ApplicationTree) (dm : ManifestResponse)
      (manifestGenErr : Bool),
      (StreamApplicationEvents.walk env w0 a startedAt true atm appTree dm manifestGenErr).1
        = none →
      ∀ rs ∈ a.Status.Resources, env.IsApp rs = false →
        env.IsApp (env.SetHealthStatusIfMissing rs) = false →
        Call.GetResource (getResourceActualState.request (env.SetHealthStatusIfMissing rs) a)
          ∈ (StreamApplicationEvents.walk env w0 a startedAt true atm appTree dm
              manifestGenErr).2.1.calls := by
    intro env w0 a startedAt atm appTree dm manifestGenErr hnone
    unfold StreamApplicationEvents.walk at hnone ⊢
    exact resources_all_fetched env a startedAt atm appTree _ manifestGenErr
      a.Status.Resources w0 (some dm) hnone
  refine ⟨hctl, hroot, ?_, ?_, ?_, hall, ?_⟩
  · intro env w a parent startedAt i atm htree hchild hget herr
    exact StreamApplicationEvents_child env w a parent startedAt i atm htree hchild hget herr
  · intro env w0 a startedAt i atm appTree dm manifestGenErr pre post rs hres hisapp
    unfold StreamApplicationEvents.walk
    simp only [hres, resources_skip_app env a startedAt i atm appTree _ manifestGenErr rs post
      hisapp pre w0 (some dm)]
  · intro env w0 w1 a startedAt i atm appTree dm manifestGenErr pre post rs hres hpre hisapp
    obtain ⟨ds1, hsplit⟩ := resources_split env a startedAt i atm appTree
      (valueOrNil (env.getApplicationRevisionsMetadata a)) manifestGenErr pre w0 (some dm) w1
      hpre
    constructor
    · intro hi hcached
      subst hi
      unfold StreamApplicationEvents.walk
      simp only [hres]
      rw [hsplit (rs :: post), hsplit post,
        resources_step_skip _ _ _ _ _ _ _ _ _ _ _ hisapp hcached]
    · intro hproc
      have hwalk : StreamApplicationEvents.walk env w0 a startedAt i atm appTree dm
          manifestGenErr
          = match (processResource env w1 (env.SetHealthStatusIfMissing rs) startedAt ds1
                manifestGenErr none none
                { app := a, appTree := appTree
                  revisionsMetadata := valueOrNil (env.getApplicationRevisionsMetadata a) }
                atm).err with
            | some err =>
              (some err, (processResource env w1 (env.SetHealthStatusIfMissing rs) startedAt ds1
                manifestGenErr none none
                { app := a, appTree := appTree
                  revisionsMetadata := valueOrNil (env.getApplicationRevisionsMetadata a) }
                atm).world, a)
            | none =>
              ((StreamApplicationEvents.resources env a startedAt i atm
                  appTree (valueOrNil (env.getApplicationRevisionsMetadata a))
                  manifestGenErr post
                  (processResource env w1 (env.SetHealthStatusIfMissing rs) startedAt ds1
                    manifestGenErr none none
                    { app := a, appTree := appTree
                      revisionsMetadata := valueOrNil (env.getApplicationRevisionsMetadata a) }
                    atm).world
                  (processResource env w1 (env.SetHealthStatusIfMissing rs) startedAt ds1
                    manifestGenErr none none
                    { app := a, appTree := appTree
                      revisionsMetadata := valueOrNil (env.getApplicationRevisionsMetadata a) }
                    atm).desiredManifests).1,
               (StreamApplicationEvents.resources env a startedAt i atm
                  appTree (valueOrNil (env.getApplicationRevisionsMetadata a))
                  manifestGenErr post
                  (processResource env w1 (env.SetHealthStatusIfMissing rs) startedAt ds1
                    manifestGenErr none none
                    { app := a, appTree := appTree
                      revisionsMetadata := valueOrNil (env.getApplicationRevisionsMetadata a) }
                    atm).world
                  (processResource env w1 (env.SetHealthStatusIfMissing rs) startedAt ds1
                    manifestGenErr none none
                    { app := a, appTree := appTree
                      revisionsMetadata := valueOrNil (env.getApplicationRevisionsMetadata a) }
                    atm).desiredManifests).2,
               a) := by
        unfold StreamApplicationEvents.walk
        simp only [hres]
        rw [hsplit (rs :: post), resources_step_process _ _ _ _ _ _ _ _ _ _ _ _ hisapp hproc]
        split <;> rfl
      refine ⟨⟨ds1, fun pr hpr => by rw [hpr]; exact hwalk⟩, ?_⟩
      intro hisapp'
      rw [hwalk]
      obtain ⟨tail, htail⟩ := processResource_nonapp_calls env w1
        (env.SetHealthStatusIfMissing rs) startedAt ds1 manifestGenErr none none
        { app := a, appTree := appTree
          revisionsMetadata := valueOrNil (env.getApplicationRevisionsMetadata a) } atm hisapp'
      split
      · exact ⟨tail, htail⟩
      · obtain ⟨more, hmore⟩ := resources_calls_extend env a startedAt i atm appTree
          (valueOrNil (env.getApplicationRevisionsMetadata a)) manifestGenErr post
          (processResource env w1 (env.SetHealthStatusIfMissing rs) startedAt ds1
            manifestGenErr none none
            { app := a, appTree := appTree
              revisionsMetadata := valueOrNil (env.getApplicationRevisionsMetadata a) }
            atm).world
          (processResource env w1 (env.SetHealthStatusIfMissing rs) startedAt ds1
            manifestGenErr none none
            { app := a, appTree := appTree
              revisionsMetadata := valueOrNil (env.getApplicationRevisionsMetadata a) }
            atm).desiredManifests
        exact ⟨tail ++ more, by rw [hmore, htail]; simp⟩
  · intro env w event cached sent startedAt key appEvent hd hb hhit hhealthy hcached hkey hsent
      htree hr hpayload hsend hnone rs hrs hisapp hisapp'
    have hdec : (ShouldSendApplicationEvent w.cache event).1 = (true, true) := by
      rw [ShouldSendApplicationEvent_hit w.cache event cached hd hhit,
        if_pos ⟨hhealthy, hcached⟩]
    have hs : (ShouldSendApplicationEvent w.cache event).1.1 = true := by rw [hdec]
    have hflag : (ShouldSendApplicationEvent w.cache event).1.2 = true := by rw [hdec]
    have hrun := hctl env w event startedAt key _ hb hs hkey rfl
    rw [hsent, hflag] at hrun
    have hlink := hroot env w sent startedAt true
      { AppInstanceLabelKey := key, TrackingMethod := env.GetTrackingMethod } appEvent htree hr
      hpayload hsend
    rw [hlink] at hrun
    have hw := hall env
      ((worldAfterFetch env w sent).call (.SendEvent sent.ObjectMeta.Name appEvent)) sent
      startedAt { AppInstanceLabelKey := key, TrackingMethod := env.GetTrackingMethod }
      (fetchedTree env sent) (getDesiredManifests env w sent none).1.1
      (getDesiredManifests env w sent none).1.2
    rw [hrun] at hnone ⊢
    generalize StreamApplicationEvents.walk env
      ((worldAfterFetch env w sent).call (.SendEvent sent.ObjectMeta.Name appEvent)) sent
      startedAt true { AppInstanceLabelKey := key, TrackingMethod := env.GetTrackingMethod }
      (fetchedTree env sent) (getDesiredManifests env w sent none).1.1
      (getDesiredManifests env w sent none).1.2 = res at hw hnone ⊢
    obtain ⟨e, w', a'⟩ := res
    cases e with
    | some err => simp at hnone
    | none => exact hw rfl rs hrs hisapp hisapp'

/-- Witness of C20: the status of the Secret `prod/db` of the synced example
application is cached for the current revision.  When the Healthy record arrives
over the cached Degraded one, the controller fetches and sends the Secret; when
a Degraded record with another source definition arrives, it streams the
application and skips the Secret.  `StreamApplicationEvents` itself skips the
Secret with the flag false and fetches it with the flag true, on the root path
and on the child-application path, and it never fetches the child application
among the resources. -/
theorem health_transition_bypasses_resource_cache_witness :
    (Run.handleEvent exampleEnv degradedWarmWorld ⟨EventType.Modified, syncedApp⟩ "t0").2.calls
      = [Call.ResourceTree "guestbook" "default" "argocd",
         Call.GetManifests "guestbook" "argocd" none "default",
         Call.SendEvent "guestbook" { Body := "guestbook" },
         Call.GetResource (getResourceActualState.request secretResource syncedApp),
         Call.SendEvent "guestbook" { Body := "db" }]
    ∧ (Run.handleEvent exampleEnv degradedWarmWorld ⟨EventType.Modified, redefinedDegradedApp⟩
        "t0").2.calls
      = [Call.ResourceTree "guestbook" "default" "argocd",
         Call.GetManifests "guestbook" "argocd" none "default",
         Call.SendEvent "guestbook" { Body := "guestbook" }]
    ∧ Call.GetResource (getResourceActualState.request secretResource syncedApp)
        ∈ (Run.handleEvent exampleEnv degradedWarmWorld ⟨EventType.Modified, syncedApp⟩
            "t0").2.calls
    ∧ (StreamApplicationEvents exampleEnv warmWorld syncedApp "t0" false exampleTracking).2.1.calls
      = [Call.ResourceTree "guestbook" "default" "argocd",
         Call.GetManifests "guestbook" "argocd" none "default",
         Call.SendEvent "guestbook" { Body := "guestbook" }]
    ∧ (StreamApplicationEvents exampleEnv warmWorld syncedApp "t0" true exampleTracking).2.1.calls
      = [Call.ResourceTree "guestbook" "default" "argocd",
         Call.GetManifests "guestbook" "argocd" none "default",
         Call.SendEvent "guestbook" { Body := "guestbook" },
         Call.GetResource (getResourceActualState.request secretResource syncedApp),
         Call.SendEvent "guestbook" { Body := "db" }]
    ∧ (StreamApplicationEvents exampleEnv warmWorld appOfAppsApp "t0" true
        exampleTracking).2.1.calls
      = [Call.ResourceTree "guestbook" "default" "argocd",
         Call.GetManifests "guestbook" "argocd" none "default",
         Call.SendEvent "guestbook" { Body := "guestbook" },
         Call.GetResource (getResourceActualState.request secretResource syncedApp),
         Call.SendEvent "guestbook" { Body := "db" }]
    ∧ (StreamApplicationEvents childEnv warmWorld syncedApp "t0" false exampleTracking).2.1.calls
      = [Call.ResourceTree "guestbook" "default" "argocd",
         Call.GetManifests "guestbook" "argocd" none "default",
         Call.Get "umbrella" "argocd",
         Call.GetManifests "umbrella" "argocd" none "default",
         Call.SendEvent "guestbook" { Body := "guestbook" }]
    ∧ (StreamApplicationEvents childEnv warmWorld syncedApp "t0" true exampleTracking).2.1.calls
      = [Call.ResourceTree "guestbook" "default" "argocd",
         Call.GetManifests "guestbook" "argocd" none "default",
         Call.Get "umbrella" "argocd",
         Call.GetManifests "umbrella" "argocd" none "default",
         Call.SendEvent "guestbook" { Body := "guestbook" },
         Call.GetResource (getResourceActualState.request secretResource syncedApp),
         Call.SendEvent "guestbook" { Body := "db" }] := by
  have htree : ∀ (a : Application) (e : String),
      exampleEnv.ResourceTree a.ObjectMeta.Name a.Spec.GetProject a.ObjectMeta.Namespace
        = .error e → stringsContains e "context deadline exceeded" = false := by
    intro a e he
    simp [exampleEnv] at he
  have htreeChild : ∀ (a : Application) (e : String),
      childEnv.ResourceTree a.ObjectMeta.Name a.Spec.GetProject a.ObjectMeta.Namespace
        = .error e → stringsContains e "context deadline exceeded" = false := by
    intro a e he
    simp [childEnv, exampleEnv] at he
  refine ⟨by decide, by decide, ?_, ?_, ?_, ?_, ?_, ?_⟩
  · exact health_transition_bypasses_resource_cache.2.2.2.2.2.2 exampleEnv degradedWarmWorld
      ⟨EventType.Modified, syncedApp⟩ degradedSyncedApp syncedAppCleared "t0"
      "app.kubernetes.io/instance" { Body := "guestbook" } (by decide) (by decide) rfl rfl
      (by decide) rfl (by decide) (htree syncedAppCleared) rfl rfl rfl (by decide)
      secretResource (by decide) rfl rfl
  · rw [health_transition_bypasses_resource_cache.2.1 exampleEnv warmWorld syncedApp "t0" false
      exampleTracking { Body := "guestbook" } (htree syncedApp) rfl rfl rfl,
      (health_transition_bypasses_resource_cache.2.2.2.2.1 exampleEnv _ _ syncedApp "t0" false
        exampleTracking _ _ _ [] [] secretResource rfl rfl rfl).1 rfl (by decide)]
    decide
  · rw [health_transition_bypasses_resource_cache.2.1 exampleEnv warmWorld syncedApp "t0" true
      exampleTracking { Body := "guestbook" } (htree syncedApp) rfl rfl rfl]
    decide
  · rw [health_transition_bypasses_resource_cache.2.1 exampleEnv warmWorld appOfAppsApp "t0" true
      exampleTracking { Body := "guestbook" } (htree appOfAppsApp) rfl rfl rfl,
      health_transition_bypasses_resource_cache.2.2.2.1 exampleEnv _ appOfAppsApp "t0" true
        exampleTracking _ _ _ [] [secretResource] childAppResource rfl rfl]
    decide
  · rw [health_transition_bypasses_resource_cache.2.2.1 childEnv warmWorld syncedApp umbrellaApp
      "t0" false exampleTracking (htreeChild syncedApp) (by decide) rfl (by decide)]
    decide
  · rw [health_transition_bypasses_resource_cache.2.2.1 childEnv warmWorld syncedApp umbrellaApp
      "t0" true exampleTracking (htreeChild syncedApp) (by decide) rfl (by decide)]
    decide

theorem getDesiredManifests_calls (env : Env) (w : World) (a : Application)
    (revision : Option String) :
    (getDesiredManifests env w a revision).2.calls
      = w.calls ++ [Call.GetManifests a.ObjectMeta.Name a.ObjectMeta.Namespace revision
          a.Spec.GetProject] := by
  unfold getDesiredManifests
  simp only []
  split <;> rfl

theorem getResourceActualState_app (env : Env) (w : World) (rs : ResourceStatus)
    (parentApplication a : Application) (s : String)
    (hisapp : env.IsApp rs = true)
    (hmarshal : env.jsonMarshal (withTypeMeta env a) = .ok s)
    (hlen : s.length > 0) :
    getResourceActualState env w rs parentApplication (some a)
      = (.ok (some { Manifest := some s }), w, some (withTypeMeta env a)) := by
  unfold getResourceActualState
  simp only [hisapp, if_true]
  unfold withTypeMeta at hmarshal
  simp only [hmarshal, hlen, if_true]
  rfl

theorem processResource_app_calls (env : Env) (w : World) (rs : ResourceStatus)
    (startedAt : String) (ds : Option ManifestResponse) (manifestGenErr : Bool)
    (a : Application) (av : Option ApplicationVersions)
    (parent : ReportedEntityParentApp) (atm : ArgoTrackingMetadata)
    (s : String) (inner : Application) (ev : EventPayload)
    (hisapp : env.IsApp rs = true)
    (hmarshal : env.jsonMarshal (withTypeMeta env a) = .ok s)
    (hlen : s.length > 0)
    (hunmarshal : env.jsonUnmarshal s = .ok inner)
    (hp : processResource.payload env startedAt rs { Manifest := some s }
      (getResourceDesiredState env.UnmarshalToUnstructured rs ds).1 manifestGenErr
      (some (withTypeMeta env a)) av parent atm = .ok ev) :
    (processResource env w rs startedAt ds manifestGenErr (some a) av parent atm).world.calls
        = w.calls ++ [Call.SendEvent inner.ObjectMeta.Name ev]
      ∧ (processResource env w rs startedAt ds manifestGenErr (some a) av parent
          atm).originalApplication = some (withTypeMeta env a) := by
  have hname : processResource.appName env rs { Manifest := some s } parent
      = inner.ObjectMeta.Name := by
    simp [processResource.appName, hisapp, hunmarshal]
  simp only [processResource,
    getResourceActualState_app env w rs parent.app a s hisapp hmarshal hlen, hp, hname]
  split
  · split <;> exact ⟨rfl, rfl⟩
  · exact ⟨rfl, rfl⟩

theorem walk_calls_extend (env : Env) (w : World) (a : Application) (startedAt : String)
    (ignoreResourceCache : Bool) (atm : ArgoTrackingMetadata) (appTree : Option ApplicationTree)
    (desiredManifests : ManifestResponse) (manifestGenErr : Bool) :
    ∃ more, (StreamApplicationEvents.walk env w a startedAt ignoreResourceCache atm appTree
        desiredManifests manifestGenErr).2.1.calls = w.calls ++ more := by
  unfold StreamApplicationEvents.walk
  exact resources_calls_extend env a startedAt ignoreResourceCache atm appTree _ manifestGenErr
    a.Status.Resources w (some desiredManifests)

theorem afterTree_child_calls (env : Env) (w : World) (a parent : Application)
    (startedAt : String) (ignoreResourceCache : Bool) (atm : ArgoTrackingMetadata)
    (appTree : Option ApplicationTree) (s : String) (inner : Application) (ev : EventPayload)
    (hchild : env.IsChildApp
      (env.GetParentAppIdentity a atm.AppInstanceLabelKey atm.TrackingMethod) = true)
    (hget : env.Get
      (env.GetParentAppIdentity a atm.AppInstanceLabelKey atm.TrackingMethod).Name
      (env.GetParentAppIdentity a atm.AppInstanceLabelKey atm.TrackingMethod).Namespace
        = .ok parent)
    (hisapp : env.IsApp (appAsResource env a) = true)
    (hmarshal : env.jsonMarshal (withTypeMeta env a) = .ok s)
    (hlen : s.length > 0)
    (hunmarshal : env.jsonUnmarshal s = .ok inner)
    (hp : processResource.payload env startedAt (appAsResource env a) { Manifest := some s }
      (getResourceDesiredState env.UnmarshalToUnstructured (appAsResource env a)
        (some (getDesiredManifests env w parent none).1.1)).1
      (getDesiredManifests env w parent none).1.2 (some (withTypeMeta env a))
      (resolveApplicationVersions env w a).1
      { app := parent, appTree := appTree
        revisionsMetadata := valueOrNil (env.getApplicationRevisionsMetadata parent) }
      atm = .ok ev) :
    ∃ rest, (StreamApplicationEvents.afterTree env w a startedAt ignoreResourceCache atm
        appTree).2.1.calls
      = (resolveApplicationVersions env (getDesiredManifests env w a none).2 a).2.calls
        ++ [Call.Get
              (env.GetParentAppIdentity a atm.AppInstanceLabelKey atm.TrackingMethod).Name
              (env.GetParentAppIdentity a atm.AppInstanceLabelKey atm.TrackingMethod).Namespace,
            Call.GetManifests parent.ObjectMeta.Name parent.ObjectMeta.Namespace none
              parent.Spec.GetProject,
            Call.SendEvent inner.ObjectMeta.Name ev]
        ++ rest := by
  unfold StreamApplicationEvents.afterTree
  simp only [hchild, if_true, hget]
  generalize hw2 : (resolveApplicationVersions env (getDesiredManifests env w a none).2 a).2
    = w2
  have hav : (resolveApplicationVersions env (getDesiredManifests env w a none).2 a).1
      = (resolveApplicationVersions env w a).1 := resolveApplicationVersions_fst env _ w a
  rw [hav]
  generalize hw3 : getDesiredManifests env
    (w2.call (Call.Get
      (env.GetParentAppIdentity a atm.AppInstanceLabelKey atm.TrackingMethod).Name
      (env.GetParentAppIdentity a atm.AppInstanceLabelKey atm.TrackingMethod).Namespace))
    parent none = pdm
  have hpdm1 : pdm.1 = (getDesiredManifests env w parent none).1 := by
    rw [← hw3]
    exact getDesiredManifests_fst env _ w parent none
  have hpdm2 : pdm.2.calls = w2.calls
      ++ [Call.Get
            (env.GetParentAppIdentity a atm.AppInstanceLabelKey atm.TrackingMethod).Name
            (env.GetParentAppIdentity a atm.AppInstanceLabelKey atm.TrackingMethod).Namespace,
          Call.GetManifests parent.ObjectMeta.Name parent.ObjectMeta.Namespace none
            parent.Spec.GetProject] := by
    rw [← hw3, getDesiredManifests_calls]
    simp [World.call]
  rw [← hpdm1] at hp
  have hpr := processResource_app_calls env pdm.2 (appAsResource env a) startedAt
    (some pdm.1.1) pdm.1.2 a (resolveApplicationVersions env w a).1
    { app := parent, appTree := appTree
      revisionsMetadata := valueOrNil (env.getApplicationRevisionsMetadata parent) }
    atm s inner ev hisapp hmarshal hlen hunmarshal hp
  unfold appAsResource at hpr
  generalize processResource env pdm.2
    (env.SetHealthStatusIfMissing (env.GetAppAsResource a)) startedAt (some pdm.1.1) pdm.1.2
    (some a) (resolveApplicationVersions env w a).1
    { app := parent, appTree := appTree
      revisionsMetadata := valueOrNil (env.getApplicationRevisionsMetadata parent) } atm = r
    at hpr
  split
  · refine ⟨[], ?_⟩
    simp only [hpr.1, hpdm2]
    simp
  · obtain ⟨more, hmore⟩ := walk_calls_extend env r.world (r.originalApplication.getD a)
      startedAt ignoreResourceCache atm appTree (getDesiredManifests env w a none).1.1
      (getDesiredManifests env w a none).1.2
    refine ⟨more, ?_⟩
    rw [hmore, hpr.1, hpdm2]
    simp

/-- C16 (counterexample): the tracking metadata of `guestbook` names the parent
`umbrella`, the parent is fetched, and the synthetic resource event of the child
is sent under the key `guestbook`, the name parsed from the child's own
manifest, not under `umbrella`. -/
theorem child_event_is_not_keyed_by_parent :
    childEnv.IsChildApp (childEnv.GetParentAppIdentity syncedApp
        exampleTracking.AppInstanceLabelKey exampleTracking.TrackingMethod) = true
    ∧ childEnv.Get "umbrella" "argocd" = .ok umbrellaApp
    ∧ umbrellaApp.ObjectMeta.Name = "umbrella"
    ∧ (StreamApplicationEvents childEnv initialWorld syncedApp "t0" false
        exampleTracking).2.1.calls
      = [Call.ResourceTree "guestbook" "default" "argocd",
         Call.GetManifests "guestbook" "argocd" none "default",
         Call.Get "umbrella" "argocd",
         Call.GetManifests "umbrella" "argocd" none "default",
         Call.SendEvent "guestbook" { Body := "guestbook" },
         Call.GetResource (getResourceActualState.request secretResource syncedApp),
         Call.SendEvent "guestbook" { Body := "db" }] := by
  refine ⟨by decide, rfl, rfl, by decide⟩

/-- C16 (amended): for an application whose tracking metadata identifies a
parent application that is fetched, the synthetic resource event of the child is
the first `SendEvent` of the cycle, after the `Get` of the parent and the
`GetManifests` for it, and its key is the name of the application parsed from
the child's own marshalled manifest. -/
theorem child_app_delivery_key (env : Env) (w : World) (a parent : Application)
    (startedAt : String) (ignoreResourceCache : Bool) (atm : ArgoTrackingMetadata)
    (s : String) (inner : Application) (ev : EventPayload)
    (htree : ∀ e, env.ResourceTree a.ObjectMeta.Name a.Spec.GetProject a.ObjectMeta.Namespace
        = .error e → stringsContains e "context deadline exceeded" = false)
    (hchild : env.IsChildApp
      (env.GetParentAppIdentity a atm.AppInstanceLabelKey atm.TrackingMethod) = true)
    (hget : env.Get
      (env.GetParentAppIdentity a atm.AppInstanceLabelKey atm.TrackingMethod).Name
      (env.GetParentAppIdentity a atm.AppInstanceLabelKey atm.TrackingMethod).Namespace
        = .ok parent)
    (hisapp : env.IsApp (appAsResource env a) = true)
    (hmarshal : env.jsonMarshal (withTypeMeta env a) = .ok s)
    (hlen : s.length > 0)
    (hunmarshal : env.jsonUnmarshal s = .ok inner)
    (hp : processResource.payload env startedAt (appAsResource env a) { Manifest := some s }
      (getResourceDesiredState env.UnmarshalToUnstructured (appAsResource env a)
        (some (getDesiredManifests env w parent none).1.1)).1
      (getDesiredManifests env w parent none).1.2 (some (withTypeMeta env a))
      (resolveApplicationVersions env w a).1
      { app := parent, appTree := fetchedTree env a
        revisionsMetadata := valueOrNil (env.getApplicationRevisionsMetadata parent) }
      atm = .ok ev) :
    ∃ rest, (StreamApplicationEvents env w a startedAt ignoreResourceCache atm).2.1.calls
      = (worldAfterFetch env w a).calls
        ++ [Call.Get
              (env.GetParentAppIdentity a atm.AppInstanceLabelKey atm.TrackingMethod).Name
              (env.GetParentAppIdentity a atm.AppInstanceLabelKey atm.TrackingMethod).Namespace,
            Call.GetManifests parent.ObjectMeta.Name parent.ObjectMeta.Namespace none
              parent.Spec.GetProject,
            Call.SendEvent inner.ObjectMeta.Name ev]
        ++ rest := by
  have haft := afterTree_child_calls env
    (w.call (.ResourceTree a.ObjectMeta.Name a.Spec.GetProject a.ObjectMeta.Namespace))
    a parent startedAt ignoreResourceCache atm (fetchedTree env a) s inner ev hchild hget hisapp
    hmarshal hlen hunmarshal
    (by
      rw [getDesiredManifests_fst env _ w parent none, resolveApplicationVersions_fst env _ w a]
      exact hp)
  unfold StreamApplicationEvents
  simp only []
  cases htr : env.ResourceTree a.ObjectMeta.Name a.Spec.GetProject a.ObjectMeta.Namespace with
  | error e =>
    simp only [htree e htr, Bool.false_eq_true, if_false]
    simp only [fetchedTree, htr] at haft
    exact haft
  | ok appTree =>
    simp only []
    simp only [fetchedTree, htr] at haft
    exact haft

/-- Witness of C16: the child `guestbook` of the parent `umbrella`; the event of
the child is sent under the key `guestbook`. -/
theorem child_app_delivery_key_witness :
    Call.SendEvent "guestbook" { Body := "guestbook" }
      ∈ (StreamApplicationEvents childEnv initialWorld syncedApp "t0" false
          exampleTracking).2.1.calls := by
  obtain ⟨rest, h⟩ := child_app_delivery_key childEnv initialWorld syncedApp umbrellaApp "t0"
    false exampleTracking "guestbook"
    { exampleApp with ObjectMeta := { exampleApp.ObjectMeta with Name := "guestbook" } }
    { Body := "guestbook" }
    (fun e he => by simp [childEnv, exampleEnv] at he)
    rfl rfl rfl rfl (by decide) rfl rfl
  rw [h]
  simp

theorem ShouldSendApplicationEvent_event_hit (cache : Cache) (ae : ApplicationWatchEvent)
    (cached : Application) (hd : ae.Type_ ≠ EventType.Deleted)
    (hhit : cache.GetLastApplicationEvent ae.Application = .ok (some cached)) :
    (ShouldSendApplicationEvent cache ae).2 =
      { ae with
        Application := { ae.Application with
          Status := { ae.Application.Status with
            Conditions := clearLastTransitionTime ae.Application.Status.Conditions } } } := by
  unfold ShouldSendApplicationEvent
  simp only [hd, hhit, if_false]
  split
  · rfl
  · split
    · rfl
    · split
      · rfl
      · split
        · rfl
        · split <;> rfl

theorem onlyTransitionTimesCleared_clear (ae : ApplicationWatchEvent) :
    onlyTransitionTimesCleared ae
      { ae with
        Application := { ae.Application with
          Status := { ae.Application.Status with
            Conditions := clearLastTransitionTime ae.Application.Status.Conditions } } } := by
  refine ⟨?_, ?_, rfl, rfl, rfl, rfl, rfl, rfl, rfl, rfl, rfl, rfl, rfl⟩
  · intro c hc
    simp only [clearLastTransitionTime, List.mem_map] at hc
    obtain ⟨c0, _, rfl⟩ := hc
    rfl
  · simp only [clearLastTransitionTime, List.map_map]
    rfl

theorem GetLastApplicationEvent_key (c : Cache) (a b : Application)
    (h : lastApplicationEventKey a = lastApplicationEventKey b) :
    c.GetLastApplicationEvent a = c.GetLastApplicationEvent b := by
  simp [Cache.GetLastApplicationEvent, h]

theorem sendIfPermitted_stored (env : Env) (w : World) (a : Application) (kind : EventType)
    (startedAt : String) (flag : Bool) (hb : kind ≠ EventType.Bookmark)
    (hnone : (sendIfPermitted env w a kind startedAt flag).1 = none) :
    (sendIfPermitted env w a kind startedAt flag).2.cache.GetLastApplicationEvent a
        = .ok (some a)
      ∨ (sendIfPermitted env w a kind startedAt flag).2.cache.GetLastApplicationEvent a
        = .ok (some (SetDefaultTypeMeta env a)) := by
  revert hnone
  unfold sendIfPermitted
  simp only [hb, if_false]
  cases env.GetAppInstanceLabelKey with
  | error e => simp
  | ok key =>
    simp only []
    have hframe := StreamApplicationEvents_frame env w a startedAt flag
      { AppInstanceLabelKey := key, TrackingMethod := env.GetTrackingMethod }
    generalize StreamApplicationEvents env w a startedAt flag
      { AppInstanceLabelKey := key, TrackingMethod := env.GetTrackingMethod } = r at hframe
    obtain ⟨err, w', a'⟩ := r
    simp only [] at hframe
    cases err with
    | some e => simp
    | none =>
      simp only []
      unfold Cache.SetLastApplicationEvent
      by_cases hav : w'.cache.Available = true
      · simp only [hav, if_true]
        intro _
        rcases hframe.2 with h | h
        · left
          subst h
          simp [Cache.GetLastApplicationEvent, hav]
        · right
          subst h
          simp [Cache.GetLastApplicationEvent, hav, SetDefaultTypeMeta, lastApplicationEventKey]
      · simp [hav]

/-- C21: effect of `ShouldSendApplicationEvent` on the event it is given.  For a
Deleted event, and for an event whose cache lookup is a miss or a fault, the
event is returned as it came.  For a non-Deleted event with a cache hit the
event it leaves has no transition time in any condition and is the incoming one
in every other field; the controller hands the record of that event to
`sendIfPermitted`; `StreamApplicationEvents` leaves it without transition times;
and when the handling of a non-Bookmark event returns no error, the cache entry
of the application is that record (with its type meta defaulted on the
child-application path), which carries no transition time. -/
theorem should_send_argument_effect (env : Env) (w : World) (event : ApplicationWatchEvent)
    (startedAt : String) :
    (event.Type_ = EventType.Deleted → (ShouldSendApplicationEvent w.cache event).2 = event)
    ∧ ((∀ cached, w.cache.GetLastApplicationEvent event.Application ≠ .ok (some cached)) →
        (ShouldSendApplicationEvent w.cache event).2 = event)
    ∧ (∀ cached, event.Type_ ≠ EventType.Deleted →
        w.cache.GetLastApplicationEvent event.Application = .ok (some cached) →
        onlyTransitionTimesCleared event (ShouldSendApplicationEvent w.cache event).2
        ∧ ((ShouldSendApplicationEvent w.cache event).1.1 = true →
            Run.handleEvent env w event startedAt
              = sendIfPermitted env w (ShouldSendApplicationEvent w.cache event).2.Application
                  event.Type_ startedAt (ShouldSendApplicationEvent w.cache event).1.2)
        ∧ (∀ atm, (StreamApplicationEvents env w
              (ShouldSendApplicationEvent w.cache event).2.Application startedAt
              (ShouldSendApplicationEvent w.cache event).1.2 atm).2.2.noTransitionTimes)
        ∧ ((ShouldSendApplicationEvent w.cache event).1.1 = true →
            event.Type_ ≠ EventType.Bookmark →
            (Run.handleEvent env w event startedAt).1 = none →
            ((Run.handleEvent env w event startedAt).2.cache.GetLastApplicationEvent
                  event.Application
                = .ok (some (ShouldSendApplicationEvent w.cache event).2.Application)
              ∨ (Run.handleEvent env w event startedAt).2.cache.GetLastApplicationEvent
                  event.Application
                = .ok (some (SetDefaultTypeMeta env
                    (ShouldSendApplicationEvent w.cache event).2.Application)))
            ∧ (SetDefaultTypeMeta env
                (ShouldSendApplicationEvent w.cache event).2.Application).noTransitionTimes)) := by
  refine ⟨fun h => by simp [ShouldSendApplicationEvent, h],
    fun hmiss => by rw [ShouldSendApplicationEvent_not_hit w.cache event hmiss], ?_⟩
  intro cached hd hhit
  have honly : onlyTransitionTimesCleared event (ShouldSendApplicationEvent w.cache event).2 := by
    rw [ShouldSendApplicationEvent_event_hit w.cache event cached hd hhit]
    exact onlyTransitionTimesCleared_clear event
  have hrun : (ShouldSendApplicationEvent w.cache event).1.1 = true →
      Run.handleEvent env w event startedAt
        = sendIfPermitted env w (ShouldSendApplicationEvent w.cache event).2.Application
            event.Type_ startedAt (ShouldSendApplicationEvent w.cache event).1.2 := by
    intro hs
    unfold Run.handleEvent
    simp only [hs, Bool.not_true, Bool.false_eq_true, if_false]
    rw [ShouldSendApplicationEvent_type]
  generalize ShouldSendApplicationEvent w.cache event = d at honly hrun
  have hno : d.2.Application.noTransitionTimes := honly.1
  have hdef : (SetDefaultTypeMeta env d.2.Application).noTransitionTimes := hno
  refine ⟨honly, hrun, ?_, ?_⟩
  · intro atm
    rcases (StreamApplicationEvents_frame env w d.2.Application startedAt d.1.2 atm).2 with h | h
    · rw [h]
      exact hno
    · rw [h]
      exact hdef
  · intro hs hb hnone
    refine ⟨?_, hdef⟩
    rw [hrun hs] at hnone ⊢
    have hkey : lastApplicationEventKey event.Application
        = lastApplicationEventKey d.2.Application := by
      simp only [lastApplicationEventKey, honly.2.2.2.2.1]
    rw [GetLastApplicationEvent_key _ _ _ hkey]
    exact sendIfPermitted_stored env w d.2.Application event.Type_ startedAt d.1.2 hb hnone

/-- Witness of C21: the resynced example application.  As a Deleted event, and
as a Modified event on an empty cache, it is returned as it came; as a Modified
event on a cache that holds the synced application its one condition loses its
transition time and nothing else changes, the controller streams that record,
and the cache entry it writes is that record. -/
theorem should_send_argument_effect_witness :
    (ShouldSendApplicationEvent cachedWorld.cache ⟨EventType.Deleted, resyncedApp⟩).2
        = ⟨EventType.Deleted, resyncedApp⟩
    ∧ (ShouldSendApplicationEvent initialWorld.cache ⟨EventType.Modified, resyncedApp⟩).2
        = ⟨EventType.Modified, resyncedApp⟩
    ∧ onlyTransitionTimesCleared ⟨EventType.Modified, resyncedApp⟩
        (ShouldSendApplicationEvent cachedWorld.cache ⟨EventType.Modified, resyncedApp⟩).2
    ∧ Run.handleEvent exampleEnv cachedWorld ⟨EventType.Modified, resyncedApp⟩ "t0"
        = sendIfPermitted exampleEnv cachedWorld resyncedAppCleared EventType.Modified "t0" false
    ∧ (Run.handleEvent exampleEnv cachedWorld ⟨EventType.Modified, resyncedApp⟩
          "t0").2.cache.GetLastApplicationEvent resyncedApp
        = .ok (some resyncedAppCleared) := by
  have hdeleted := (should_send_argument_effect exampleEnv cachedWorld
    ⟨EventType.Deleted, resyncedApp⟩ "t0").1 rfl
  have hmiss := (should_send_argument_effect exampleEnv initialWorld
    ⟨EventType.Modified, resyncedApp⟩ "t0").2.1
    (by intro c; simp [initialWorld, emptyCache, Cache.GetLastApplicationEvent])
  have hhit := (should_send_argument_effect exampleEnv cachedWorld
    ⟨EventType.Modified, resyncedApp⟩ "t0").2.2 syncedApp (by decide) rfl
  have hsent : (ShouldSendApplicationEvent cachedWorld.cache
      ⟨EventType.Modified, resyncedApp⟩) = ((true, false), ⟨EventType.Modified, resyncedAppCleared⟩) := by
    decide
  refine ⟨hdeleted, hmiss, hhit.1, ?_, ?_⟩
  · have h := hhit.2.1 (by decide)
    rw [hsent] at h
    exact h
  · have h := hhit.2.2.2 (by decide) (by decide) (by decide)
    rw [hsent] at h
    rcases h.1 with h1 | h1
    · exact h1
    · exfalso
      have hav : (Run.handleEvent exampleEnv cachedWorld ⟨EventType.Modified, resyncedApp⟩
          "t0").2.cache.Available = true := by decide
      have hentry : (Run.handleEvent exampleEnv cachedWorld ⟨EventType.Modified, resyncedApp⟩
          "t0").2.cache.LastApplicationEvent (lastApplicationEventKey resyncedApp)
          = some resyncedAppCleared := by decide
      simp only [Cache.GetLastApplicationEvent, hav, if_true, hentry, Except.ok.injEq,
        Option.some.injEq] at h1
      exact absurd h1 (by decide)

end EventReporter
